import Mathlib

/-!
Shallow embedding of the BletchMAME info-DB builder and worker-task code
(`src/info_builder.cpp`, `src/utility.cpp`, `src/utility.h`,
`src/listxmltask.cpp`, `src/runmachinetask.cpp`).

Strings are modelled as lists of byte values (`ByteStr`); machine integers
are `Nat` with explicit `% 2 ^ 32` where the C++ narrows.  Fallible C++
(exceptions, assertions) is modelled with `Except`.  Code of the repository
that is not part of the sources at hand (the `info.h` small-string encoding,
the XML attribute parsing layer, the loader's binary-search lookup) is
modelled from the spec; every such definition is marked
`Modelled from the spec:` in its doc comment.
-/

/-- A byte string: the UTF-8 byte content of a C++ `std::string`. -/
abbrev ByteStr := List Nat

/-- A byte value usable in a NUL-terminated C string: nonzero and below 256. -/
def byteOk (b : Nat) : Prop := 0 < b ∧ b < 256

instance (b : Nat) : Decidable (byteOk b) := by
  unfold byteOk; infer_instance

/-- All bytes of a string are valid C-string bytes. -/
def strOk (s : ByteStr) : Prop := ∀ b ∈ s, byteOk b

instance (s : ByteStr) : Decidable (strOk s) := by
  unfold strOk; infer_instance

/-! ## `util::salt` (utility.h lines 332-349)

`salt(destination, original, original_size, salt, salt_size)` XORs every byte
of the original with the pepper byte at position `i % salt_size`.  We model a
buffer as a list of byte values. -/

/-- Embedding of `util::salt` (utility.h): byte `i` of the result is
`original[i] XOR pepper[i % pepper.length]`. -/
def util.salt (original pepper : List Nat) : List Nat :=
  (List.range original.length).map
    (fun i => (original.getD i 0) ^^^ (pepper.getD (i % pepper.length) 0))

/-! ## `util::binaryFromHex` (utility.cpp lines 27-74)

`hexDigit` maps an ASCII character to its hex value.  The decoding loop
condition in the source is `pos < dest.size() && pos < hex.size() * 2`, and
the loop body reads `hex[pos * 2 + 0]` and `hex[pos * 2 + 1]`.  We model the
character fetch with total `Option`-returning indexing; a fetch that falls
outside the string is reported in the `Bool` component of the result.  When
an out-of-range fetch happens the loop stops, which coincides with the
concrete C++ executions in this repository: every caller passes a
`std::string`, whose buffer is NUL-terminated, and `hexDigit('\0')` fails. -/

/-- Embedding of the static `hexDigit` helper (utility.cpp): ASCII code of a
hex digit to its value, `none` otherwise. -/
def hexDigit (ch : Nat) : Option Nat :=
  if 48 ≤ ch ∧ ch ≤ 57 then some (ch - 48)
  else if 65 ≤ ch ∧ ch ≤ 70 then some (ch - 65 + 10)
  else if 97 ≤ ch ∧ ch ≤ 102 then some (ch - 97 + 10)
  else none

/-- One step of the `util::binaryFromHex` loop, with `fuel = dest.size - pos`.
Returns the decoded bytes appended from position `pos` on, and whether any
character fetch was out of range (`hex.get?` returned `none`). -/
def binaryFromHexGo (hex : List Nat) (destSize : Nat) (pos : Nat) (fuel : Nat) :
    List Nat × Bool :=
  match fuel with
  | 0 => ([], false)
  | fuel + 1 =>
    if pos < destSize ∧ pos < hex.length * 2 then
      match hex.get? (pos * 2) with
      | none => ([], true)
      | some c0 =>
        match hexDigit c0 with
        | none => ([], false)
        | some hi =>
          match hex.get? (pos * 2 + 1) with
          | none => ([], true)
          | some c1 =>
            match hexDigit c1 with
            | none => ([], false)
            | some lo =>
              let (rest, oob) := binaryFromHexGo hex destSize (pos + 1) fuel
              ((hi * 16 + lo) :: rest, oob)
    else ([], false)

/-- Embedding of `util::binaryFromHex` (utility.cpp lines 57-74) for a
destination span of `destSize` bytes: the decoded bytes (the returned
`std::size_t pos` is their length, and they are written to `dest[0..pos)`),
plus the flag recording whether the loop ever fetched a character at a
position `≥ hex.length`. -/
def util.binaryFromHex (destSize : Nat) (hex : List Nat) : List Nat × Bool :=
  binaryFromHexGo hex destSize 0 destSize

/-- Embedding of the static `binaryFromHex<N>` wrapper in info_builder.cpp
(lines 176-182): decode into an `N`-byte array, zero-fill from the returned
position to the end, and return whether exactly `N` bytes were decoded.
An absent attribute (`hex = none`) decodes zero bytes. -/
def infoBinaryFromHex (N : Nat) (hex : Option ByteStr) : List Nat × Bool :=
  let pos : List Nat := match hex with
    | some h => (util.binaryFromHex N h).1
    | none => []
  (pos ++ List.replicate (N - pos.length) 0, pos.length == N)

/-! ## String table (info_builder.cpp lines 598-695)

`info::database_builder::string_table` keeps an append-only byte buffer
(`m_data`), and a map from string content to the offset where the string's
bytes (plus a trailing NUL) were appended.  `get` first tries the
small-string encoding; `lookup` decodes small-string references directly and
treats every other reference as an offset into the buffer. -/

/-- Error values for the fallible paths of the builder. -/
inductive BuildErr where
  /-- the `std::logic_error "Array size cannot fit in 32 bits"` thrown by
  `to_uint32` -/
  | arraySizeOverflow : BuildErr
  /-- a failed `assert` / undefined behaviour, e.g. `util::last` on an empty
  container -/
  | assertFailure : BuildErr
deriving Repr, DecidableEq

/-- Embedding of the static `to_uint32` (info_builder.cpp lines 126-133):
cast to `uint32`, throw unless the cast round-trips. -/
def to_uint32 (n : Nat) : Except BuildErr Nat :=
  if n % 2 ^ 32 = n then .ok (n % 2 ^ 32) else .error .arraySizeOverflow

/-- Fold a short byte string into a number, base 256, most significant
byte first. -/
def packBytes (s : ByteStr) : Nat := s.foldl (fun acc b => acc * 256 + b) 0

/-- The tag offset that separates small-string encodings from buffer
offsets. -/
def ssoTag : Nat := 0xFF000000

/-- Modelled from the spec: `info::database::tryEncodeAsSmallString`
(declared in `info.h`, which is not among the sources).  The spec (§3, §4.1,
§9) requires that strings up to a small fixed length are encoded directly
into the 32-bit reference, bijectively and disjointly from buffer offsets;
it leaves the threshold and bit layout implementation-chosen.  We encode
strings of up to 3 valid C-string bytes, base 256, above the tag
`0xFF000000`; references below the tag are buffer offsets as long as the
buffer stays shorter than the tag, which the builder's sizing (≈4.5 MB)
guarantees in practice and which our theorems take as a hypothesis. -/
def tryEncodeAsSmallString (s : ByteStr) : Option Nat :=
  if s.length ≤ 3 ∧ strOk s then some (ssoTag + packBytes s) else none

/-- Unfold a number into its base-256 digits, most significant first. -/
def unpackBytes (n : Nat) : ByteStr :=
  if h : n = 0 then [] else unpackBytes (n / 256) ++ [n % 256]
decreasing_by exact Nat.div_lt_self (Nat.pos_of_ne_zero h) (by omega)

/-- Modelled from the spec: `info::database::tryDecodeAsSmallString`
(declared in `info.h`, not among the sources) — the inverse of
`tryEncodeAsSmallString` on its range; fails on references outside the
tagged range. -/
def tryDecodeAsSmallString (v : Nat) : Option ByteStr :=
  if ssoTag ≤ v ∧ v < ssoTag + 2 ^ 24 then some (unpackBytes (v - ssoTag))
  else none

/-- Modelled from the spec: the bytes of `info::binaries::MAGIC_STRINGTABLE_BEGIN`
(defined in `info.h`, not among the sources; the spec (§3) only requires a
magic sentinel at the very start of the table). -/
def magicStringtableBegin : List Nat := [0x9D, 0x9B, 0x1C, 0xF5]

/-- Modelled from the spec: the bytes of `info::binaries::MAGIC_STRINGTABLE_END`
(defined in `info.h`, not among the sources; §3 requires a magic sentinel at
the very end of the table). -/
def magicStringtableEnd : List Nat := [0x6D, 0x42, 0xF8, 0x6A]

/-- The builder's string table: the append-only byte buffer `m_data` and the
content-to-offset map `m_map` (an association list; the C++
`std::unordered_map` is only ever queried by key). -/
structure StringTable where
  data : List Nat
  map : List (ByteStr × Nat)
deriving Repr, DecidableEq

/-- Embedding of `string_table::string_table()` (info_builder.cpp lines
601-609): empty map, buffer holding the initial magic bytes. -/
def StringTable.init : StringTable :=
  { data := magicStringtableBegin, map := [] }

/-- Embedding of `string_table::embed_value` as used at info_builder.cpp line
504: append the magic value's bytes to the buffer. -/
def StringTable.embedValue (st : StringTable) (bytes : List Nat) : StringTable :=
  { st with data := st.data ++ bytes }

/-- Embedding of `string_table::get(const std::string &)` (info_builder.cpp
lines 616-639): try the small-string encoding; otherwise look the content up
in the map; otherwise append `s` plus a NUL to the buffer (the old buffer
size, narrowed through `to_uint32`, is the new reference) and record it in
the map. -/
def StringTable.get (st : StringTable) (s : ByteStr) : Except BuildErr (Nat × StringTable) :=
  match tryEncodeAsSmallString s with
  | some v => .ok (v, st)
  | none =>
    match st.map.find? (fun p => p.1 == s) with
    | some p => .ok (p.2, st)
    | none =>
      match to_uint32 st.data.length with
      | .error e => .error e
      | .ok result =>
        .ok (result, { data := st.data ++ s ++ [0],
                       map := st.map ++ [(s, result)] })

/-- Read a NUL-terminated C string out of the buffer at a given offset. -/
def readCString (data : List Nat) (off : Nat) : ByteStr :=
  (data.drop off).takeWhile (fun b => b ≠ 0)

/-- Embedding of `string_table::lookup` (info_builder.cpp lines 678-695):
decode small-string references directly, otherwise read the NUL-terminated
string at the reference offset. -/
def StringTable.lookupRef (st : StringTable) (v : Nat) : ByteStr :=
  match tryDecodeAsSmallString v with
  | some sso => sso
  | none => readCString st.data v

/-- Well-formedness of a string table state: every map entry records a
non-small, valid-byte string whose bytes followed by a NUL sit in the buffer
at the recorded offset, and map keys are distinct. -/
def StringTable.WF (st : StringTable) : Prop :=
  (∀ p ∈ st.map,
    strOk p.1 ∧ tryEncodeAsSmallString p.1 = none ∧
    ∃ rest, st.data.drop p.2 = p.1 ++ 0 :: rest) ∧
  (st.map.map (fun p => p.1)).Nodup

/-! ### Supporting lemmas for the string table -/

theorem packBytes_append (s : ByteStr) (b : Nat) :
    packBytes (s ++ [b]) = packBytes s * 256 + b := by
  simp [packBytes, List.foldl_append]

theorem packBytes_unpackBytes (n : Nat) : packBytes (unpackBytes n) = n := by
  induction n using Nat.strong_induction_on with
  | _ n ih =>
    by_cases h : n = 0
    · subst h; simp [unpackBytes, packBytes]
    · rw [unpackBytes]; simp only [h, dite_false]
      rw [packBytes_append, ih (n / 256) (Nat.div_lt_self (Nat.pos_of_ne_zero h) (by omega))]
      omega

theorem unpackBytes_zero : unpackBytes 0 = [] := by simp [unpackBytes]

theorem unpackBytes_small {n : Nat} (h0 : 0 < n) (h : n < 256) : unpackBytes n = [n] := by
  rw [unpackBytes]
  simp only [Nat.pos_iff_ne_zero.mp h0, dite_false]
  rw [Nat.div_eq_of_lt h, unpackBytes_zero, Nat.mod_eq_of_lt h]
  rfl

theorem unpackBytes_packBytes {s : ByteStr} (hok : strOk s) (hlen : s.length ≤ 3) :
    unpackBytes (packBytes s) = s := by
  match s with
  | [] => simp [packBytes, unpackBytes_zero]
  | [a] =>
    have ha := hok a (by simp)
    simp only [packBytes, List.foldl_cons, List.foldl_nil, Nat.zero_mul, Nat.zero_add]
    exact unpackBytes_small ha.1 ha.2
  | [a, b] =>
    have ha := hok a (by simp)
    have hb := hok b (by simp [byteOk])
    have hpack : packBytes [a, b] = a * 256 + b := by simp [packBytes]
    rw [hpack, unpackBytes]
    have hne : a * 256 + b ≠ 0 := by have := ha.1; omega
    simp only [hne, dite_false]
    have hdiv : (a * 256 + b) / 256 = a := by
      rw [Nat.mul_comm a 256, Nat.mul_add_div (by norm_num)]
      simp [Nat.div_eq_of_lt hb.2]
    have hmod : (a * 256 + b) % 256 = b := by
      rw [Nat.mul_comm a 256, Nat.mul_add_mod]; exact Nat.mod_eq_of_lt hb.2
    rw [hdiv, hmod, unpackBytes_small ha.1 ha.2]
    rfl
  | [a, b, c] =>
    have ha := hok a (by simp)
    have hb := hok b (by simp [byteOk])
    have hc := hok c (by simp [byteOk])
    have hpack : packBytes [a, b, c] = (a * 256 + b) * 256 + c := by simp [packBytes]
    rw [hpack, unpackBytes]
    have hne : (a * 256 + b) * 256 + c ≠ 0 := by have := ha.1; nlinarith
    simp only [hne, dite_false]
    have hdiv : ((a * 256 + b) * 256 + c) / 256 = a * 256 + b := by
      rw [Nat.mul_comm (a * 256 + b) 256, Nat.mul_add_div (by norm_num)]
      simp [Nat.div_eq_of_lt hc.2]
    have hmod : ((a * 256 + b) * 256 + c) % 256 = c := by
      rw [Nat.mul_comm (a * 256 + b) 256, Nat.mul_add_mod]; exact Nat.mod_eq_of_lt hc.2
    rw [hdiv, hmod, unpackBytes]
    have hne2 : a * 256 + b ≠ 0 := by have := ha.1; omega
    simp only [hne2, dite_false]
    have hdiv2 : (a * 256 + b) / 256 = a := by
      rw [Nat.mul_comm a 256, Nat.mul_add_div (by norm_num)]
      simp [Nat.div_eq_of_lt hb.2]
    have hmod2 : (a * 256 + b) % 256 = b := by
      rw [Nat.mul_comm a 256, Nat.mul_add_mod]; exact Nat.mod_eq_of_lt hb.2
    rw [hdiv2, hmod2, unpackBytes_small ha.1 ha.2]
    rfl
  | _ :: _ :: _ :: _ :: _ => simp at hlen

theorem packBytes_lt_aux (s : ByteStr) (acc : Nat) (h : ∀ b ∈ s, b < 256) :
    s.foldl (fun acc b => acc * 256 + b) acc < (acc + 1) * 256 ^ s.length := by
  induction s generalizing acc with
  | nil => simp
  | cons b t ih =>
    have hb : b < 256 := h b (by simp)
    have ht : ∀ x ∈ t, x < 256 := fun x hx => h x (by simp [hx])
    calc List.foldl (fun acc b => acc * 256 + b) (acc * 256 + b) t
        < (acc * 256 + b + 1) * 256 ^ t.length := ih (acc * 256 + b) ht
      _ ≤ ((acc + 1) * 256) * 256 ^ t.length := by
          have : acc * 256 + b + 1 ≤ (acc + 1) * 256 := by omega
          exact Nat.mul_le_mul_right _ this
      _ = (acc + 1) * 256 ^ (b :: t).length := by
          simp [List.length_cons, Nat.pow_succ]; ring

theorem packBytes_lt {s : ByteStr} (hok : strOk s) (hlen : s.length ≤ 3) :
    packBytes s < 2 ^ 24 := by
  have h : ∀ b ∈ s, b < 256 := fun b hb => (hok b hb).2
  have := packBytes_lt_aux s 0 h
  have hpow : (256 : Nat) ^ s.length ≤ 256 ^ 3 :=
    Nat.pow_le_pow_right (by norm_num) hlen
  simp only [packBytes]
  calc s.foldl (fun acc b => acc * 256 + b) 0 < 1 * 256 ^ s.length := by simpa using this
    _ ≤ 256 ^ 3 := by simpa using hpow
    _ ≤ 2 ^ 24 := by norm_num

theorem unpackBytes_length {n k : Nat} (h : n < 256 ^ k) : (unpackBytes n).length ≤ k := by
  induction n using Nat.strong_induction_on generalizing k with
  | _ n ih =>
    by_cases h0 : n = 0
    · subst h0; simp [unpackBytes_zero]
    · rw [unpackBytes]
      simp only [h0, dite_false, List.length_append, List.length_singleton]
      match k with
      | 0 => exact absurd h (by omega)
      | k + 1 =>
        have hdiv : n / 256 < 256 ^ k := by
          have : n < 256 ^ k * 256 := by
            have : (256 : Nat) ^ (k + 1) = 256 ^ k * 256 := by ring
            omega
          omega
        have := ih (n / 256) (Nat.div_lt_self (Nat.pos_of_ne_zero h0) (by omega)) hdiv
        omega

theorem tryDecode_tryEncode {s : ByteStr} {v : Nat}
    (h : tryEncodeAsSmallString s = some v) : tryDecodeAsSmallString v = some s := by
  unfold tryEncodeAsSmallString at h
  split at h
  case isTrue hc =>
    have hv : v = ssoTag + packBytes s := (Option.some_inj.mp h).symm
    have hlt : packBytes s < 2 ^ 24 := packBytes_lt hc.2 hc.1
    subst hv
    unfold tryDecodeAsSmallString
    rw [if_pos (by omega), Nat.add_sub_cancel_left, unpackBytes_packBytes hc.2 hc.1]
  case isFalse => simp at h

/-- The reference `v` stands for the string `s` in table `st`: either it is
the small-string encoding of `s`, or the map records `s` at offset `v`. -/
def StringTable.refFor (st : StringTable) (v : Nat) (s : ByteStr) : Prop :=
  tryDecodeAsSmallString v = some s ∨ (s, v) ∈ st.map

theorem takeWhile_append_zero {s : ByteStr} (hok : strOk s) (rest : List Nat) :
    (s ++ 0 :: rest).takeWhile (fun b => b ≠ 0) = s := by
  induction s with
  | nil => simp
  | cons a t ih =>
    have ha := hok a (by simp)
    have hok' : strOk t := fun b hb => hok b (by simp [hb])
    have hane : a ≠ 0 := by have := ha.1; omega
    rw [List.cons_append, List.takeWhile_cons_of_pos (by simp [hane]), ih hok']

theorem nodupKeys_val_unique {l : List (ByteStr × Nat)}
    (hnd : (l.map (fun p => p.1)).Nodup)
    {s : ByteStr} {v1 v2 : Nat} (h1 : (s, v1) ∈ l) (h2 : (s, v2) ∈ l) : v1 = v2 := by
  induction l with
  | nil => simp at h1
  | cons p t ih =>
    simp only [List.map_cons, List.nodup_cons] at hnd
    rcases List.mem_cons.mp h1 with e1 | m1 <;> rcases List.mem_cons.mp h2 with e2 | m2
    · have := e1.trans e2.symm
      exact ((Prod.mk.injEq _ _ _ _).mp this).2
    · exact absurd (by rw [← e1]; exact List.mem_map.mpr ⟨(s, v2), m2, rfl⟩) hnd.1
    · exact absurd (by rw [← e2]; exact List.mem_map.mpr ⟨(s, v1), m1, rfl⟩) hnd.1
    · exact ih hnd.2 m1 m2

theorem mapEntry_off_lt {st : StringTable} (hwf : st.WF) {s : ByteStr} {v : Nat}
    (hmem : (s, v) ∈ st.map) : v < st.data.length := by
  obtain ⟨rest, hrest⟩ := ((hwf.1 (s, v) hmem).2.2)
  by_contra h
  have : st.data.drop v = [] := List.drop_eq_nil_of_le (by omega)
  rw [this] at hrest
  exact absurd hrest.symm (by simp)

/-- Under a well-formed table whose buffer is shorter than the small-string
tag, a reference stands for at most one string. -/
theorem refFor_str_unique {st : StringTable} (hwf : st.WF)
    (hbound : st.data.length ≤ ssoTag) {v : Nat} {s1 s2 : ByteStr}
    (h1 : st.refFor v s1) (h2 : st.refFor v s2) : s1 = s2 := by
  rcases h1 with hd1 | hm1 <;> rcases h2 with hd2 | hm2
  · rw [hd1] at hd2; exact Option.some_inj.mp hd2
  · have := mapEntry_off_lt hwf hm2
    unfold tryDecodeAsSmallString at hd1
    split at hd1
    · omega
    · exact absurd hd1 (by simp)
  · have := mapEntry_off_lt hwf hm1
    unfold tryDecodeAsSmallString at hd2
    split at hd2
    · omega
    · exact absurd hd2 (by simp)
  · obtain ⟨r1, hr1⟩ := (hwf.1 (s1, v) hm1).2.2
    obtain ⟨r2, hr2⟩ := (hwf.1 (s2, v) hm2).2.2
    have hok1 := (hwf.1 (s1, v) hm1).1
    have hok2 := (hwf.1 (s2, v) hm2).1
    simp only at hr1 hr2 hok1 hok2
    rw [← takeWhile_append_zero hok1 r1, ← hr1, hr2, takeWhile_append_zero hok2 r2]

/-- Under a well-formed table, a string has at most one reference. -/
theorem refFor_val_unique {st : StringTable} (hwf : st.WF)
    {v1 v2 : Nat} {s : ByteStr}
    (h1 : st.refFor v1 s) (h2 : st.refFor v2 s) : v1 = v2 := by
  have declen : ∀ {v : Nat}, tryDecodeAsSmallString v = some s → s.length ≤ 3 := by
    intro v hd
    unfold tryDecodeAsSmallString at hd
    split at hd
    case isTrue hin =>
      have hin' : v - ssoTag < 256 ^ 3 := by
        have h24 : (2 : Nat) ^ 24 = 16777216 := by norm_num
        have h3 : (256 : Nat) ^ 3 = 16777216 := by norm_num
        unfold ssoTag at hin ⊢
        omega
      have := unpackBytes_length hin'
      rw [Option.some_inj.mp hd] at this; exact this
    case isFalse => exact absurd hd (by simp)
  have mapnotshort : ∀ {v : Nat}, (s, v) ∈ st.map → ¬ s.length ≤ 3 := by
    intro v hm hshort
    have hok := (hwf.1 (s, v) hm).1
    have henc := (hwf.1 (s, v) hm).2.1
    unfold tryEncodeAsSmallString at henc
    rw [if_pos ⟨hshort, hok⟩] at henc
    exact absurd henc (by simp)
  rcases h1 with hd1 | hm1 <;> rcases h2 with hd2 | hm2
  · unfold tryDecodeAsSmallString at hd1 hd2
    split at hd1
    case isTrue hin1 =>
      split at hd2
      case isTrue hin2 =>
        have e1 := packBytes_unpackBytes (v1 - ssoTag)
        have e2 := packBytes_unpackBytes (v2 - ssoTag)
        rw [Option.some_inj.mp hd1] at e1
        rw [Option.some_inj.mp hd2] at e2
        omega
      case isFalse => exact absurd hd2 (by simp)
    case isFalse => exact absurd hd1 (by simp)
  · exact absurd (declen hd1) (mapnotshort hm2)
  · exact absurd (declen hd2) (mapnotshort hm1)
  · exact nodupKeys_val_unique hwf.2 hm1 hm2

/-! ### Behaviour of `string_table::get` -/

theorem to_uint32_ok {n m : Nat} (h : to_uint32 n = .ok m) : m = n := by
  unfold to_uint32 at h
  split at h
  case isTrue hc => simp only [Except.ok.injEq] at h; omega
  case isFalse => simp at h

theorem get_ok_refFor {st st' : StringTable} {s : ByteStr} {v : Nat}
    (h : st.get s = .ok (v, st')) : st'.refFor v s := by
  unfold StringTable.get at h
  cases henc : tryEncodeAsSmallString s with
  | some w =>
    rw [henc] at h
    simp only [Except.ok.injEq, Prod.mk.injEq] at h
    exact Or.inl (by rw [← h.1]; exact tryDecode_tryEncode henc)
  | none =>
    rw [henc] at h
    cases hfind : st.map.find? (fun p => p.1 == s) with
    | some p =>
      rw [hfind] at h
      simp only [Except.ok.injEq, Prod.mk.injEq] at h
      have hp : p.1 = s := by
        have := List.find?_some hfind
        simpa using this
      have hmem := List.mem_of_find?_eq_some hfind
      refine Or.inr ?_
      rw [← h.2, ← h.1, ← hp]
      exact hmem
    | none =>
      rw [hfind] at h
      cases hsz : to_uint32 st.data.length with
      | error e => rw [hsz] at h; simp at h
      | ok r =>
        rw [hsz] at h
        simp only [Except.ok.injEq, Prod.mk.injEq] at h
        refine Or.inr ?_
        rw [← h.2]
        simp only [List.mem_append, List.mem_singleton]
        right
        rw [h.1]

theorem get_ok_dataPrefix {st st' : StringTable} {s : ByteStr} {v : Nat}
    (h : st.get s = .ok (v, st')) : ∃ ext, st'.data = st.data ++ ext := by
  unfold StringTable.get at h
  cases henc : tryEncodeAsSmallString s with
  | some w =>
    rw [henc] at h
    simp only [Except.ok.injEq, Prod.mk.injEq] at h
    exact ⟨[], by rw [← h.2]; simp⟩
  | none =>
    rw [henc] at h
    cases hfind : st.map.find? (fun p => p.1 == s) with
    | some p =>
      rw [hfind] at h
      simp only [Except.ok.injEq, Prod.mk.injEq] at h
      exact ⟨[], by rw [← h.2]; simp⟩
    | none =>
      rw [hfind] at h
      cases hsz : to_uint32 st.data.length with
      | error e => rw [hsz] at h; simp at h
      | ok r =>
        rw [hsz] at h
        simp only [Except.ok.injEq, Prod.mk.injEq] at h
        exact ⟨s ++ [0], by rw [← h.2]; simp⟩

theorem get_ok_mapSub {st st' : StringTable} {s : ByteStr} {v : Nat}
    (h : st.get s = .ok (v, st')) : ∀ p ∈ st.map, p ∈ st'.map := by
  unfold StringTable.get at h
  cases henc : tryEncodeAsSmallString s with
  | some w =>
    rw [henc] at h
    simp only [Except.ok.injEq, Prod.mk.injEq] at h
    intro p hp; rw [← h.2]; exact hp
  | none =>
    rw [henc] at h
    cases hfind : st.map.find? (fun p => p.1 == s) with
    | some q =>
      rw [hfind] at h
      simp only [Except.ok.injEq, Prod.mk.injEq] at h
      intro p hp; rw [← h.2]; exact hp
    | none =>
      rw [hfind] at h
      cases hsz : to_uint32 st.data.length with
      | error e => rw [hsz] at h; simp at h
      | ok r =>
        rw [hsz] at h
        simp only [Except.ok.injEq, Prod.mk.injEq] at h
        intro p hp; rw [← h.2]; simp [hp]

theorem refFor_mono {st st' : StringTable} {s t : ByteStr} {v w : Nat}
    (hget : st.get t = .ok (w, st')) (h : st.refFor v s) : st'.refFor v s := by
  rcases h with hd | hm
  · exact Or.inl hd
  · exact Or.inr (get_ok_mapSub hget _ hm)

theorem get_preserves_WF {st st' : StringTable} {s : ByteStr} {v : Nat}
    (hwf : st.WF) (hok : strOk s) (h : st.get s = .ok (v, st')) : st'.WF := by
  unfold StringTable.get at h
  cases henc : tryEncodeAsSmallString s with
  | some w =>
    rw [henc] at h
    simp only [Except.ok.injEq, Prod.mk.injEq] at h
    rw [← h.2]; exact hwf
  | none =>
    rw [henc] at h
    cases hfind : st.map.find? (fun p => p.1 == s) with
    | some q =>
      rw [hfind] at h
      simp only [Except.ok.injEq, Prod.mk.injEq] at h
      rw [← h.2]; exact hwf
    | none =>
      rw [hfind] at h
      cases hsz : to_uint32 st.data.length with
      | error e => rw [hsz] at h; simp at h
      | ok r =>
        rw [hsz] at h
        simp only [Except.ok.injEq, Prod.mk.injEq] at h
        have hv : v = st.data.length := by rw [← h.1]; exact to_uint32_ok hsz
        rw [← h.2]
        constructor
        · intro p hp
          rcases List.mem_append.mp hp with hold | hnew
          · obtain ⟨hpok, hpenc, rest, hrest⟩ := hwf.1 p hold
            refine ⟨hpok, hpenc, rest ++ s ++ [0], ?_⟩
            have hlt : p.2 ≤ st.data.length :=
              le_of_lt (mapEntry_off_lt hwf hold)
            show List.drop p.2 (st.data ++ s ++ [0]) = p.1 ++ 0 :: (rest ++ s ++ [0])
            rw [List.append_assoc, List.drop_append_of_le_length hlt, hrest]
            simp
          · have hr : r = st.data.length := to_uint32_ok hsz
            rw [hr] at hnew
            have hp' : p = (s, st.data.length) := by simpa using hnew
            subst hp'
            refine ⟨hok, henc, [], ?_⟩
            show List.drop st.data.length (st.data ++ s ++ [0]) = s ++ 0 :: []
            rw [List.append_assoc, List.drop_append_of_le_length (le_refl st.data.length)]
            simp
        · simp only [List.map_append, List.map_cons, List.map_nil]
          rw [List.nodup_append]
          refine ⟨hwf.2, List.nodup_singleton s, ?_⟩
          intro x hx
          have hne : x ≠ s := by
            intro he
            subst he
            obtain ⟨p, hpmem, hpx⟩ := List.mem_map.mp hx
            have := List.find?_eq_none.mp hfind p hpmem
            simp only [beq_iff_eq] at this
            exact this (by rw [hpx])
          simpa using hne

theorem embedValue_preserves_WF {st : StringTable} (hwf : st.WF) (bytes : List Nat) :
    (st.embedValue bytes).WF := by
  constructor
  · intro p hp
    obtain ⟨hpok, hpenc, rest, hrest⟩ := hwf.1 p hp
    refine ⟨hpok, hpenc, rest ++ bytes, ?_⟩
    have hlt : p.2 ≤ st.data.length := le_of_lt (mapEntry_off_lt hwf hp)
    unfold StringTable.embedValue
    simp only
    rw [List.drop_append_of_le_length hlt, hrest]
    simp
  · exact hwf.2

/-- Looking up a reference that stands for a string recovers exactly that
string, provided the buffer has not grown past the small-string tag. -/
theorem lookupRef_refFor {st : StringTable} (hwf : st.WF)
    (hbound : st.data.length ≤ ssoTag) {v : Nat} {s : ByteStr}
    (h : st.refFor v s) : st.lookupRef v = s := by
  rcases h with hd | hm
  · unfold StringTable.lookupRef
    rw [hd]
  · have hlt := mapEntry_off_lt hwf hm
    obtain ⟨hpok, hpenc, rest, hrest⟩ := hwf.1 (s, v) hm
    unfold StringTable.lookupRef
    have hdec : tryDecodeAsSmallString v = none := by
      unfold tryDecodeAsSmallString
      rw [if_neg (by omega)]
    rw [hdec]
    unfold readCString
    simp only at hrest
    rw [hrest]
    exact takeWhile_append_zero hpok rest

/-- The initial string table (constructor at info_builder.cpp lines 601-609)
is well-formed. -/
theorem init_WF : StringTable.init.WF := by
  constructor
  · intro p hp; simp [StringTable.init] at hp
  · simp [StringTable.init]

/-- Decidable equality for `Except` results, used to evaluate concrete runs
of the embedded builder. -/
instance {e a : Type _} [DecidableEq e] [DecidableEq a] : DecidableEq (Except e a) :=
  fun x y =>
    match x, y with
    | .ok u, .ok w => if h : u = w then isTrue (by rw [h]) else isFalse (by simp [h])
    | .error u, .error w => if h : u = w then isTrue (by rw [h]) else isFalse (by simp [h])
    | .ok _, .error _ => isFalse (by simp)
    | .error _, .ok _ => isFalse (by simp)

/-- A second `get` with the same content returns the same reference and
leaves the table unchanged. -/
theorem get_stable {st st' : StringTable} {s : ByteStr} {v : Nat}
    (h : st.get s = .ok (v, st')) : st'.get s = .ok (v, st') := by
  unfold StringTable.get at h
  cases henc : tryEncodeAsSmallString s with
  | some w =>
    rw [henc] at h
    simp only [Except.ok.injEq, Prod.mk.injEq] at h
    obtain ⟨h1, h2⟩ := h
    subst h2
    subst h1
    unfold StringTable.get
    rw [henc]
  | none =>
    rw [henc] at h
    cases hfind : st.map.find? (fun p => p.1 == s) with
    | some p =>
      rw [hfind] at h
      simp only [Except.ok.injEq, Prod.mk.injEq] at h
      obtain ⟨h1, h2⟩ := h
      subst h2
      subst h1
      unfold StringTable.get
      rw [henc, hfind]
    | none =>
      rw [hfind] at h
      cases hsz : to_uint32 st.data.length with
      | error e => rw [hsz] at h; simp at h
      | ok r =>
        rw [hsz] at h
        simp only [Except.ok.injEq, Prod.mk.injEq] at h
        obtain ⟨h1, h2⟩ := h
        subst h2
        subst h1
        have hfind' : List.find? (fun q => q.1 == s) (st.map ++ [(s, r)]) = some (s, r) := by
          rw [List.find?_append, hfind]
          simp
        unfold StringTable.get
        rw [henc]
        simp [hfind']

/-! ## Claims C5, C6, C9 -/

/-- C5: string interning is idempotent and round-trips.  For a well-formed
string table, if `get s` returns reference `v` and table `st'`, then a second
`get s` on `st'` returns the same reference and leaves `st'` unchanged, and
(as long as the buffer is below the small-string tag, which the builder's
4.5 MB sizing guarantees) `lookup` applied to `v` yields back exactly the
bytes of `s`. -/
theorem claim_C5_intern_idempotent_roundtrip
    (st : StringTable) (s : ByteStr) (v : Nat) (st' : StringTable)
    (hwf : st.WF) (hok : strOk s) (hget : st.get s = .ok (v, st'))
    (hbound : st'.data.length ≤ ssoTag) :
    st'.get s = .ok (v, st') ∧ st'.lookupRef v = s := by
  refine ⟨get_stable hget, ?_⟩
  exact lookupRef_refFor (get_preserves_WF hwf hok hget) hbound (get_ok_refFor hget)

/-- Concrete input for the C5 witness: the five-byte string "hello". -/
def c5Str : ByteStr := [104, 101, 108, 108, 111]

/-- The table state after interning `c5Str` into the fresh table. -/
def c5St : StringTable :=
  { data := magicStringtableBegin ++ c5Str ++ [0], map := [(c5Str, 4)] }

theorem claim_C5_witness :
    c5St.get c5Str = .ok (4, c5St) ∧ c5St.lookupRef 4 = c5Str :=
  claim_C5_intern_idempotent_roundtrip .init c5Str 4 c5St init_WF
    (by decide) (by decide) (by decide)

/-- C6: header salting is an involution: for every header byte sequence and
every nonempty pepper (the C++ `salt_size` is the positive `sizeof` of the
salt value), applying the XOR salt operation twice returns the original
header. -/
theorem claim_C6_salt_involution (header pepper : List Nat) (hp : pepper ≠ []) :
    util.salt (util.salt header pepper) pepper = header := by
  unfold util.salt
  have hlen : ∀ l : List Nat, ((List.range l.length).map
      (fun i => l.getD i 0 ^^^ pepper.getD (i % pepper.length) 0)).length = l.length := by
    intro l; simp
  rw [hlen header]
  apply List.ext_getElem
  · simp
  · intro i h1 h2
    simp only [List.getElem_map, List.getElem_range]
    have hi : i < header.length := by simpa using h2
    have hmap : (((List.range header.length).map
        (fun j => header.getD j 0 ^^^ pepper.getD (j % pepper.length) 0))).getD i 0 =
        header.getD i 0 ^^^ pepper.getD (i % pepper.length) 0 := by
      rw [List.getD_eq_getElem?_getD]
      rw [List.getElem?_map]
      simp [List.getElem?_range, hi]
    rw [hmap, Nat.xor_cancel_right]
    exact (List.getD_eq_getElem?_getD _ _ _).trans (by simp [hi])

theorem claim_C6_witness :
    util.salt (util.salt [12, 250, 0, 77] [94, 183]) [94, 183] = [12, 250, 0, 77] :=
  claim_C6_salt_involution [12, 250, 0, 77] [94, 183] (by decide)

/-- C9: refuted as stated — evaluating the embedded `util::binaryFromHex`
loop on a one-byte destination and the one-character hex string "a"
(ASCII 97) fetches the character at position 1, which is out of range for
the string: the loop guard `pos < hex.size() * 2` admits `pos = 0` and the
body then reads `hex[pos * 2 + 1] = hex[1]` past the end.  The concrete C++
escapes only because the backing `std::string` buffer is NUL-terminated. -/
theorem claim_C9_oob_read_reached :
    util.binaryFromHex 1 [97] = ([], true) := by decide

/-! ## Claim C7: the hex decoder -/

/-- The sequence of bytes denoted by the leading valid hex-digit pairs of a
string (stopping at the first position where a full pair of hex digits is not
available). -/
def hexPairs : List Nat → List Nat
  | c0 :: c1 :: rest =>
    match hexDigit c0, hexDigit c1 with
    | some hi, some lo => (hi * 16 + lo) :: hexPairs rest
    | _, _ => []
  | _ => []

theorem binaryFromHexGo_spec (hex : List Nat) (destSize : Nat) :
    ∀ (fuel pos : Nat), destSize ≤ pos + fuel →
    (binaryFromHexGo hex destSize pos fuel).1 =
      (hexPairs (hex.drop (pos * 2))).take (destSize - pos) := by
  intro fuel
  induction fuel with
  | zero =>
    intro pos hle
    have : destSize - pos = 0 := by omega
    simp [binaryFromHexGo, this]
  | succ fuel ih =>
    intro pos hle
    rw [binaryFromHexGo]
    by_cases hc : pos < destSize ∧ pos < hex.length * 2
    · rw [if_pos hc]
      cases hget0 : hex.get? (pos * 2) with
      | none =>
        have hlen : hex.length ≤ pos * 2 := by
          have := List.get?_eq_none.mp hget0
          omega
        rw [List.drop_eq_nil_of_le hlen]
        simp [hexPairs]
      | some c0 =>
        have hlt0 : pos * 2 < hex.length := by
          by_contra hcon
          rw [List.get?_eq_none.mpr (by omega)] at hget0
          exact absurd hget0 (by simp)
        have hdrop0 : hex.drop (pos * 2) = c0 :: hex.drop (pos * 2 + 1) := by
          rw [List.drop_eq_getElem_cons hlt0]
          congr 1
          have := List.get?_eq_getElem? hex (pos * 2)
          rw [hget0] at this
          exact (List.getElem?_eq_some.mp this.symm).choose_spec.symm ▸ rfl
        cases hd0 : hexDigit c0 with
        | none =>
          rw [hdrop0]
          cases htail : hex.drop (pos * 2 + 1) with
          | nil => simp [hexPairs, hd0]
          | cons c1 rest => simp [hexPairs, hd0]
        | some hi =>
          cases hget1 : hex.get? (pos * 2 + 1) with
          | none =>
            have hlen1 : hex.length ≤ pos * 2 + 1 := by
              have := List.get?_eq_none.mp hget1
              omega
            have htail : hex.drop (pos * 2 + 1) = [] := List.drop_eq_nil_of_le hlen1
            rw [hdrop0, htail]
            simp [hexPairs, hd0]
          | some c1 =>
            have hlt1 : pos * 2 + 1 < hex.length := by
              by_contra hcon
              rw [List.get?_eq_none.mpr (by omega)] at hget1
              exact absurd hget1 (by simp)
            have hdrop1 : hex.drop (pos * 2 + 1) = c1 :: hex.drop (pos * 2 + 2) := by
              rw [List.drop_eq_getElem_cons hlt1]
              congr 1
              have := List.get?_eq_getElem? hex (pos * 2 + 1)
              rw [hget1] at this
              exact (List.getElem?_eq_some.mp this.symm).choose_spec.symm ▸ rfl
            cases hd1 : hexDigit c1 with
            | none =>
              rw [hdrop0, hdrop1]
              simp [hexPairs, hd0, hd1]
            | some lo =>
              have hrec := ih (pos + 1) (by omega)
              rw [hdrop0, hdrop1]
              simp only [hexPairs, hd0, hd1]
              have harith : (pos + 1) * 2 = pos * 2 + 2 := by ring
              rw [harith] at hrec
              have hsub : destSize - pos = (destSize - (pos + 1)) + 1 := by omega
              rw [hsub, List.take_succ_cons]
              cases hgo : binaryFromHexGo hex destSize (pos + 1) fuel with
              | mk dec oob =>
                rw [hgo] at hrec
                simp only at hrec
                simp [hrec]
    · rw [if_neg hc]
      rcases Decidable.not_and_iff_or_not.mp hc with hnd | hnl
      · have : destSize - pos = 0 := by omega
        simp [this]
      · have hlen : hex.length ≤ pos * 2 := by omega
        rw [List.drop_eq_nil_of_le hlen]
        simp [hexPairs]

theorem util_binaryFromHex_pairs (destSize : Nat) (hex : List Nat) :
    (util.binaryFromHex destSize hex).1 = (hexPairs hex).take destSize := by
  unfold util.binaryFromHex
  have := binaryFromHexGo_spec hex destSize destSize 0 (by omega)
  simpa using this

/-- The bytes that the wrapper's decode step produces before zero-filling:
the leading valid hex pairs, capped at the destination size. -/
def hexDecoded (N : Nat) (hex : Option ByteStr) : List Nat :=
  match hex with
  | some h => (hexPairs h).take N
  | none => []

/-- C7: for every destination size `N` and every (possibly short, odd-length
or malformed) hex attribute, the wrapper writes the decoded byte pairs from
the front, zero-fills every remaining destination byte (so the destination
always holds exactly `N` bytes), and returns true if and only if it decoded
exactly `N` bytes; decoding never produces a build-aborting error. -/
theorem claim_C7_hex_decode_zero_fill (N : Nat) (hex : Option ByteStr) :
    (infoBinaryFromHex N hex).1 =
      hexDecoded N hex ++ List.replicate (N - (hexDecoded N hex).length) 0 ∧
    (infoBinaryFromHex N hex).1.length = N ∧
    ((infoBinaryFromHex N hex).2 = true ↔ (hexDecoded N hex).length = N) := by
  have hdec : (match hex with
      | some h => (util.binaryFromHex N h).1
      | none => ([] : List Nat)) = hexDecoded N hex := by
    cases hex with
    | some h => simpa [hexDecoded] using util_binaryFromHex_pairs N h
    | none => simp [hexDecoded]
  have hlen : (hexDecoded N hex).length ≤ N := by
    cases hex with
    | some h => simp [hexDecoded]
    | none => simp [hexDecoded]
  unfold infoBinaryFromHex
  rw [hdec]
  refine ⟨rfl, ?_, ?_⟩
  · simp only [List.length_append, List.length_replicate]
    omega
  · simp

/-! ## The database builder (info_builder.cpp lines 189-594)

The XML layer (`xmlparser.h`/`xmlparser.cpp`, not among the sources) delivers
element-begin events with raw attribute strings and element-end events with
accumulated text; the builder registers one handler per element path.  We
model one parsed document as the list of events delivered to the registered
handlers, in document order, each carrying the raw attribute byte strings
(`none` when the attribute is absent). -/

/-- ASCII byte values of a list of characters, for the fixed token tables. -/
def asciiOf (cs : List Char) : ByteStr := cs.map Char.toNat
def tokTrue : ByteStr := asciiOf ['t', 'r', 'u', 'e']
def tokFalse : ByteStr := asciiOf ['f', 'a', 'l', 's', 'e']
def tokOne : ByteStr := asciiOf ['1']
def tokZero : ByteStr := asciiOf ['0']
def tokBaddump : ByteStr := asciiOf ['b', 'a', 'd', 'd', 'u', 'm', 'p']
def tokNodump : ByteStr := asciiOf ['n', 'o', 'd', 'u', 'm', 'p']
def tokGood : ByteStr := asciiOf ['g', 'o', 'o', 'd']
def tokOriginal : ByteStr := asciiOf ['o', 'r', 'i', 'g', 'i', 'n', 'a', 'l']
def tokCompatible : ByteStr := asciiOf ['c', 'o', 'm', 'p', 'a', 't', 'i', 'b', 'l', 'e']
def tokEq : ByteStr := asciiOf ['e', 'q']
def tokNe : ByteStr := asciiOf ['n', 'e']
def tokGt : ByteStr := asciiOf ['g', 't']
def tokLe : ByteStr := asciiOf ['l', 'e']
def tokLt : ByteStr := asciiOf ['l', 't']
def tokGe : ByteStr := asciiOf ['g', 'e']
def tokProtection : ByteStr := asciiOf ['p', 'r', 'o', 't', 'e', 'c', 't', 'i', 'o', 'n']
def tokTiming : ByteStr := asciiOf ['t', 'i', 'm', 'i', 'n', 'g']
def tokGraphics : ByteStr := asciiOf ['g', 'r', 'a', 'p', 'h', 'i', 'c', 's']
def tokPalette : ByteStr := asciiOf ['p', 'a', 'l', 'e', 't', 't', 'e']
def tokSound : ByteStr := asciiOf ['s', 'o', 'u', 'n', 'd']
def tokCapture : ByteStr := asciiOf ['c', 'a', 'p', 't', 'u', 'r', 'e']
def tokCamera : ByteStr := asciiOf ['c', 'a', 'm', 'e', 'r', 'a']
def tokMicrophone : ByteStr := asciiOf ['m', 'i', 'c', 'r', 'o', 'p', 'h', 'o', 'n', 'e']
def tokControls : ByteStr := asciiOf ['c', 'o', 'n', 't', 'r', 'o', 'l', 's']
def tokKeyboard : ByteStr := asciiOf ['k', 'e', 'y', 'b', 'o', 'a', 'r', 'd']
def tokMouse : ByteStr := asciiOf ['m', 'o', 'u', 's', 'e']
def tokMedia : ByteStr := asciiOf ['m', 'e', 'd', 'i', 'a']
def tokDisk : ByteStr := asciiOf ['d', 'i', 's', 'k']
def tokPrinter : ByteStr := asciiOf ['p', 'r', 'i', 'n', 't', 'e', 'r']
def tokTape : ByteStr := asciiOf ['t', 'a', 'p', 'e']
def tokPunch : ByteStr := asciiOf ['p', 'u', 'n', 'c', 'h']
def tokDrum : ByteStr := asciiOf ['d', 'r', 'u', 'm']
def tokRom : ByteStr := asciiOf ['r', 'o', 'm']
def tokComms : ByteStr := asciiOf ['c', 'o', 'm', 'm', 's']
def tokLan : ByteStr := asciiOf ['l', 'a', 'n']
def tokWan : ByteStr := asciiOf ['w', 'a', 'n']
def tokUnemulated : ByteStr := asciiOf ['u', 'n', 'e', 'm', 'u', 'l', 'a', 't', 'e', 'd']
def tokImperfect : ByteStr := asciiOf ['i', 'm', 'p', 'e', 'r', 'f', 'e', 'c', 't']
def tokCpu : ByteStr := asciiOf ['c', 'p', 'u']
def tokAudio : ByteStr := asciiOf ['a', 'u', 'd', 'i', 'o']
def tokUnknown : ByteStr := asciiOf ['u', 'n', 'k', 'n', 'o', 'w', 'n']
def tokRaster : ByteStr := asciiOf ['r', 'a', 's', 't', 'e', 'r']
def tokVector : ByteStr := asciiOf ['v', 'e', 'c', 't', 'o', 'r']
def tokLcd : ByteStr := asciiOf ['l', 'c', 'd']
def tokSvg : ByteStr := asciiOf ['s', 'v', 'g']
def tokRot0 : ByteStr := asciiOf ['0']
def tokRot90 : ByteStr := asciiOf ['9', '0']
def tokRot180 : ByteStr := asciiOf ['1', '8', '0']
def tokRot270 : ByteStr := asciiOf ['2', '7', '0']
def tokPreliminary : ByteStr := asciiOf ['p', 'r', 'e', 'l', 'i', 'm', 'i', 'n', 'a', 'r', 'y']
def tokSupported : ByteStr := asciiOf ['s', 'u', 'p', 'p', 'o', 'r', 't', 'e', 'd']
def tokUnsupported : ByteStr := asciiOf ['u', 'n', 's', 'u', 'p', 'p', 'o', 'r', 't', 'e', 'd']

/-- Modelled from the spec: boolean attribute parsing in the XML layer
(`xmlparser.cpp`, not among the sources); §4.2 has malformed or absent
attributes fall back to defaults, so an unrecognized token parses as
absent. -/
def parseBoolAttr (s : ByteStr) : Option Bool :=
  if s = tokTrue ∨ s = tokOne then some true
  else if s = tokFalse ∨ s = tokZero then some false
  else none

/-- All-decimal-digit parse of a byte string (empty fails). -/
def parseDecDigits (s : ByteStr) : Option Nat :=
  if s ≠ [] ∧ s.all (fun b => 48 ≤ b ∧ b ≤ 57) then
    some (s.foldl (fun acc b => acc * 10 + (b - 48)) 0)
  else none

/-- Modelled from the spec: unsigned numeric attribute parsing in the XML
layer (not among the sources) for a given integer width limit; §7 classes a
malformed or out-of-range numeric field as tolerated-per-record, so a value
that does not fit the requested type parses as absent. -/
def parseUintAttr (limit : Nat) (s : ByteStr) : Option Nat :=
  match parseDecDigits s with
  | some n => if n < limit then some n else none
  | none => none

/-- All-hex-digit parse of a byte string (empty fails), for the base-16
`offset` attribute. -/
def parseHexDigits (s : ByteStr) : Option Nat :=
  if s ≠ [] ∧ s.all (fun b => (hexDigit b).isSome) then
    some (s.foldl (fun acc b => acc * 16 + (hexDigit b).getD 0) 0)
  else none

/-- Modelled from the spec: base-16 numeric attribute parsing in the XML
layer (not among the sources), with the same absent-on-failure behaviour. -/
def parseHexUintAttr (limit : Nat) (s : ByteStr) : Option Nat :=
  match parseHexDigits s with
  | some n => if n < limit then some n else none
  | none => none

def attrBool (v : Option ByteStr) : Option Bool := v.bind parseBoolAttr

def attrU8 (v : Option ByteStr) : Option Nat := v.bind (parseUintAttr (2 ^ 8))

def attrU32 (v : Option ByteStr) : Option Nat := v.bind (parseUintAttr (2 ^ 32))

def attrU64 (v : Option ByteStr) : Option Nat := v.bind (parseUintAttr (2 ^ 64))

def attrHexU64 (v : Option ByteStr) : Option Nat := v.bind (parseHexUintAttr (2 ^ 64))

/-- Embedding of `encodeBool` (info_builder.cpp lines 151-156). -/
def encodeBool (b : Option Bool) (defaultValue : Nat) : Nat :=
  match b with
  | some true => 1
  | some false => 0
  | none => defaultValue

/-- Embedding of `encodeEnum` (info_builder.cpp lines 163-169); enum codes
are small integers. -/
def encodeEnum (v : Option Nat) (defaultValue : Nat) : Nat := v.getD defaultValue

/-! The fixed enum token tables of info_builder.cpp lines 18-115.  The
numeric enum constants live in `info.h` (not among the sources) and are
modelled as distinct small codes in table order. -/

/-- `s_dump_status_parser` (info_builder.cpp lines 18-23). -/
def parseDumpStatus (s : ByteStr) : Option Nat :=
  if s = tokBaddump then some 0
  else if s = tokNodump then some 1
  else if s = tokGood then some 2
  else none

/-- `s_status_parser` (info_builder.cpp lines 26-30). -/
def parseSoftwareListStatus (s : ByteStr) : Option Nat :=
  if s = tokOriginal then some 0
  else if s = tokCompatible then some 1
  else none

/-- `s_relation_parser` (info_builder.cpp lines 33-41). -/
def parseRelation (s : ByteStr) : Option Nat :=
  if s = tokEq then some 0
  else if s = tokNe then some 1
  else if s = tokGt then some 2
  else if s = tokLe then some 3
  else if s = tokLt then some 4
  else if s = tokGe then some 5
  else none

/-- `s_feature_type_parser` (info_builder.cpp lines 44-67). -/
def parseFeatureType (s : ByteStr) : Option Nat :=
  if s = tokProtection then some 0
  else if s = tokTiming then some 1
  else if s = tokGraphics then some 2
  else if s = tokPalette then some 3
  else if s = tokSound then some 4
  else if s = tokCapture then some 5
  else if s = tokCamera then some 6
  else if s = tokMicrophone then some 7
  else if s = tokControls then some 8
  else if s = tokKeyboard then some 9
  else if s = tokMouse then some 10
  else if s = tokMedia then some 11
  else if s = tokDisk then some 12
  else if s = tokPrinter then some 13
  else if s = tokTape then some 14
  else if s = tokPunch then some 15
  else if s = tokDrum then some 16
  else if s = tokRom then some 17
  else if s = tokComms then some 18
  else if s = tokLan then some 19
  else if s = tokWan then some 20
  else none

/-- `s_feature_quality_parser` (info_builder.cpp lines 70-74). -/
def parseFeatureQuality (s : ByteStr) : Option Nat :=
  if s = tokUnemulated then some 0
  else if s = tokImperfect then some 1
  else none

/-- `s_chip_type_parser` (info_builder.cpp lines 77-81). -/
def parseChipType (s : ByteStr) : Option Nat :=
  if s = tokCpu then some 0
  else if s = tokAudio then some 1
  else none

/-- `s_display_type_parser` (info_builder.cpp lines 84-91). -/
def parseDisplayType (s : ByteStr) : Option Nat :=
  if s = tokUnknown then some 0
  else if s = tokRaster then some 1
  else if s = tokVector then some 2
  else if s = tokLcd then some 3
  else if s = tokSvg then some 4
  else none

/-- `s_display_rotation_parser` (info_builder.cpp lines 94-100). -/
def parseDisplayRotation (s : ByteStr) : Option Nat :=
  if s = tokRot0 then some 0
  else if s = tokRot90 then some 1
  else if s = tokRot180 then some 2
  else if s = tokRot270 then some 3
  else none

/-- `s_driver_quality_parser` (info_builder.cpp lines 103-108). -/
def parseDriverQuality (s : ByteStr) : Option Nat :=
  if s = tokGood then some 0
  else if s = tokImperfect then some 1
  else if s = tokPreliminary then some 2
  else none

/-- `s_supported_parser` (info_builder.cpp lines 111-115). -/
def parseSupported (s : ByteStr) : Option Bool :=
  if s = tokSupported then some true
  else if s = tokUnsupported then some false
  else none

/-! ### Binary record types (fields as assigned by the handlers;
the structs themselves are declared in `info.h`) -/

/-- `info::binaries::machine`, with the fields the handlers assign. -/
structure BinMachine where
  m_runnable : Nat
  m_name_strindex : Nat
  m_sourcefile_strindex : Nat
  m_clone_of_machindex : Nat
  m_rom_of_machindex : Nat
  m_is_bios : Nat
  m_is_device : Nat
  m_is_mechanical : Nat
  m_biossets_index : Nat
  m_biossets_count : Nat
  m_roms_index : Nat
  m_roms_count : Nat
  m_disks_index : Nat
  m_disks_count : Nat
  m_features_index : Nat
  m_features_count : Nat
  m_chips_index : Nat
  m_chips_count : Nat
  m_displays_index : Nat
  m_displays_count : Nat
  m_samples_index : Nat
  m_samples_count : Nat
  m_configurations_index : Nat
  m_configurations_count : Nat
  m_software_lists_index : Nat
  m_software_lists_count : Nat
  m_ram_options_index : Nat
  m_ram_options_count : Nat
  m_devices_index : Nat
  m_devices_count : Nat
  m_slots_index : Nat
  m_slots_count : Nat
  m_description_strindex : Nat
  m_year_strindex : Nat
  m_manufacturer_strindex : Nat
  m_quality_status : Nat
  m_quality_emulation : Nat
  m_quality_cocktail : Nat
  m_save_state_supported : Nat
  m_unofficial : Nat
  m_incomplete : Nat
  m_sound_channels : Nat
deriving Repr, DecidableEq

/-- `info::binaries::biosset`. -/
structure BinBiosset where
  m_name_strindex : Nat
  m_description_strindex : Nat
  m_default : Nat
deriving Repr, DecidableEq

/-- `info::binaries::rom`; `m_crc` is 4 bytes, `m_sha1` 20 bytes. -/
structure BinRom where
  m_name_strindex : Nat
  m_bios_strindex : Nat
  m_size : Nat
  m_crc : List Nat
  m_sha1 : List Nat
  m_merge_strindex : Nat
  m_region_strindex : Nat
  m_offset : Nat
  m_status : Nat
  m_optional : Nat
deriving Repr, DecidableEq

/-- `info::binaries::disk`. -/
structure BinDisk where
  m_name_strindex : Nat
  m_sha1 : List Nat
  m_merge_strindex : Nat
  m_region_strindex : Nat
  m_index : Nat
  m_writable : Nat
  m_status : Nat
  m_optional : Nat
deriving Repr, DecidableEq

/-- `info::binaries::feature`. -/
structure BinFeature where
  m_type : Nat
  m_status : Nat
  m_overall : Nat
deriving Repr, DecidableEq

/-- `info::binaries::chip`. -/
structure BinChip where
  m_type : Nat
  m_name_strindex : Nat
  m_tag_strindex : Nat
  m_clock : Nat
deriving Repr, DecidableEq

/-- `info::binaries::display`.  The `refresh` attribute is a C++ `float`;
floating point is outside the embedding, so the raw attribute bytes are
retained. -/
structure BinDisplay where
  m_tag_strindex : Nat
  m_width : Nat
  m_height : Nat
  m_refresh : Option ByteStr
  m_pixclock : Nat
  m_htotal : Nat
  m_hbend : Nat
  m_hbstart : Nat
  m_vtotal : Nat
  m_vbend : Nat
  m_vbstart : Nat
  m_type : Nat
  m_rotate : Nat
  m_flipx : Nat
deriving Repr, DecidableEq

/-- `info::binaries::sample`. -/
structure BinSample where
  m_name_strindex : Nat
deriving Repr, DecidableEq

/-- `info::binaries::configuration`. -/
structure BinConfiguration where
  m_name_strindex : Nat
  m_tag_strindex : Nat
  m_mask : Nat
  m_configuration_settings_index : Nat
  m_configuration_settings_count : Nat
deriving Repr, DecidableEq

/-- `info::binaries::configuration_setting`. -/
structure BinConfigurationSetting where
  m_name_strindex : Nat
  m_conditions_index : Nat
  m_value : Nat
deriving Repr, DecidableEq

/-- `info::binaries::configuration_condition`. -/
structure BinConfigurationCondition where
  m_tag_strindex : Nat
  m_relation : Nat
  m_mask : Nat
  m_value : Nat
deriving Repr, DecidableEq

/-- `info::binaries::device`. -/
structure BinDevice where
  m_type_strindex : Nat
  m_tag_strindex : Nat
  m_interface_strindex : Nat
  m_mandatory : Nat
  m_instance_name_strindex : Nat
  m_extensions_strindex : Nat
deriving Repr, DecidableEq

/-- `info::binaries::slot`. -/
structure BinSlot where
  m_name_strindex : Nat
  m_slot_options_index : Nat
  m_slot_options_count : Nat
deriving Repr, DecidableEq

/-- `info::binaries::slot_option`. -/
structure BinSlotOption where
  m_name_strindex : Nat
  m_devname_strindex : Nat
  m_is_default : Nat
deriving Repr, DecidableEq

/-- `info::binaries::software_list`. -/
structure BinSoftwareList where
  m_name_strindex : Nat
  m_filter_strindex : Nat
  m_status : Nat
deriving Repr, DecidableEq

/-- `info::binaries::ram_option`. -/
structure BinRamOption where
  m_name_strindex : Nat
  m_is_default : Nat
  m_value : Nat
deriving Repr, DecidableEq

/-- One streamed element event as delivered to the handlers registered in
`process_xml` (info_builder.cpp lines 219-481), carrying the raw attribute
strings (begin events) or the accumulated text (end events). -/
inductive XmlEvent where
  | mameBegin (build : Option ByteStr)
  | machineBegin (name sourcefile cloneof romof runnable isbios isdevice
      ismechanical : Option ByteStr)
  | descriptionEnd (content : ByteStr)
  | yearEnd (content : ByteStr)
  | manufacturerEnd (content : ByteStr)
  | biossetBegin (name description dflt : Option ByteStr)
  | romBegin (name bios size crc sha1 merge region offset status
      optionalAttr : Option ByteStr)
  | diskBegin (name sha1 merge region indexAttr writable status
      optionalAttr : Option ByteStr)
  | featureBegin (ftype status overall : Option ByteStr)
  | chipBegin (ctype name tag clock : Option ByteStr)
  | displayBegin (tag width height refresh pixclock htotal hbend hbstart
      vtotal vbend vbstart dtype rotate flipx : Option ByteStr)
  | sampleBegin (name : Option ByteStr)
  | configurationBegin (name tag mask : Option ByteStr)
  | confsettingBegin (name value : Option ByteStr)
  | conditionBegin (tag relation mask value : Option ByteStr)
  | deviceBegin (dtype tag iface mandatory : Option ByteStr)
  | deviceInstanceBegin (name : Option ByteStr)
  | deviceExtensionBegin (name : Option ByteStr)
  | deviceEnd
  | driverBegin (status emulation cocktail savestate unofficial
      incomplete : Option ByteStr)
  | slotBegin (name : Option ByteStr)
  | slotoptionBegin (name devname dflt : Option ByteStr)
  | softwarelistBegin (name filter status : Option ByteStr)
  | ramoptionBegin (name dflt : Option ByteStr)
  | ramoptionEnd (content : ByteStr)
  | soundBegin (channels : Option ByteStr)
deriving Repr, DecidableEq

/-- The builder's mutable state during one `process_xml` run: the string
table, the per-entity record vectors, the `current_device_extensions`
accumulator and the header's build string reference. -/
structure Builder where
  strings : StringTable
  machines : List BinMachine
  biossets : List BinBiosset
  roms : List BinRom
  disks : List BinDisk
  devices : List BinDevice
  slots : List BinSlot
  slot_options : List BinSlotOption
  features : List BinFeature
  chips : List BinChip
  displays : List BinDisplay
  samples : List BinSample
  configurations : List BinConfiguration
  configuration_settings : List BinConfigurationSetting
  configuration_conditions : List BinConfigurationCondition
  software_lists : List BinSoftwareList
  ram_options : List BinRamOption
  currentDeviceExtensions : ByteStr
  buildStrindex : Nat
deriving Repr, DecidableEq

/-- The builder at the start of `process_xml`: all tables empty (the
entry assertions), a fresh string table. -/
def Builder.init : Builder :=
  { strings := .init, machines := [], biossets := [], roms := [], disks := [],
    devices := [], slots := [], slot_options := [], features := [], chips := [],
    displays := [], samples := [], configurations := [],
    configuration_settings := [], configuration_conditions := [],
    software_lists := [], ram_options := [], currentDeviceExtensions := [],
    buildStrindex := 0 }

/-- Embedding of `string_table::get(const XmlParser::Attributes &, const char *)`
(info_builder.cpp lines 657-661): intern the attribute value, or the empty
string when the attribute is absent. -/
def getAttr (st : StringTable) (v : Option ByteStr) : Except BuildErr (Nat × StringTable) :=
  st.get (v.getD [])

/-- Embedding of `util::last` combined with an assignment to the returned
reference: rewrite the last element of the vector; the `assert` in
`util::last` (utility.h lines 320-325) fails on an empty vector. -/
def updateLast {α : Type _} (f : α → α) : List α → Except BuildErr (List α)
  | [] => .error .assertFailure
  | [a] => .ok [f a]
  | a :: rest => (updateLast f rest).map (fun r => a :: r)

/-- Embedding of the element handlers registered in `process_xml`
(info_builder.cpp lines 219-481): the state transition performed for one
streamed event.  String interning follows the source's call order; vector
`emplace_back` appends; `util::last(...)` updates fail on an empty vector as
the corresponding `assert` would. -/
def processEvent (b : Builder) (e : XmlEvent) : Except BuildErr Builder :=
  match e with
  | .mameBegin build => do
    let (v, st) ← getAttr b.strings build
    .ok { b with strings := st, buildStrindex := v }
  | .machineBegin name sourcefile cloneof romof runnable isbios isdevice
      ismechanical => do
    let (nameIdx, st1) ← getAttr b.strings name
    let (sourcefileIdx, st2) ← getAttr st1 sourcefile
    let (cloneofIdx, st3) ← getAttr st2 cloneof
    let (romofIdx, st4) ← getAttr st3 romof
    let biossetsIdx ← to_uint32 b.biossets.length
    let romsIdx ← to_uint32 b.roms.length
    let disksIdx ← to_uint32 b.disks.length
    let featuresIdx ← to_uint32 b.features.length
    let chipsIdx ← to_uint32 b.chips.length
    let displaysIdx ← to_uint32 b.displays.length
    let samplesIdx ← to_uint32 b.samples.length
    let configurationsIdx ← to_uint32 b.configurations.length
    let softwareListsIdx ← to_uint32 b.software_lists.length
    let ramOptionsIdx ← to_uint32 b.ram_options.length
    let devicesIdx ← to_uint32 b.devices.length
    let slotsIdx ← to_uint32 b.slots.length
    .ok { b with strings := st4, machines := b.machines ++ [{
      m_runnable := encodeBool (some ((attrBool runnable).getD true)) 255,
      m_name_strindex := nameIdx,
      m_sourcefile_strindex := sourcefileIdx,
      m_clone_of_machindex := cloneofIdx,
      m_rom_of_machindex := romofIdx,
      m_is_bios := encodeBool (attrBool isbios) 255,
      m_is_device := encodeBool (attrBool isdevice) 255,
      m_is_mechanical := encodeBool (attrBool ismechanical) 255,
      m_biossets_index := biossetsIdx, m_biossets_count := 0,
      m_roms_index := romsIdx, m_roms_count := 0,
      m_disks_index := disksIdx, m_disks_count := 0,
      m_features_index := featuresIdx, m_features_count := 0,
      m_chips_index := chipsIdx, m_chips_count := 0,
      m_displays_index := displaysIdx, m_displays_count := 0,
      m_samples_index := samplesIdx, m_samples_count := 0,
      m_configurations_index := configurationsIdx, m_configurations_count := 0,
      m_software_lists_index := softwareListsIdx, m_software_lists_count := 0,
      m_ram_options_index := ramOptionsIdx, m_ram_options_count := 0,
      m_devices_index := devicesIdx, m_devices_count := 0,
      m_slots_index := slotsIdx, m_slots_count := 0,
      m_description_strindex := 0,
      m_year_strindex := 0,
      m_manufacturer_strindex := 0,
      m_quality_status := 0,
      m_quality_emulation := 0,
      m_quality_cocktail := 0,
      m_save_state_supported := encodeBool none 255,
      m_unofficial := encodeBool none 255,
      m_incomplete := encodeBool none 255,
      m_sound_channels := 255 }] }
  | .descriptionEnd content => do
    let (v, st) ← b.strings.get content
    let ms ← updateLast (fun m => { m with m_description_strindex := v }) b.machines
    .ok { b with strings := st, machines := ms }
  | .yearEnd content => do
    let (v, st) ← b.strings.get content
    let ms ← updateLast (fun m => { m with m_year_strindex := v }) b.machines
    .ok { b with strings := st, machines := ms }
  | .manufacturerEnd content => do
    let (v, st) ← b.strings.get content
    let ms ← updateLast (fun m => { m with m_manufacturer_strindex := v }) b.machines
    .ok { b with strings := st, machines := ms }
  | .biossetBegin name description dflt => do
    let (nameIdx, st1) ← getAttr b.strings name
    let (descIdx, st2) ← getAttr st1 description
    let ms ← updateLast (fun m =>
      { m with m_biossets_count := m.m_biossets_count + 1 }) b.machines
    .ok { b with strings := st2, machines := ms, biossets := b.biossets ++ [{
      m_name_strindex := nameIdx,
      m_description_strindex := descIdx,
      m_default := encodeBool (some ((attrBool dflt).getD false)) 255 }] }
  | .romBegin name bios size crc sha1 merge region offset status
      optionalAttr => do
    let (nameIdx, st1) ← getAttr b.strings name
    let (biosIdx, st2) ← getAttr st1 bios
    let (mergeIdx, st3) ← getAttr st2 merge
    let (regionIdx, st4) ← getAttr st3 region
    let ms ← updateLast (fun m =>
      { m with m_roms_count := m.m_roms_count + 1 }) b.machines
    .ok { b with strings := st4, machines := ms, roms := b.roms ++ [{
      m_name_strindex := nameIdx,
      m_bios_strindex := biosIdx,
      m_size := (attrU32 size).getD 0,
      m_crc := (infoBinaryFromHex 4 crc).1,
      m_sha1 := (infoBinaryFromHex 20 sha1).1,
      m_merge_strindex := mergeIdx,
      m_region_strindex := regionIdx,
      m_offset := (attrHexU64 offset).getD 0,
      m_status := encodeEnum (status.bind parseDumpStatus) 0,
      m_optional := encodeBool (some ((attrBool optionalAttr).getD false)) 255 }] }
  | .diskBegin name sha1 merge region indexAttr writable status
      optionalAttr => do
    let (nameIdx, st1) ← getAttr b.strings name
    let (mergeIdx, st2) ← getAttr st1 merge
    let (regionIdx, st3) ← getAttr st2 region
    let ms ← updateLast (fun m =>
      { m with m_disks_count := m.m_disks_count + 1 }) b.machines
    .ok { b with strings := st3, machines := ms, disks := b.disks ++ [{
      m_name_strindex := nameIdx,
      m_sha1 := (infoBinaryFromHex 20 sha1).1,
      m_merge_strindex := mergeIdx,
      m_region_strindex := regionIdx,
      m_index := (attrU32 indexAttr).getD 0,
      m_writable := encodeBool (some ((attrBool writable).getD false)) 255,
      m_status := encodeEnum (status.bind parseDumpStatus) 0,
      m_optional := encodeBool (some ((attrBool optionalAttr).getD false)) 255 }] }
  | .featureBegin ftype status overall => do
    let ms ← updateLast (fun m =>
      { m with m_features_count := m.m_features_count + 1 }) b.machines
    .ok { b with machines := ms, features := b.features ++ [{
      m_type := encodeEnum (ftype.bind parseFeatureType) 0,
      m_status := encodeEnum (status.bind parseFeatureQuality) 0,
      m_overall := encodeEnum (overall.bind parseFeatureQuality) 0 }] }
  | .chipBegin ctype name tag clock => do
    let (nameIdx, st1) ← getAttr b.strings name
    let (tagIdx, st2) ← getAttr st1 tag
    let ms ← updateLast (fun m =>
      { m with m_chips_count := m.m_chips_count + 1 }) b.machines
    .ok { b with strings := st2, machines := ms, chips := b.chips ++ [{
      m_type := encodeEnum (ctype.bind parseChipType) 0,
      m_name_strindex := nameIdx,
      m_tag_strindex := tagIdx,
      m_clock := (attrU64 clock).getD 0 }] }
  | .displayBegin tag width height refresh pixclock htotal hbend hbstart
      vtotal vbend vbstart dtype rotate flipx => do
    let (tagIdx, st1) ← getAttr b.strings tag
    let ms ← updateLast (fun m =>
      { m with m_displays_count := m.m_displays_count + 1 }) b.machines
    .ok { b with strings := st1, machines := ms, displays := b.displays ++ [{
      m_tag_strindex := tagIdx,
      m_width := (attrU32 width).getD (2 ^ 32 - 1),
      m_height := (attrU32 height).getD (2 ^ 32 - 1),
      m_refresh := refresh,
      m_pixclock := (attrU64 pixclock).getD (2 ^ 64 - 1),
      m_htotal := (attrU32 htotal).getD (2 ^ 32 - 1),
      m_hbend := (attrU32 hbend).getD (2 ^ 32 - 1),
      m_hbstart := (attrU32 hbstart).getD (2 ^ 32 - 1),
      m_vtotal := (attrU32 vtotal).getD (2 ^ 32 - 1),
      m_vbend := (attrU32 vbend).getD (2 ^ 32 - 1),
      m_vbstart := (attrU32 vbstart).getD (2 ^ 32 - 1),
      m_type := encodeEnum (dtype.bind parseDisplayType) 0,
      m_rotate := encodeEnum (rotate.bind parseDisplayRotation) 0,
      m_flipx := encodeBool (attrBool flipx) 255 }] }
  | .sampleBegin name => do
    let (nameIdx, st1) ← getAttr b.strings name
    let ms ← updateLast (fun m =>
      { m with m_samples_count := m.m_samples_count + 1 }) b.machines
    .ok { b with strings := st1, machines := ms, samples := b.samples ++ [{
      m_name_strindex := nameIdx }] }
  | .configurationBegin name tag mask => do
    let (nameIdx, st1) ← getAttr b.strings name
    let (tagIdx, st2) ← getAttr st1 tag
    let settingsIdx ← to_uint32 b.configuration_settings.length
    let ms ← updateLast (fun m =>
      { m with m_configurations_count := m.m_configurations_count + 1 }) b.machines
    .ok { b with
      strings := st2, machines := ms,
      configurations := b.configurations ++ [{
        m_name_strindex := nameIdx,
        m_tag_strindex := tagIdx,
        m_mask := (attrU32 mask).getD 0,
        m_configuration_settings_index := settingsIdx,
        m_configuration_settings_count := 0 }] }
  | .confsettingBegin name value => do
    let (nameIdx, st1) ← getAttr b.strings name
    let conditionsIdx ← to_uint32 b.configuration_conditions.length
    let cs ← updateLast (fun c =>
      { c with m_configuration_settings_count :=
          c.m_configuration_settings_count + 1 }) b.configurations
    .ok { b with
      strings := st1, configurations := cs,
      configuration_settings := b.configuration_settings ++ [{
        m_name_strindex := nameIdx,
        m_conditions_index := conditionsIdx,
        m_value := (attrU32 value).getD 0 }] }
  | .conditionBegin tag relation mask value => do
    let (tagIdx, st1) ← getAttr b.strings tag
    .ok { b with
      strings := st1,
      configuration_conditions := b.configuration_conditions ++ [{
        m_tag_strindex := tagIdx,
        m_relation := encodeEnum (relation.bind parseRelation) 0,
        m_mask := (attrU32 mask).getD 0,
        m_value := (attrU32 value).getD 0 }] }
  | .deviceBegin dtype tag iface mandatory => do
    let (typeIdx, st1) ← getAttr b.strings dtype
    let (tagIdx, st2) ← getAttr st1 tag
    let (ifaceIdx, st3) ← getAttr st2 iface
    let ms ← updateLast (fun m =>
      { m with m_devices_count := m.m_devices_count + 1 }) b.machines
    .ok { b with
      strings := st3, machines := ms,
      currentDeviceExtensions := [],
      devices := b.devices ++ [{
        m_type_strindex := typeIdx,
        m_tag_strindex := tagIdx,
        m_interface_strindex := ifaceIdx,
        m_mandatory := encodeBool (some ((attrBool mandatory).getD false)) 255,
        m_instance_name_strindex := 0,
        m_extensions_strindex := 0 }] }
  | .deviceInstanceBegin name => do
    let (nameIdx, st1) ← getAttr b.strings name
    let ds ← updateLast (fun d =>
      { d with m_instance_name_strindex := nameIdx }) b.devices
    .ok { b with strings := st1, devices := ds }
  | .deviceExtensionBegin name =>
    match name with
    | some n =>
      .ok { b with
        currentDeviceExtensions := b.currentDeviceExtensions ++ n ++ [44] }
    | none => .ok b
  | .deviceEnd =>
    if b.currentDeviceExtensions = [] then .ok b
    else do
      let (extIdx, st1) ← b.strings.get b.currentDeviceExtensions
      let ds ← updateLast (fun d =>
        { d with m_extensions_strindex := extIdx }) b.devices
      .ok { b with strings := st1, devices := ds }
  | .driverBegin status emulation cocktail savestate unofficial incomplete => do
    let ms ← updateLast (fun m =>
      { m with
        m_quality_status :=
          encodeEnum (status.bind parseDriverQuality) m.m_quality_status,
        m_quality_emulation :=
          encodeEnum (emulation.bind parseDriverQuality) m.m_quality_emulation,
        m_quality_cocktail :=
          encodeEnum (cocktail.bind parseDriverQuality) m.m_quality_cocktail,
        m_save_state_supported :=
          encodeBool (savestate.bind parseSupported) m.m_save_state_supported,
        m_unofficial := encodeBool (attrBool unofficial) m.m_unofficial,
        m_incomplete := encodeBool (attrBool incomplete) m.m_incomplete }) b.machines
    .ok { b with machines := ms }
  | .slotBegin name => do
    let (nameIdx, st1) ← getAttr b.strings name
    let optionsIdx ← to_uint32 b.slot_options.length
    let ms ← updateLast (fun m =>
      { m with m_slots_count := m.m_slots_count + 1 }) b.machines
    .ok { b with strings := st1, machines := ms, slots := b.slots ++ [{
      m_name_strindex := nameIdx,
      m_slot_options_index := optionsIdx,
      m_slot_options_count := 0 }] }
  | .slotoptionBegin name devname dflt => do
    let (nameIdx, st1) ← getAttr b.strings name
    let (devnameIdx, st2) ← getAttr st1 devname
    let ss ← updateLast (fun s =>
      { s with m_slot_options_count := s.m_slot_options_count + 1 }) b.slots
    .ok { b with
      strings := st2, slots := ss,
      slot_options := b.slot_options ++ [{
        m_name_strindex := nameIdx,
        m_devname_strindex := devnameIdx,
        m_is_default := encodeBool (some ((attrBool dflt).getD false)) 255 }] }
  | .softwarelistBegin name filter status => do
    let (nameIdx, st1) ← getAttr b.strings name
    let (filterIdx, st2) ← getAttr st1 filter
    let ms ← updateLast (fun m =>
      { m with m_software_lists_count := m.m_software_lists_count + 1 }) b.machines
    .ok { b with
      strings := st2, machines := ms,
      software_lists := b.software_lists ++ [{
        m_name_strindex := nameIdx,
        m_filter_strindex := filterIdx,
        m_status := encodeEnum (status.bind parseSoftwareListStatus) 0 }] }
  | .ramoptionBegin name dflt => do
    let (nameIdx, st1) ← getAttr b.strings name
    let ms ← updateLast (fun m =>
      { m with m_ram_options_count := m.m_ram_options_count + 1 }) b.machines
    .ok { b with
      strings := st1, machines := ms,
      ram_options := b.ram_options ++ [{
        m_name_strindex := nameIdx,
        m_is_default := encodeBool (some ((attrBool dflt).getD false)) 255,
        m_value := 0 }] }
  | .ramoptionEnd content => do
    let rs ← updateLast (fun r =>
      { r with m_value := (parseUintAttr (2 ^ 64) content).getD 0 }) b.ram_options
    .ok { b with ram_options := rs }
  | .soundBegin channels => do
    let ms ← updateLast (fun m =>
      { m with m_sound_channels := (attrU8 channels).getD 255 }) b.machines
    .ok { b with machines := ms }

/-- Process a whole event stream from a given state. -/
def processEvents (b : Builder) : List XmlEvent → Except BuildErr Builder
  | [] => .ok b
  | e :: rest => do
    let b' ← processEvent b e
    processEvents b' rest

/-! ## Finalization (info_builder.cpp lines 503-566) -/

/-- Byte-wise `strcmp(a, b) < 0` on NUL-free byte strings: lexicographic
strict order with the shorter prefix first. -/
def bytesLt : ByteStr → ByteStr → Bool
  | [], [] => false
  | [], _ :: _ => true
  | _ :: _, [] => false
  | a :: as, b :: bs =>
    if a < b then true
    else if b < a then false
    else bytesLt as bs

/-- Insert into a run sorted by the strict comparator `lt`, keeping every
element `y` with `lt y x` before `x` (the comparator discipline of
`std::sort`). -/
def insertSorted {α : Type _} (lt : α → α → Bool) (x : α) : List α → List α
  | [] => [x]
  | y :: ys => if lt y x then y :: insertSorted lt x ys else x :: y :: ys

/-- Sorting by a strict comparator; models the `std::sort` call at
info_builder.cpp lines 528-537 (which guarantees a sorted result; the order
of equivalent elements is unspecified there, and is irrelevant under the
distinct-names hypotheses of the theorems below). -/
def sortByLt {α : Type _} (lt : α → α → Bool) : List α → List α
  | [] => []
  | x :: xs => insertSorted lt x (sortByLt lt xs)

/-- The machine-name comparator of the `std::sort` call (info_builder.cpp
lines 528-537): compare the looked-up name strings with `strcmp`. -/
def machineNameLt (st : StringTable) (a c : BinMachine) : Bool :=
  bytesLt (st.lookupRef a.m_name_strindex) (st.lookupRef c.m_name_strindex)

/-- `~0` as a `std::uint32_t`: the sentinel "not found" machine index. -/
def UINT32_MAX : Nat := 2 ^ 32 - 1

/-- `std::unordered_map::emplace`: insert only when the key is absent. -/
def emplaceNew (m : List (Nat × Nat)) (k v : Nat) : List (Nat × Nat) :=
  if (m.find? (fun p => p.1 == k)).isSome then m else m ++ [(k, v)]

/-- The loop body of the `machineIndexMap` construction: emplace each
machine's name reference at its running position `iter - m_machines.begin()`. -/
def buildMachineIndexMapGo (m : List (Nat × Nat)) (i : Nat) :
    List BinMachine → List (Nat × Nat)
  | [] => m
  | mach :: rest =>
    buildMachineIndexMapGo (emplaceNew m mach.m_name_strindex i) (i + 1) rest

/-- The `machineIndexMap` of info_builder.cpp lines 539-546: the empty
string's reference maps to `~0`, then every machine's name reference maps to
its position in the sorted table (first emplace wins). -/
def buildMachineIndexMap (emptyRef : Nat) (sorted : List BinMachine) :
    List (Nat × Nat) :=
  buildMachineIndexMapGo (emplaceNew [] emptyRef UINT32_MAX) 0 sorted

/-- `machineIndexFromStringIndex` (info_builder.cpp lines 549-555): look the
string reference up in the map, `~0` when absent. -/
def machineIndexFromStringIndex (m : List (Nat × Nat)) (stringIndex : Nat) : Nat :=
  match m.find? (fun p => p.1 == stringIndex) with
  | some p => p.2
  | none => UINT32_MAX

/-- The `info::binaries::header` fields populated at info_builder.cpp lines
506-522 (the magic number and `sizes_hash` are compile-time constants of
`info.h` and carry no information here; the header is then XOR-salted before
being written, see `util.salt`). -/
structure InfoHeader where
  m_build_strindex : Nat
  m_machines_count : Nat
  m_biossets_count : Nat
  m_roms_count : Nat
  m_disks_count : Nat
  m_devices_count : Nat
  m_slots_count : Nat
  m_slot_options_count : Nat
  m_features_count : Nat
  m_chips_count : Nat
  m_displays_count : Nat
  m_samples_count : Nat
  m_configurations_count : Nat
  m_configuration_settings_count : Nat
  m_configuration_conditions_count : Nat
  m_software_lists_count : Nat
  m_ram_options_count : Nat
deriving Repr, DecidableEq

/-- The fully built database: what a successful `process_xml` leaves in the
builder, ready for `emit_info`. -/
structure Database where
  header : InfoHeader
  machines : List BinMachine
  biossets : List BinBiosset
  roms : List BinRom
  disks : List BinDisk
  devices : List BinDevice
  slots : List BinSlot
  slot_options : List BinSlotOption
  features : List BinFeature
  chips : List BinChip
  displays : List BinDisplay
  samples : List BinSample
  configurations : List BinConfiguration
  configuration_settings : List BinConfigurationSetting
  configuration_conditions : List BinConfigurationCondition
  software_lists : List BinSoftwareList
  ram_options : List BinRamOption
  strings : StringTable
deriving Repr, DecidableEq

/-- The fix-up loop body (info_builder.cpp lines 557-562): rewrite
`clone_of`/`rom_of` from string references to machine indexes through the
machine index map. -/
def fixupMachine (indexMap : List (Nat × Nat)) (m : BinMachine) : BinMachine :=
  { m with
    m_clone_of_machindex :=
      machineIndexFromStringIndex indexMap m.m_clone_of_machindex,
    m_rom_of_machindex :=
      machineIndexFromStringIndex indexMap m.m_rom_of_machindex }

/-- Embedding of the tail of `process_xml` (info_builder.cpp lines 503-566):
embed the string-table end magic, populate the header counts (each through
`to_uint32`), sort the machines by name, build the name-reference-to-index
map and rewrite `clone_of`/`rom_of` from string references to machine
indexes. -/
def finalizeBuilder (b : Builder) : Except BuildErr Database := do
  let st := b.strings.embedValue magicStringtableEnd
  let machinesCount ← to_uint32 b.machines.length
  let biossetsCount ← to_uint32 b.biossets.length
  let romsCount ← to_uint32 b.roms.length
  let disksCount ← to_uint32 b.disks.length
  let devicesCount ← to_uint32 b.devices.length
  let slotsCount ← to_uint32 b.slots.length
  let slotOptionsCount ← to_uint32 b.slot_options.length
  let featuresCount ← to_uint32 b.features.length
  let chipsCount ← to_uint32 b.chips.length
  let displaysCount ← to_uint32 b.displays.length
  let samplesCount ← to_uint32 b.samples.length
  let configurationsCount ← to_uint32 b.configurations.length
  let configurationSettingsCount ← to_uint32 b.configuration_settings.length
  let configurationConditionsCount ← to_uint32 b.configuration_conditions.length
  let softwareListsCount ← to_uint32 b.software_lists.length
  let ramOptionsCount ← to_uint32 b.ram_options.length
  let sorted := sortByLt (machineNameLt st) b.machines
  let (emptyRef, st2) ← st.get []
  let indexMap := buildMachineIndexMap emptyRef sorted
  let fixed := sorted.map (fixupMachine indexMap)
  .ok {
    header := {
      m_build_strindex := b.buildStrindex,
      m_machines_count := machinesCount,
      m_biossets_count := biossetsCount,
      m_roms_count := romsCount,
      m_disks_count := disksCount,
      m_devices_count := devicesCount,
      m_slots_count := slotsCount,
      m_slot_options_count := slotOptionsCount,
      m_features_count := featuresCount,
      m_chips_count := chipsCount,
      m_displays_count := displaysCount,
      m_samples_count := samplesCount,
      m_configurations_count := configurationsCount,
      m_configuration_settings_count := configurationSettingsCount,
      m_configuration_conditions_count := configurationConditionsCount,
      m_software_lists_count := softwareListsCount,
      m_ram_options_count := ramOptionsCount },
    machines := fixed,
    biossets := b.biossets,
    roms := b.roms,
    disks := b.disks,
    devices := b.devices,
    slots := b.slots,
    slot_options := b.slot_options,
    features := b.features,
    chips := b.chips,
    displays := b.displays,
    samples := b.samples,
    configurations := b.configurations,
    configuration_settings := b.configuration_settings,
    configuration_conditions := b.configuration_conditions,
    software_lists := b.software_lists,
    ram_options := b.ram_options,
    strings := st2 }

/-- Embedding of a successful `info::database_builder::process_xml` run
(info_builder.cpp lines 189-567) on one parsed document, given as its stream
of element events. -/
def processXml (events : List XmlEvent) : Except BuildErr Database := do
  let b ← processEvents Builder.init events
  finalizeBuilder b

/-! ## Claim C1: contiguous child ranges -/

/-- The twelve machine-level child tables (biossets, roms, disks, features,
chips, displays, samples, configurations, devices, slots, software lists,
ram options). -/
inductive ChildKind where
  | biossets | roms | disks | features | chips | displays | samples
  | configurations | softwareLists | ramOptions | devices | slots
deriving Repr, DecidableEq

/-- The machine's start-index field for a child table. -/
def idxF : ChildKind → BinMachine → Nat
  | .biossets, m => m.m_biossets_index
  | .roms, m => m.m_roms_index
  | .disks, m => m.m_disks_index
  | .features, m => m.m_features_index
  | .chips, m => m.m_chips_index
  | .displays, m => m.m_displays_index
  | .samples, m => m.m_samples_index
  | .configurations, m => m.m_configurations_index
  | .softwareLists, m => m.m_software_lists_index
  | .ramOptions, m => m.m_ram_options_index
  | .devices, m => m.m_devices_index
  | .slots, m => m.m_slots_index

/-- The machine's count field for a child table. -/
def cntF : ChildKind → BinMachine → Nat
  | .biossets, m => m.m_biossets_count
  | .roms, m => m.m_roms_count
  | .disks, m => m.m_disks_count
  | .features, m => m.m_features_count
  | .chips, m => m.m_chips_count
  | .displays, m => m.m_displays_count
  | .samples, m => m.m_samples_count
  | .configurations, m => m.m_configurations_count
  | .softwareLists, m => m.m_software_lists_count
  | .ramOptions, m => m.m_ram_options_count
  | .devices, m => m.m_devices_count
  | .slots, m => m.m_slots_count

/-- The current length of a child table in the builder. -/
def tblLen : ChildKind → Builder → Nat
  | .biossets, b => b.biossets.length
  | .roms, b => b.roms.length
  | .disks, b => b.disks.length
  | .features, b => b.features.length
  | .chips, b => b.chips.length
  | .displays, b => b.displays.length
  | .samples, b => b.samples.length
  | .configurations, b => b.configurations.length
  | .softwareLists, b => b.software_lists.length
  | .ramOptions, b => b.ram_options.length
  | .devices, b => b.devices.length
  | .slots, b => b.slots.length

/-- The length of a child table in the finished database. -/
def dbTblLen : ChildKind → Database → Nat
  | .biossets, d => d.biossets.length
  | .roms, d => d.roms.length
  | .disks, d => d.disks.length
  | .features, d => d.features.length
  | .chips, d => d.chips.length
  | .displays, d => d.displays.length
  | .samples, d => d.samples.length
  | .configurations, d => d.configurations.length
  | .softwareLists, d => d.software_lists.length
  | .ramOptions, d => d.ram_options.length
  | .devices, d => d.devices.length
  | .slots, d => d.slots.length

/-- The machines' child ranges tile the interval `[acc, L)` of the child
table consecutively, in machine-emission order: each machine's start index
is the running offset and the final offset is the table length. -/
def contig (idx cnt : BinMachine → Nat) : List BinMachine → Nat → Nat → Prop
  | [], acc, L => acc = L
  | m :: ms, acc, L => idx m = acc ∧ contig idx cnt ms (acc + cnt m) L

theorem contig_append_new {idx cnt : BinMachine → Nat} {ms : List BinMachine}
    {acc L : Nat} (h : contig idx cnt ms acc L) {m' : BinMachine}
    (hidx : idx m' = L) (hcnt : cnt m' = 0) :
    contig idx cnt (ms ++ [m']) acc L := by
  induction ms generalizing acc with
  | nil =>
    simp only [contig] at h
    subst h
    exact ⟨hidx, by simp [contig, hcnt]⟩
  | cons m ms ih =>
    obtain ⟨h1, h2⟩ := h
    exact ⟨h1, ih h2⟩

theorem contig_update_last {idx cnt : BinMachine → Nat} {l : List BinMachine}
    {a a' : BinMachine} {acc L d : Nat}
    (h : contig idx cnt (l ++ [a]) acc L)
    (hidx : idx a' = idx a) (hcnt : cnt a' = cnt a + d) :
    contig idx cnt (l ++ [a']) acc (L + d) := by
  induction l generalizing acc with
  | nil =>
    obtain ⟨h1, h2⟩ := h
    simp only [contig] at h2
    refine ⟨by rw [hidx, h1], ?_⟩
    simp only [contig]
    omega
  | cons m ms ih =>
    obtain ⟨h1, h2⟩ := h
    exact ⟨h1, ih h2⟩

theorem contig_sum {idx cnt : BinMachine → Nat} {ms : List BinMachine}
    {acc L : Nat} (h : contig idx cnt ms acc L) :
    acc + (ms.map cnt).sum = L := by
  induction ms generalizing acc with
  | nil => simpa [contig] using h
  | cons m ms ih =>
    obtain ⟨_, h2⟩ := h
    have := ih h2
    simp only [List.map_cons, List.sum_cons]
    omega

theorem contig_bounds {idx cnt : BinMachine → Nat} {ms : List BinMachine}
    {acc L : Nat} (h : contig idx cnt ms acc L) :
    ∀ m ∈ ms, acc ≤ idx m ∧ idx m + cnt m ≤ L := by
  induction ms generalizing acc with
  | nil => simp
  | cons m ms ih =>
    obtain ⟨h1, h2⟩ := h
    intro x hx
    rcases List.mem_cons.mp hx with he | hm
    · subst he
      have := contig_sum h2
      omega
    · have := ih h2 x hm
      omega

theorem contig_pairwise {idx cnt : BinMachine → Nat} {ms : List BinMachine}
    {acc L : Nat} (h : contig idx cnt ms acc L) :
    List.Pairwise (fun a c => idx a + cnt a ≤ idx c) ms := by
  induction ms generalizing acc with
  | nil => exact List.Pairwise.nil
  | cons m ms ih =>
    obtain ⟨h1, h2⟩ := h
    refine List.Pairwise.cons ?_ (ih h2)
    intro x hx
    have := (contig_bounds h2 x hx).1
    omega

theorem updateLast_ok_decomp {α : Type _} {f : α → α} {ms ms' : List α}
    (h : updateLast f ms = .ok ms') :
    ∃ l a, ms = l ++ [a] ∧ ms' = l ++ [f a] := by
  induction ms generalizing ms' with
  | nil => simp [updateLast] at h
  | cons m rest ih =>
    cases rest with
    | nil =>
      simp only [updateLast, Except.ok.injEq] at h
      exact ⟨[], m, by simp, by simp [← h]⟩
    | cons r rest' =>
      simp only [updateLast] at h
      cases hrec : updateLast f (r :: rest') with
      | error e => rw [hrec] at h; simp [Except.map] at h
      | ok tail' =>
        rw [hrec] at h
        simp only [Except.map, Except.ok.injEq] at h
        obtain ⟨l, a, hms, htail⟩ := ih hrec
        exact ⟨m :: l, a, by simp [hms], by simp [← h, htail]⟩

theorem exceptBind_ok {e a c : Type _} {m : Except e a} {f : a → Except e c}
    {v : c} : (m >>= f) = .ok v ↔ ∃ x, m = .ok x ∧ f x = .ok v := by
  cases m with
  | error err => simp [Bind.bind, Except.bind]
  | ok x => simp [Bind.bind, Except.bind]


/-- The builder-wide contiguity invariant: for every child table, the
machines' recorded ranges tile exactly the table built so far. -/
def BuilderChildInv (b : Builder) : Prop :=
  ∀ k : ChildKind, contig (idxF k) (cntF k) b.machines 0 (tblLen k b)

theorem builderInit_childInv : BuilderChildInv Builder.init := by
  intro k
  cases k <;> exact rfl

theorem updateLast_length {α : Type _} {f : α → α} {ms ms' : List α}
    (h : updateLast f ms = .ok ms') : ms'.length = ms.length := by
  obtain ⟨l, a, hml, hms⟩ := updateLast_ok_decomp h
  rw [hml, hms]
  simp

theorem contig_updateLast {idx cnt : BinMachine → Nat}
    (f : BinMachine → BinMachine) {ms ms' : List BinMachine} {acc L d : Nat}
    (hupd : updateLast f ms = .ok ms')
    (h : contig idx cnt ms acc L)
    (hidx : ∀ m, idx (f m) = idx m) (hcnt : ∀ m, cnt (f m) = cnt m + d) :
    contig idx cnt ms' acc (L + d) := by
  obtain ⟨l, a, hml, hms⟩ := updateLast_ok_decomp hupd
  rw [hms]
  rw [hml] at h
  exact contig_update_last h (hidx a) (hcnt a)

theorem processEvent_childInv {b b' : Builder} {e : XmlEvent}
    (h : processEvent b e = .ok b') (hinv : BuilderChildInv b) :
    BuilderChildInv b' := by
  cases e with
  | mameBegin build =>
    simp only [processEvent, exceptBind_ok, Except.ok.injEq] at h
    rcases h with ⟨⟨v1, s1⟩, hg1, hb⟩
    subst hb
    intro k
    cases k <;> exact hinv _
  | machineBegin name sourcefile cloneof romof runnable isbios isdevice ismechanical =>
    simp only [processEvent, exceptBind_ok, Except.ok.injEq] at h
    rcases h with ⟨⟨n1, s1⟩, hg1, ⟨n2, s2⟩, hg2, ⟨n3, s3⟩, hg3, ⟨n4, s4⟩, hg4,
      r1, hr1, r2, hr2, r3, hr3, r4, hr4, r5, hr5, r6, hr6, r7, hr7, r8, hr8,
      r9, hr9, r10, hr10, r11, hr11, r12, hr12, hb⟩
    subst hb
    intro k
    cases k with
    | biossets => exact contig_append_new (hinv _) (to_uint32_ok hr1) rfl
    | roms => exact contig_append_new (hinv _) (to_uint32_ok hr2) rfl
    | disks => exact contig_append_new (hinv _) (to_uint32_ok hr3) rfl
    | features => exact contig_append_new (hinv _) (to_uint32_ok hr4) rfl
    | chips => exact contig_append_new (hinv _) (to_uint32_ok hr5) rfl
    | displays => exact contig_append_new (hinv _) (to_uint32_ok hr6) rfl
    | samples => exact contig_append_new (hinv _) (to_uint32_ok hr7) rfl
    | configurations => exact contig_append_new (hinv _) (to_uint32_ok hr8) rfl
    | softwareLists => exact contig_append_new (hinv _) (to_uint32_ok hr9) rfl
    | ramOptions => exact contig_append_new (hinv _) (to_uint32_ok hr10) rfl
    | devices => exact contig_append_new (hinv _) (to_uint32_ok hr11) rfl
    | slots => exact contig_append_new (hinv _) (to_uint32_ok hr12) rfl
  | descriptionEnd content =>
    simp only [processEvent, exceptBind_ok, Except.ok.injEq] at h
    rcases h with ⟨⟨v1, s1⟩, hg1, ms, hupd, hb⟩
    subst hb
    intro k
    cases k with
    | biossets => exact contig_updateLast _ hupd (hinv ChildKind.biossets) (fun _ => rfl) (fun _ => (Nat.add_zero _).symm)
    | roms => exact contig_updateLast _ hupd (hinv ChildKind.roms) (fun _ => rfl) (fun _ => (Nat.add_zero _).symm)
    | disks => exact contig_updateLast _ hupd (hinv ChildKind.disks) (fun _ => rfl) (fun _ => (Nat.add_zero _).symm)
    | features => exact contig_updateLast _ hupd (hinv ChildKind.features) (fun _ => rfl) (fun _ => (Nat.add_zero _).symm)
    | chips => exact contig_updateLast _ hupd (hinv ChildKind.chips) (fun _ => rfl) (fun _ => (Nat.add_zero _).symm)
    | displays => exact contig_updateLast _ hupd (hinv ChildKind.displays) (fun _ => rfl) (fun _ => (Nat.add_zero _).symm)
    | samples => exact contig_updateLast _ hupd (hinv ChildKind.samples) (fun _ => rfl) (fun _ => (Nat.add_zero _).symm)
    | configurations => exact contig_updateLast _ hupd (hinv ChildKind.configurations) (fun _ => rfl) (fun _ => (Nat.add_zero _).symm)
    | softwareLists => exact contig_updateLast _ hupd (hinv ChildKind.softwareLists) (fun _ => rfl) (fun _ => (Nat.add_zero _).symm)
    | ramOptions => exact contig_updateLast _ hupd (hinv ChildKind.ramOptions) (fun _ => rfl) (fun _ => (Nat.add_zero _).symm)
    | devices => exact contig_updateLast _ hupd (hinv ChildKind.devices) (fun _ => rfl) (fun _ => (Nat.add_zero _).symm)
    | slots => exact contig_updateLast _ hupd (hinv ChildKind.slots) (fun _ => rfl) (fun _ => (Nat.add_zero _).symm)
  | yearEnd content =>
    simp only [processEvent, exceptBind_ok, Except.ok.injEq] at h
    rcases h with ⟨⟨v1, s1⟩, hg1, ms, hupd, hb⟩
    subst hb
    intro k
    cases k with
    | biossets => exact contig_updateLast _ hupd (hinv ChildKind.biossets) (fun _ => rfl) (fun _ => (Nat.add_zero _).symm)
    | roms => exact contig_updateLast _ hupd (hinv ChildKind.roms) (fun _ => rfl) (fun _ => (Nat.add_zero _).symm)
    | disks => exact contig_updateLast _ hupd (hinv ChildKind.disks) (fun _ => rfl) (fun _ => (Nat.add_zero _).symm)
    | features => exact contig_updateLast _ hupd (hinv ChildKind.features) (fun _ => rfl) (fun _ => (Nat.add_zero _).symm)
    | chips => exact contig_updateLast _ hupd (hinv ChildKind.chips) (fun _ => rfl) (fun _ => (Nat.add_zero _).symm)
    | displays => exact contig_updateLast _ hupd (hinv ChildKind.displays) (fun _ => rfl) (fun _ => (Nat.add_zero _).symm)
    | samples => exact contig_updateLast _ hupd (hinv ChildKind.samples) (fun _ => rfl) (fun _ => (Nat.add_zero _).symm)
    | configurations => exact contig_updateLast _ hupd (hinv ChildKind.configurations) (fun _ => rfl) (fun _ => (Nat.add_zero _).symm)
    | softwareLists => exact contig_updateLast _ hupd (hinv ChildKind.softwareLists) (fun _ => rfl) (fun _ => (Nat.add_zero _).symm)
    | ramOptions => exact contig_updateLast _ hupd (hinv ChildKind.ramOptions) (fun _ => rfl) (fun _ => (Nat.add_zero _).symm)
    | devices => exact contig_updateLast _ hupd (hinv ChildKind.devices) (fun _ => rfl) (fun _ => (Nat.add_zero _).symm)
    | slots => exact contig_updateLast _ hupd (hinv ChildKind.slots) (fun _ => rfl) (fun _ => (Nat.add_zero _).symm)
  | manufacturerEnd content =>
    simp only [processEvent, exceptBind_ok, Except.ok.injEq] at h
    rcases h with ⟨⟨v1, s1⟩, hg1, ms, hupd, hb⟩
    subst hb
    intro k
    cases k with
    | biossets => exact contig_updateLast _ hupd (hinv ChildKind.biossets) (fun _ => rfl) (fun _ => (Nat.add_zero _).symm)
    | roms => exact contig_updateLast _ hupd (hinv ChildKind.roms) (fun _ => rfl) (fun _ => (Nat.add_zero _).symm)
    | disks => exact contig_updateLast _ hupd (hinv ChildKind.disks) (fun _ => rfl) (fun _ => (Nat.add_zero _).symm)
    | features => exact contig_updateLast _ hupd (hinv ChildKind.features) (fun _ => rfl) (fun _ => (Nat.add_zero _).symm)
    | chips => exact contig_updateLast _ hupd (hinv ChildKind.chips) (fun _ => rfl) (fun _ => (Nat.add_zero _).symm)
    | displays => exact contig_updateLast _ hupd (hinv ChildKind.displays) (fun _ => rfl) (fun _ => (Nat.add_zero _).symm)
    | samples => exact contig_updateLast _ hupd (hinv ChildKind.samples) (fun _ => rfl) (fun _ => (Nat.add_zero _).symm)
    | configurations => exact contig_updateLast _ hupd (hinv ChildKind.configurations) (fun _ => rfl) (fun _ => (Nat.add_zero _).symm)
    | softwareLists => exact contig_updateLast _ hupd (hinv ChildKind.softwareLists) (fun _ => rfl) (fun _ => (Nat.add_zero _).symm)
    | ramOptions => exact contig_updateLast _ hupd (hinv ChildKind.ramOptions) (fun _ => rfl) (fun _ => (Nat.add_zero _).symm)
    | devices => exact contig_updateLast _ hupd (hinv ChildKind.devices) (fun _ => rfl) (fun _ => (Nat.add_zero _).symm)
    | slots => exact contig_updateLast _ hupd (hinv ChildKind.slots) (fun _ => rfl) (fun _ => (Nat.add_zero _).symm)
  | biossetBegin name description dflt =>
    simp only [processEvent, exceptBind_ok, Except.ok.injEq] at h
    rcases h with ⟨⟨n1, s1⟩, hg1, ⟨n2, s2⟩, hg2, ms, hupd, hb⟩
    subst hb
    intro k
    cases k with
    | biossets => simpa [tblLen] using contig_updateLast _ hupd (hinv ChildKind.biossets) (fun _ => rfl) (fun _ => rfl)
    | roms => exact contig_updateLast _ hupd (hinv ChildKind.roms) (fun _ => rfl) (fun _ => (Nat.add_zero _).symm)
    | disks => exact contig_updateLast _ hupd (hinv ChildKind.disks) (fun _ => rfl) (fun _ => (Nat.add_zero _).symm)
    | features => exact contig_updateLast _ hupd (hinv ChildKind.features) (fun _ => rfl) (fun _ => (Nat.add_zero _).symm)
    | chips => exact contig_updateLast _ hupd (hinv ChildKind.chips) (fun _ => rfl) (fun _ => (Nat.add_zero _).symm)
    | displays => exact contig_updateLast _ hupd (hinv ChildKind.displays) (fun _ => rfl) (fun _ => (Nat.add_zero _).symm)
    | samples => exact contig_updateLast _ hupd (hinv ChildKind.samples) (fun _ => rfl) (fun _ => (Nat.add_zero _).symm)
    | configurations => exact contig_updateLast _ hupd (hinv ChildKind.configurations) (fun _ => rfl) (fun _ => (Nat.add_zero _).symm)
    | softwareLists => exact contig_updateLast _ hupd (hinv ChildKind.softwareLists) (fun _ => rfl) (fun _ => (Nat.add_zero _).symm)
    | ramOptions => exact contig_updateLast _ hupd (hinv ChildKind.ramOptions) (fun _ => rfl) (fun _ => (Nat.add_zero _).symm)
    | devices => exact contig_updateLast _ hupd (hinv ChildKind.devices) (fun _ => rfl) (fun _ => (Nat.add_zero _).symm)
    | slots => exact contig_updateLast _ hupd (hinv ChildKind.slots) (fun _ => rfl) (fun _ => (Nat.add_zero _).symm)
  | romBegin name bios size crc sha1 merge region offset status optionalAttr =>
    simp only [processEvent, exceptBind_ok, Except.ok.injEq] at h
    rcases h with ⟨⟨n1, s1⟩, hg1, ⟨n2, s2⟩, hg2, ⟨n3, s3⟩, hg3, ⟨n4, s4⟩, hg4,
      ms, hupd, hb⟩
    subst hb
    intro k
    cases k with
    | biossets => exact contig_updateLast _ hupd (hinv ChildKind.biossets) (fun _ => rfl) (fun _ => (Nat.add_zero _).symm)
    | roms => simpa [tblLen] using contig_updateLast _ hupd (hinv ChildKind.roms) (fun _ => rfl) (fun _ => rfl)
    | disks => exact contig_updateLast _ hupd (hinv ChildKind.disks) (fun _ => rfl) (fun _ => (Nat.add_zero _).symm)
    | features => exact contig_updateLast _ hupd (hinv ChildKind.features) (fun _ => rfl) (fun _ => (Nat.add_zero _).symm)
    | chips => exact contig_updateLast _ hupd (hinv ChildKind.chips) (fun _ => rfl) (fun _ => (Nat.add_zero _).symm)
    | displays => exact contig_updateLast _ hupd (hinv ChildKind.displays) (fun _ => rfl) (fun _ => (Nat.add_zero _).symm)
    | samples => exact contig_updateLast _ hupd (hinv ChildKind.samples) (fun _ => rfl) (fun _ => (Nat.add_zero _).symm)
    | configurations => exact contig_updateLast _ hupd (hinv ChildKind.configurations) (fun _ => rfl) (fun _ => (Nat.add_zero _).symm)
    | softwareLists => exact contig_updateLast _ hupd (hinv ChildKind.softwareLists) (fun _ => rfl) (fun _ => (Nat.add_zero _).symm)
    | ramOptions => exact contig_updateLast _ hupd (hinv ChildKind.ramOptions) (fun _ => rfl) (fun _ => (Nat.add_zero _).symm)
    | devices => exact contig_updateLast _ hupd (hinv ChildKind.devices) (fun _ => rfl) (fun _ => (Nat.add_zero _).symm)
    | slots => exact contig_updateLast _ hupd (hinv ChildKind.slots) (fun _ => rfl) (fun _ => (Nat.add_zero _).symm)
  | diskBegin name sha1 merge region indexAttr writable status optionalAttr =>
    simp only [processEvent, exceptBind_ok, Except.ok.injEq] at h
    rcases h with ⟨⟨n1, s1⟩, hg1, ⟨n2, s2⟩, hg2, ⟨n3, s3⟩, hg3, ms, hupd, hb⟩
    subst hb
    intro k
    cases k with
    | biossets => exact contig_updateLast _ hupd (hinv ChildKind.biossets) (fun _ => rfl) (fun _ => (Nat.add_zero _).symm)
    | roms => exact contig_updateLast _ hupd (hinv ChildKind.roms) (fun _ => rfl) (fun _ => (Nat.add_zero _).symm)
    | disks => simpa [tblLen] using contig_updateLast _ hupd (hinv ChildKind.disks) (fun _ => rfl) (fun _ => rfl)
    | features => exact contig_updateLast _ hupd (hinv ChildKind.features) (fun _ => rfl) (fun _ => (Nat.add_zero _).symm)
    | chips => exact contig_updateLast _ hupd (hinv ChildKind.chips) (fun _ => rfl) (fun _ => (Nat.add_zero _).symm)
    | displays => exact contig_updateLast _ hupd (hinv ChildKind.displays) (fun _ => rfl) (fun _ => (Nat.add_zero _).symm)
    | samples => exact contig_updateLast _ hupd (hinv ChildKind.samples) (fun _ => rfl) (fun _ => (Nat.add_zero _).symm)
    | configurations => exact contig_updateLast _ hupd (hinv ChildKind.configurations) (fun _ => rfl) (fun _ => (Nat.add_zero _).symm)
    | softwareLists => exact contig_updateLast _ hupd (hinv ChildKind.softwareLists) (fun _ => rfl) (fun _ => (Nat.add_zero _).symm)
    | ramOptions => exact contig_updateLast _ hupd (hinv ChildKind.ramOptions) (fun _ => rfl) (fun _ => (Nat.add_zero _).symm)
    | devices => exact contig_updateLast _ hupd (hinv ChildKind.devices) (fun _ => rfl) (fun _ => (Nat.add_zero _).symm)
    | slots => exact contig_updateLast _ hupd (hinv ChildKind.slots) (fun _ => rfl) (fun _ => (Nat.add_zero _).symm)
  | featureBegin ftype status overall =>
    simp only [processEvent, exceptBind_ok, Except.ok.injEq] at h
    rcases h with ⟨ms, hupd, hb⟩
    subst hb
    intro k
    cases k with
    | biossets => exact contig_updateLast _ hupd (hinv ChildKind.biossets) (fun _ => rfl) (fun _ => (Nat.add_zero _).symm)
    | roms => exact contig_updateLast _ hupd (hinv ChildKind.roms) (fun _ => rfl) (fun _ => (Nat.add_zero _).symm)
    | disks => exact contig_updateLast _ hupd (hinv ChildKind.disks) (fun _ => rfl) (fun _ => (Nat.add_zero _).symm)
    | features => simpa [tblLen] using contig_updateLast _ hupd (hinv ChildKind.features) (fun _ => rfl) (fun _ => rfl)
    | chips => exact contig_updateLast _ hupd (hinv ChildKind.chips) (fun _ => rfl) (fun _ => (Nat.add_zero _).symm)
    | displays => exact contig_updateLast _ hupd (hinv ChildKind.displays) (fun _ => rfl) (fun _ => (Nat.add_zero _).symm)
    | samples => exact contig_updateLast _ hupd (hinv ChildKind.samples) (fun _ => rfl) (fun _ => (Nat.add_zero _).symm)
    | configurations => exact contig_updateLast _ hupd (hinv ChildKind.configurations) (fun _ => rfl) (fun _ => (Nat.add_zero _).symm)
    | softwareLists => exact contig_updateLast _ hupd (hinv ChildKind.softwareLists) (fun _ => rfl) (fun _ => (Nat.add_zero _).symm)
    | ramOptions => exact contig_updateLast _ hupd (hinv ChildKind.ramOptions) (fun _ => rfl) (fun _ => (Nat.add_zero _).symm)
    | devices => exact contig_updateLast _ hupd (hinv ChildKind.devices) (fun _ => rfl) (fun _ => (Nat.add_zero _).symm)
    | slots => exact contig_updateLast _ hupd (hinv ChildKind.slots) (fun _ => rfl) (fun _ => (Nat.add_zero _).symm)
  | chipBegin ctype name tag clock =>
    simp only [processEvent, exceptBind_ok, Except.ok.injEq] at h
    rcases h with ⟨⟨n1, s1⟩, hg1, ⟨n2, s2⟩, hg2, ms, hupd, hb⟩
    subst hb
    intro k
    cases k with
    | biossets => exact contig_updateLast _ hupd (hinv ChildKind.biossets) (fun _ => rfl) (fun _ => (Nat.add_zero _).symm)
    | roms => exact contig_updateLast _ hupd (hinv ChildKind.roms) (fun _ => rfl) (fun _ => (Nat.add_zero _).symm)
    | disks => exact contig_updateLast _ hupd (hinv ChildKind.disks) (fun _ => rfl) (fun _ => (Nat.add_zero _).symm)
    | features => exact contig_updateLast _ hupd (hinv ChildKind.features) (fun _ => rfl) (fun _ => (Nat.add_zero _).symm)
    | chips => simpa [tblLen] using contig_updateLast _ hupd (hinv ChildKind.chips) (fun _ => rfl) (fun _ => rfl)
    | displays => exact contig_updateLast _ hupd (hinv ChildKind.displays) (fun _ => rfl) (fun _ => (Nat.add_zero _).symm)
    | samples => exact contig_updateLast _ hupd (hinv ChildKind.samples) (fun _ => rfl) (fun _ => (Nat.add_zero _).symm)
    | configurations => exact contig_updateLast _ hupd (hinv ChildKind.configurations) (fun _ => rfl) (fun _ => (Nat.add_zero _).symm)
    | softwareLists => exact contig_updateLast _ hupd (hinv ChildKind.softwareLists) (fun _ => rfl) (fun _ => (Nat.add_zero _).symm)
    | ramOptions => exact contig_updateLast _ hupd (hinv ChildKind.ramOptions) (fun _ => rfl) (fun _ => (Nat.add_zero _).symm)
    | devices => exact contig_updateLast _ hupd (hinv ChildKind.devices) (fun _ => rfl) (fun _ => (Nat.add_zero _).symm)
    | slots => exact contig_updateLast _ hupd (hinv ChildKind.slots) (fun _ => rfl) (fun _ => (Nat.add_zero _).symm)
  | displayBegin tag width height refresh pixclock htotal hbend hbstart vtotal vbend vbstart dtype rotate flipx =>
    simp only [processEvent, exceptBind_ok, Except.ok.injEq] at h
    rcases h with ⟨⟨n1, s1⟩, hg1, ms, hupd, hb⟩
    subst hb
    intro k
    cases k with
    | biossets => exact contig_updateLast _ hupd (hinv ChildKind.biossets) (fun _ => rfl) (fun _ => (Nat.add_zero _).symm)
    | roms => exact contig_updateLast _ hupd (hinv ChildKind.roms) (fun _ => rfl) (fun _ => (Nat.add_zero _).symm)
    | disks => exact contig_updateLast _ hupd (hinv ChildKind.disks) (fun _ => rfl) (fun _ => (Nat.add_zero _).symm)
    | features => exact contig_updateLast _ hupd (hinv ChildKind.features) (fun _ => rfl) (fun _ => (Nat.add_zero _).symm)
    | chips => exact contig_updateLast _ hupd (hinv ChildKind.chips) (fun _ => rfl) (fun _ => (Nat.add_zero _).symm)
    | displays => simpa [tblLen] using contig_updateLast _ hupd (hinv ChildKind.displays) (fun _ => rfl) (fun _ => rfl)
    | samples => exact contig_updateLast _ hupd (hinv ChildKind.samples) (fun _ => rfl) (fun _ => (Nat.add_zero _).symm)
    | configurations => exact contig_updateLast _ hupd (hinv ChildKind.configurations) (fun _ => rfl) (fun _ => (Nat.add_zero _).symm)
    | softwareLists => exact contig_updateLast _ hupd (hinv ChildKind.softwareLists) (fun _ => rfl) (fun _ => (Nat.add_zero _).symm)
    | ramOptions => exact contig_updateLast _ hupd (hinv ChildKind.ramOptions) (fun _ => rfl) (fun _ => (Nat.add_zero _).symm)
    | devices => exact contig_updateLast _ hupd (hinv ChildKind.devices) (fun _ => rfl) (fun _ => (Nat.add_zero _).symm)
    | slots => exact contig_updateLast _ hupd (hinv ChildKind.slots) (fun _ => rfl) (fun _ => (Nat.add_zero _).symm)
  | sampleBegin name =>
    simp only [processEvent, exceptBind_ok, Except.ok.injEq] at h
    rcases h with ⟨⟨n1, s1⟩, hg1, ms, hupd, hb⟩
    subst hb
    intro k
    cases k with
    | biossets => exact contig_updateLast _ hupd (hinv ChildKind.biossets) (fun _ => rfl) (fun _ => (Nat.add_zero _).symm)
    | roms => exact contig_updateLast _ hupd (hinv ChildKind.roms) (fun _ => rfl) (fun _ => (Nat.add_zero _).symm)
    | disks => exact contig_updateLast _ hupd (hinv ChildKind.disks) (fun _ => rfl) (fun _ => (Nat.add_zero _).symm)
    | features => exact contig_updateLast _ hupd (hinv ChildKind.features) (fun _ => rfl) (fun _ => (Nat.add_zero _).symm)
    | chips => exact contig_updateLast _ hupd (hinv ChildKind.chips) (fun _ => rfl) (fun _ => (Nat.add_zero _).symm)
    | displays => exact contig_updateLast _ hupd (hinv ChildKind.displays) (fun _ => rfl) (fun _ => (Nat.add_zero _).symm)
    | samples => simpa [tblLen] using contig_updateLast _ hupd (hinv ChildKind.samples) (fun _ => rfl) (fun _ => rfl)
    | configurations => exact contig_updateLast _ hupd (hinv ChildKind.configurations) (fun _ => rfl) (fun _ => (Nat.add_zero _).symm)
    | softwareLists => exact contig_updateLast _ hupd (hinv ChildKind.softwareLists) (fun _ => rfl) (fun _ => (Nat.add_zero _).symm)
    | ramOptions => exact contig_updateLast _ hupd (hinv ChildKind.ramOptions) (fun _ => rfl) (fun _ => (Nat.add_zero _).symm)
    | devices => exact contig_updateLast _ hupd (hinv ChildKind.devices) (fun _ => rfl) (fun _ => (Nat.add_zero _).symm)
    | slots => exact contig_updateLast _ hupd (hinv ChildKind.slots) (fun _ => rfl) (fun _ => (Nat.add_zero _).symm)
  | configurationBegin name tag mask =>
    simp only [processEvent, exceptBind_ok, Except.ok.injEq] at h
    rcases h with ⟨⟨n1, s1⟩, hg1, ⟨n2, s2⟩, hg2, r1, hr1, ms, hupd, hb⟩
    subst hb
    intro k
    cases k with
    | biossets => exact contig_updateLast _ hupd (hinv ChildKind.biossets) (fun _ => rfl) (fun _ => (Nat.add_zero _).symm)
    | roms => exact contig_updateLast _ hupd (hinv ChildKind.roms) (fun _ => rfl) (fun _ => (Nat.add_zero _).symm)
    | disks => exact contig_updateLast _ hupd (hinv ChildKind.disks) (fun _ => rfl) (fun _ => (Nat.add_zero _).symm)
    | features => exact contig_updateLast _ hupd (hinv ChildKind.features) (fun _ => rfl) (fun _ => (Nat.add_zero _).symm)
    | chips => exact contig_updateLast _ hupd (hinv ChildKind.chips) (fun _ => rfl) (fun _ => (Nat.add_zero _).symm)
    | displays => exact contig_updateLast _ hupd (hinv ChildKind.displays) (fun _ => rfl) (fun _ => (Nat.add_zero _).symm)
    | samples => exact contig_updateLast _ hupd (hinv ChildKind.samples) (fun _ => rfl) (fun _ => (Nat.add_zero _).symm)
    | configurations => simpa [tblLen] using contig_updateLast _ hupd (hinv ChildKind.configurations) (fun _ => rfl) (fun _ => rfl)
    | softwareLists => exact contig_updateLast _ hupd (hinv ChildKind.softwareLists) (fun _ => rfl) (fun _ => (Nat.add_zero _).symm)
    | ramOptions => exact contig_updateLast _ hupd (hinv ChildKind.ramOptions) (fun _ => rfl) (fun _ => (Nat.add_zero _).symm)
    | devices => exact contig_updateLast _ hupd (hinv ChildKind.devices) (fun _ => rfl) (fun _ => (Nat.add_zero _).symm)
    | slots => exact contig_updateLast _ hupd (hinv ChildKind.slots) (fun _ => rfl) (fun _ => (Nat.add_zero _).symm)
  | confsettingBegin name value =>
    simp only [processEvent, exceptBind_ok, Except.ok.injEq] at h
    rcases h with ⟨⟨n1, s1⟩, hg1, r1, hr1, cs, hupd, hb⟩
    subst hb
    intro k
    cases k with
    | biossets => exact hinv _
    | roms => exact hinv _
    | disks => exact hinv _
    | features => exact hinv _
    | chips => exact hinv _
    | displays => exact hinv _
    | samples => exact hinv _
    | configurations =>
      show contig _ _ b.machines 0 cs.length
      rw [updateLast_length hupd]
      exact hinv _
    | softwareLists => exact hinv _
    | ramOptions => exact hinv _
    | devices => exact hinv _
    | slots => exact hinv _
  | conditionBegin tag relation mask value =>
    simp only [processEvent, exceptBind_ok, Except.ok.injEq] at h
    rcases h with ⟨⟨n1, s1⟩, hg1, hb⟩
    subst hb
    intro k
    cases k <;> exact hinv _
  | deviceBegin dtype tag iface mandatory =>
    simp only [processEvent, exceptBind_ok, Except.ok.injEq] at h
    rcases h with ⟨⟨n1, s1⟩, hg1, ⟨n2, s2⟩, hg2, ⟨n3, s3⟩, hg3, ms, hupd, hb⟩
    subst hb
    intro k
    cases k with
    | biossets => exact contig_updateLast _ hupd (hinv ChildKind.biossets) (fun _ => rfl) (fun _ => (Nat.add_zero _).symm)
    | roms => exact contig_updateLast _ hupd (hinv ChildKind.roms) (fun _ => rfl) (fun _ => (Nat.add_zero _).symm)
    | disks => exact contig_updateLast _ hupd (hinv ChildKind.disks) (fun _ => rfl) (fun _ => (Nat.add_zero _).symm)
    | features => exact contig_updateLast _ hupd (hinv ChildKind.features) (fun _ => rfl) (fun _ => (Nat.add_zero _).symm)
    | chips => exact contig_updateLast _ hupd (hinv ChildKind.chips) (fun _ => rfl) (fun _ => (Nat.add_zero _).symm)
    | displays => exact contig_updateLast _ hupd (hinv ChildKind.displays) (fun _ => rfl) (fun _ => (Nat.add_zero _).symm)
    | samples => exact contig_updateLast _ hupd (hinv ChildKind.samples) (fun _ => rfl) (fun _ => (Nat.add_zero _).symm)
    | configurations => exact contig_updateLast _ hupd (hinv ChildKind.configurations) (fun _ => rfl) (fun _ => (Nat.add_zero _).symm)
    | softwareLists => exact contig_updateLast _ hupd (hinv ChildKind.softwareLists) (fun _ => rfl) (fun _ => (Nat.add_zero _).symm)
    | ramOptions => exact contig_updateLast _ hupd (hinv ChildKind.ramOptions) (fun _ => rfl) (fun _ => (Nat.add_zero _).symm)
    | devices => simpa [tblLen] using contig_updateLast _ hupd (hinv ChildKind.devices) (fun _ => rfl) (fun _ => rfl)
    | slots => exact contig_updateLast _ hupd (hinv ChildKind.slots) (fun _ => rfl) (fun _ => (Nat.add_zero _).symm)
  | deviceInstanceBegin name =>
    simp only [processEvent, exceptBind_ok, Except.ok.injEq] at h
    rcases h with ⟨⟨n1, s1⟩, hg1, ds, hupd, hb⟩
    subst hb
    intro k
    cases k with
    | biossets => exact hinv _
    | roms => exact hinv _
    | disks => exact hinv _
    | features => exact hinv _
    | chips => exact hinv _
    | displays => exact hinv _
    | samples => exact hinv _
    | configurations => exact hinv _
    | softwareLists => exact hinv _
    | ramOptions => exact hinv _
    | devices =>
      show contig _ _ b.machines 0 ds.length
      rw [updateLast_length hupd]
      exact hinv _
    | slots => exact hinv _
  | deviceExtensionBegin name =>
    cases name with
    | some n =>
      simp only [processEvent, Except.ok.injEq] at h
      subst h
      intro k
      cases k <;> exact hinv _
    | none =>
      simp only [processEvent, Except.ok.injEq] at h
      subst h
      exact hinv
  | deviceEnd =>
    by_cases hce : b.currentDeviceExtensions = []
    · simp only [processEvent, if_pos hce, Except.ok.injEq] at h
      subst h
      exact hinv
    · simp only [processEvent, if_neg hce, exceptBind_ok, Except.ok.injEq] at h
      rcases h with ⟨⟨n1, s1⟩, hg1, ds, hupd, hb⟩
      subst hb
      intro k
      cases k with
      | biossets => exact hinv _
      | roms => exact hinv _
      | disks => exact hinv _
      | features => exact hinv _
      | chips => exact hinv _
      | displays => exact hinv _
      | samples => exact hinv _
      | configurations => exact hinv _
      | softwareLists => exact hinv _
      | ramOptions => exact hinv _
      | devices =>
        show contig _ _ b.machines 0 ds.length
        rw [updateLast_length hupd]
        exact hinv _
      | slots => exact hinv _
  | driverBegin status emulation cocktail savestate unofficial incomplete =>
    simp only [processEvent, exceptBind_ok, Except.ok.injEq] at h
    rcases h with ⟨ms, hupd, hb⟩
    subst hb
    intro k
    cases k with
    | biossets => exact contig_updateLast _ hupd (hinv ChildKind.biossets) (fun _ => rfl) (fun _ => (Nat.add_zero _).symm)
    | roms => exact contig_updateLast _ hupd (hinv ChildKind.roms) (fun _ => rfl) (fun _ => (Nat.add_zero _).symm)
    | disks => exact contig_updateLast _ hupd (hinv ChildKind.disks) (fun _ => rfl) (fun _ => (Nat.add_zero _).symm)
    | features => exact contig_updateLast _ hupd (hinv ChildKind.features) (fun _ => rfl) (fun _ => (Nat.add_zero _).symm)
    | chips => exact contig_updateLast _ hupd (hinv ChildKind.chips) (fun _ => rfl) (fun _ => (Nat.add_zero _).symm)
    | displays => exact contig_updateLast _ hupd (hinv ChildKind.displays) (fun _ => rfl) (fun _ => (Nat.add_zero _).symm)
    | samples => exact contig_updateLast _ hupd (hinv ChildKind.samples) (fun _ => rfl) (fun _ => (Nat.add_zero _).symm)
    | configurations => exact contig_updateLast _ hupd (hinv ChildKind.configurations) (fun _ => rfl) (fun _ => (Nat.add_zero _).symm)
    | softwareLists => exact contig_updateLast _ hupd (hinv ChildKind.softwareLists) (fun _ => rfl) (fun _ => (Nat.add_zero _).symm)
    | ramOptions => exact contig_updateLast _ hupd (hinv ChildKind.ramOptions) (fun _ => rfl) (fun _ => (Nat.add_zero _).symm)
    | devices => exact contig_updateLast _ hupd (hinv ChildKind.devices) (fun _ => rfl) (fun _ => (Nat.add_zero _).symm)
    | slots => exact contig_updateLast _ hupd (hinv ChildKind.slots) (fun _ => rfl) (fun _ => (Nat.add_zero _).symm)
  | slotBegin name =>
    simp only [processEvent, exceptBind_ok, Except.ok.injEq] at h
    rcases h with ⟨⟨n1, s1⟩, hg1, r1, hr1, ms, hupd, hb⟩
    subst hb
    intro k
    cases k with
    | biossets => exact contig_updateLast _ hupd (hinv ChildKind.biossets) (fun _ => rfl) (fun _ => (Nat.add_zero _).symm)
    | roms => exact contig_updateLast _ hupd (hinv ChildKind.roms) (fun _ => rfl) (fun _ => (Nat.add_zero _).symm)
    | disks => exact contig_updateLast _ hupd (hinv ChildKind.disks) (fun _ => rfl) (fun _ => (Nat.add_zero _).symm)
    | features => exact contig_updateLast _ hupd (hinv ChildKind.features) (fun _ => rfl) (fun _ => (Nat.add_zero _).symm)
    | chips => exact contig_updateLast _ hupd (hinv ChildKind.chips) (fun _ => rfl) (fun _ => (Nat.add_zero _).symm)
    | displays => exact contig_updateLast _ hupd (hinv ChildKind.displays) (fun _ => rfl) (fun _ => (Nat.add_zero _).symm)
    | samples => exact contig_updateLast _ hupd (hinv ChildKind.samples) (fun _ => rfl) (fun _ => (Nat.add_zero _).symm)
    | configurations => exact contig_updateLast _ hupd (hinv ChildKind.configurations) (fun _ => rfl) (fun _ => (Nat.add_zero _).symm)
    | softwareLists => exact contig_updateLast _ hupd (hinv ChildKind.softwareLists) (fun _ => rfl) (fun _ => (Nat.add_zero _).symm)
    | ramOptions => exact contig_updateLast _ hupd (hinv ChildKind.ramOptions) (fun _ => rfl) (fun _ => (Nat.add_zero _).symm)
    | devices => exact contig_updateLast _ hupd (hinv ChildKind.devices) (fun _ => rfl) (fun _ => (Nat.add_zero _).symm)
    | slots => simpa [tblLen] using contig_updateLast _ hupd (hinv ChildKind.slots) (fun _ => rfl) (fun _ => rfl)
  | slotoptionBegin name devname dflt =>
    simp only [processEvent, exceptBind_ok, Except.ok.injEq] at h
    rcases h with ⟨⟨n1, s1⟩, hg1, ⟨n2, s2⟩, hg2, ss, hupd, hb⟩
    subst hb
    intro k
    cases k with
    | biossets => exact hinv _
    | roms => exact hinv _
    | disks => exact hinv _
    | features => exact hinv _
    | chips => exact hinv _
    | displays => exact hinv _
    | samples => exact hinv _
    | configurations => exact hinv _
    | softwareLists => exact hinv _
    | ramOptions => exact hinv _
    | devices => exact hinv _
    | slots =>
      show contig _ _ b.machines 0 ss.length
      rw [updateLast_length hupd]
      exact hinv _
  | softwarelistBegin name filter status =>
    simp only [processEvent, exceptBind_ok, Except.ok.injEq] at h
    rcases h with ⟨⟨n1, s1⟩, hg1, ⟨n2, s2⟩, hg2, ms, hupd, hb⟩
    subst hb
    intro k
    cases k with
    | biossets => exact contig_updateLast _ hupd (hinv ChildKind.biossets) (fun _ => rfl) (fun _ => (Nat.add_zero _).symm)
    | roms => exact contig_updateLast _ hupd (hinv ChildKind.roms) (fun _ => rfl) (fun _ => (Nat.add_zero _).symm)
    | disks => exact contig_updateLast _ hupd (hinv ChildKind.disks) (fun _ => rfl) (fun _ => (Nat.add_zero _).symm)
    | features => exact contig_updateLast _ hupd (hinv ChildKind.features) (fun _ => rfl) (fun _ => (Nat.add_zero _).symm)
    | chips => exact contig_updateLast _ hupd (hinv ChildKind.chips) (fun _ => rfl) (fun _ => (Nat.add_zero _).symm)
    | displays => exact contig_updateLast _ hupd (hinv ChildKind.displays) (fun _ => rfl) (fun _ => (Nat.add_zero _).symm)
    | samples => exact contig_updateLast _ hupd (hinv ChildKind.samples) (fun _ => rfl) (fun _ => (Nat.add_zero _).symm)
    | configurations => exact contig_updateLast _ hupd (hinv ChildKind.configurations) (fun _ => rfl) (fun _ => (Nat.add_zero _).symm)
    | softwareLists => simpa [tblLen] using contig_updateLast _ hupd (hinv ChildKind.softwareLists) (fun _ => rfl) (fun _ => rfl)
    | ramOptions => exact contig_updateLast _ hupd (hinv ChildKind.ramOptions) (fun _ => rfl) (fun _ => (Nat.add_zero _).symm)
    | devices => exact contig_updateLast _ hupd (hinv ChildKind.devices) (fun _ => rfl) (fun _ => (Nat.add_zero _).symm)
    | slots => exact contig_updateLast _ hupd (hinv ChildKind.slots) (fun _ => rfl) (fun _ => (Nat.add_zero _).symm)
  | ramoptionBegin name dflt =>
    simp only [processEvent, exceptBind_ok, Except.ok.injEq] at h
    rcases h with ⟨⟨n1, s1⟩, hg1, ms, hupd, hb⟩
    subst hb
    intro k
    cases k with
    | biossets => exact contig_updateLast _ hupd (hinv ChildKind.biossets) (fun _ => rfl) (fun _ => (Nat.add_zero _).symm)
    | roms => exact contig_updateLast _ hupd (hinv ChildKind.roms) (fun _ => rfl) (fun _ => (Nat.add_zero _).symm)
    | disks => exact contig_updateLast _ hupd (hinv ChildKind.disks) (fun _ => rfl) (fun _ => (Nat.add_zero _).symm)
    | features => exact contig_updateLast _ hupd (hinv ChildKind.features) (fun _ => rfl) (fun _ => (Nat.add_zero _).symm)
    | chips => exact contig_updateLast _ hupd (hinv ChildKind.chips) (fun _ => rfl) (fun _ => (Nat.add_zero _).symm)
    | displays => exact contig_updateLast _ hupd (hinv ChildKind.displays) (fun _ => rfl) (fun _ => (Nat.add_zero _).symm)
    | samples => exact contig_updateLast _ hupd (hinv ChildKind.samples) (fun _ => rfl) (fun _ => (Nat.add_zero _).symm)
    | configurations => exact contig_updateLast _ hupd (hinv ChildKind.configurations) (fun _ => rfl) (fun _ => (Nat.add_zero _).symm)
    | softwareLists => exact contig_updateLast _ hupd (hinv ChildKind.softwareLists) (fun _ => rfl) (fun _ => (Nat.add_zero _).symm)
    | ramOptions => simpa [tblLen] using contig_updateLast _ hupd (hinv ChildKind.ramOptions) (fun _ => rfl) (fun _ => rfl)
    | devices => exact contig_updateLast _ hupd (hinv ChildKind.devices) (fun _ => rfl) (fun _ => (Nat.add_zero _).symm)
    | slots => exact contig_updateLast _ hupd (hinv ChildKind.slots) (fun _ => rfl) (fun _ => (Nat.add_zero _).symm)
  | ramoptionEnd content =>
    simp only [processEvent, exceptBind_ok, Except.ok.injEq] at h
    rcases h with ⟨rs, hupd, hb⟩
    subst hb
    intro k
    cases k with
    | biossets => exact hinv _
    | roms => exact hinv _
    | disks => exact hinv _
    | features => exact hinv _
    | chips => exact hinv _
    | displays => exact hinv _
    | samples => exact hinv _
    | configurations => exact hinv _
    | softwareLists => exact hinv _
    | ramOptions =>
      show contig _ _ b.machines 0 rs.length
      rw [updateLast_length hupd]
      exact hinv _
    | devices => exact hinv _
    | slots => exact hinv _
  | soundBegin channels =>
    simp only [processEvent, exceptBind_ok, Except.ok.injEq] at h
    rcases h with ⟨ms, hupd, hb⟩
    subst hb
    intro k
    cases k with
    | biossets => exact contig_updateLast _ hupd (hinv ChildKind.biossets) (fun _ => rfl) (fun _ => (Nat.add_zero _).symm)
    | roms => exact contig_updateLast _ hupd (hinv ChildKind.roms) (fun _ => rfl) (fun _ => (Nat.add_zero _).symm)
    | disks => exact contig_updateLast _ hupd (hinv ChildKind.disks) (fun _ => rfl) (fun _ => (Nat.add_zero _).symm)
    | features => exact contig_updateLast _ hupd (hinv ChildKind.features) (fun _ => rfl) (fun _ => (Nat.add_zero _).symm)
    | chips => exact contig_updateLast _ hupd (hinv ChildKind.chips) (fun _ => rfl) (fun _ => (Nat.add_zero _).symm)
    | displays => exact contig_updateLast _ hupd (hinv ChildKind.displays) (fun _ => rfl) (fun _ => (Nat.add_zero _).symm)
    | samples => exact contig_updateLast _ hupd (hinv ChildKind.samples) (fun _ => rfl) (fun _ => (Nat.add_zero _).symm)
    | configurations => exact contig_updateLast _ hupd (hinv ChildKind.configurations) (fun _ => rfl) (fun _ => (Nat.add_zero _).symm)
    | softwareLists => exact contig_updateLast _ hupd (hinv ChildKind.softwareLists) (fun _ => rfl) (fun _ => (Nat.add_zero _).symm)
    | ramOptions => exact contig_updateLast _ hupd (hinv ChildKind.ramOptions) (fun _ => rfl) (fun _ => (Nat.add_zero _).symm)
    | devices => exact contig_updateLast _ hupd (hinv ChildKind.devices) (fun _ => rfl) (fun _ => (Nat.add_zero _).symm)
    | slots => exact contig_updateLast _ hupd (hinv ChildKind.slots) (fun _ => rfl) (fun _ => (Nat.add_zero _).symm)

theorem processEvents_childInv {b b' : Builder} {events : List XmlEvent}
    (h : processEvents b events = .ok b') (hinv : BuilderChildInv b) :
    BuilderChildInv b' := by
  induction events generalizing b with
  | nil =>
    simp only [processEvents, Except.ok.injEq] at h
    subst h
    exact hinv
  | cons e rest ih =>
    simp only [processEvents, exceptBind_ok] at h
    rcases h with ⟨bmid, hstep, hrest⟩
    exact ih hrest (processEvent_childInv hstep hinv)

theorem insertSorted_perm {α : Type _} (lt : α → α → Bool) (x : α) :
    ∀ l : List α, (insertSorted lt x l).Perm (x :: l)
  | [] => List.Perm.refl _
  | y :: ys => by
    unfold insertSorted
    by_cases hc : lt y x = true
    · rw [if_pos hc]
      exact ((insertSorted_perm lt x ys).cons y).trans (List.Perm.swap x y ys)
    · rw [if_neg hc]

theorem sortByLt_perm {α : Type _} (lt : α → α → Bool) :
    ∀ l : List α, (sortByLt lt l).Perm l
  | [] => List.Perm.refl _
  | x :: xs => by
    unfold sortByLt
    exact (insertSorted_perm lt x (sortByLt lt xs)).trans
      ((sortByLt_perm lt xs).cons x)

/-- Decomposition of a successful finalization: the machine table is the
name-sorted machine list with the cross-reference fix-up mapped over it, and
every child table is carried over unchanged. -/
theorem finalizeBuilder_shape {bc : Builder} {db : Database}
    (h : finalizeBuilder bc = .ok db) :
    ∃ p : Nat × StringTable,
      (bc.strings.embedValue magicStringtableEnd).get [] = .ok p ∧
      db.machines = (sortByLt
          (machineNameLt (bc.strings.embedValue magicStringtableEnd))
          bc.machines).map
        (fixupMachine (buildMachineIndexMap p.1 (sortByLt
          (machineNameLt (bc.strings.embedValue magicStringtableEnd))
          bc.machines))) ∧
      db.strings = p.2 ∧
      db.biossets = bc.biossets ∧ db.roms = bc.roms ∧ db.disks = bc.disks ∧
      db.devices = bc.devices ∧ db.slots = bc.slots ∧
      db.slot_options = bc.slot_options ∧ db.features = bc.features ∧
      db.chips = bc.chips ∧ db.displays = bc.displays ∧
      db.samples = bc.samples ∧ db.configurations = bc.configurations ∧
      db.configuration_settings = bc.configuration_settings ∧
      db.configuration_conditions = bc.configuration_conditions ∧
      db.software_lists = bc.software_lists ∧
      db.ram_options = bc.ram_options := by
  simp only [finalizeBuilder, exceptBind_ok, Except.ok.injEq] at h
  rcases h with ⟨c1, hc1, c2, hc2, c3, hc3, c4, hc4, c5, hc5, c6, hc6, c7, hc7,
    c8, hc8, c9, hc9, c10, hc10, c11, hc11, c12, hc12, c13, hc13, c14, hc14,
    c15, hc15, c16, hc16, ⟨emptyRef, st2⟩, hget, hdb⟩
  subst hdb
  exact ⟨(emptyRef, st2), hget, rfl, rfl, rfl, rfl, rfl, rfl, rfl, rfl, rfl,
    rfl, rfl, rfl, rfl, rfl, rfl, rfl, rfl⟩

/-- The ranges of two machines in the same child table do not overlap. -/
def rangesDisjoint (k : ChildKind) (a c : BinMachine) : Prop :=
  idxF k a + cntF k a ≤ idxF k c ∨ idxF k c + cntF k c ≤ idxF k a

/-- C1: for every machine record of a successful `process_xml` and every
machine-level child table, the children parsed while that machine was the
current (last-appended) machine occupy exactly `[index, index + count)` of
that table: in the pre-sort builder the ranges tile each child table
consecutively in machine order (the `contig` clause), and in the finished
database every machine's range lies inside the table, the counts sum to the
whole table, and the ranges of distinct machines are pairwise disjoint. -/
theorem claim_C1_contiguous_child_ranges (events : List XmlEvent) (db : Database)
    (h : processXml events = .ok db) :
    (∀ bc, processEvents Builder.init events = .ok bc →
      ∀ k : ChildKind, contig (idxF k) (cntF k) bc.machines 0 (tblLen k bc)) ∧
    ∀ k : ChildKind,
      (db.machines.map (cntF k)).sum = dbTblLen k db ∧
      (∀ m ∈ db.machines, idxF k m + cntF k m ≤ dbTblLen k db) ∧
      db.machines.Pairwise (rangesDisjoint k) := by
  have hinvAll : ∀ bc, processEvents Builder.init events = .ok bc →
      BuilderChildInv bc :=
    fun bc hbc => processEvents_childInv hbc builderInit_childInv
  refine ⟨fun bc hbc k => hinvAll bc hbc k, ?_⟩
  simp only [processXml, exceptBind_ok] at h
  rcases h with ⟨bc, hbc, hfin⟩
  obtain ⟨p, hget, hmach, hstr, e1, e2, e3, e4, e5, e6, e7, e8, e9, e10, e11,
    e12, e13, e14, e15⟩ := finalizeBuilder_shape hfin
  have hinv := hinvAll bc hbc
  intro k
  have hc := hinv k
  have hperm := sortByLt_perm
    (machineNameLt (bc.strings.embedValue magicStringtableEnd)) bc.machines
  have hcnt_g : ∀ m, cntF k (fixupMachine (buildMachineIndexMap p.1 (sortByLt
      (machineNameLt (bc.strings.embedValue magicStringtableEnd))
      bc.machines)) m) = cntF k m := by
    intro m
    cases k <;> rfl
  have hidx_g : ∀ m, idxF k (fixupMachine (buildMachineIndexMap p.1 (sortByLt
      (machineNameLt (bc.strings.embedValue magicStringtableEnd))
      bc.machines)) m) = idxF k m := by
    intro m
    cases k <;> rfl
  have hlen : dbTblLen k db = tblLen k bc := by
    cases k <;> simp [dbTblLen, tblLen, e1, e2, e3, e4, e5, e6, e7, e8, e9,
      e10, e11, e12, e13, e14, e15]
  refine ⟨?_, ?_, ?_⟩
  · rw [hmach, hlen, List.map_map]
    have hfun : (sortByLt (machineNameLt
        (bc.strings.embedValue magicStringtableEnd)) bc.machines).map
          (cntF k ∘ fixupMachine (buildMachineIndexMap p.1 (sortByLt
            (machineNameLt (bc.strings.embedValue magicStringtableEnd))
            bc.machines))) =
        (sortByLt (machineNameLt
          (bc.strings.embedValue magicStringtableEnd)) bc.machines).map
          (cntF k) :=
      List.map_congr_left (fun m _ => hcnt_g m)
    rw [hfun, List.Perm.sum_eq (hperm.map (cntF k))]
    have := contig_sum hc
    omega
  · intro m hm
    rw [hmach] at hm
    obtain ⟨m0, hm0, hfix⟩ := List.mem_map.mp hm
    have hm0' : m0 ∈ bc.machines := hperm.mem_iff.mp hm0
    have := contig_bounds hc m0 hm0'
    rw [← hfix, hcnt_g m0, hidx_g m0, hlen]
    omega
  · rw [hmach]
    rw [List.pairwise_map]
    have hpw : bc.machines.Pairwise (rangesDisjoint k) :=
      (contig_pairwise hc).imp (fun hab => Or.inl hab)
    have hsymm : Symmetric (rangesDisjoint k) := by
      intro a c hac
      rcases hac with h1 | h2
      · exact Or.inr h1
      · exact Or.inl h2
    have hpw2 := (hperm.pairwise_iff (fun hxy => hsymm hxy)).mpr hpw
    refine hpw2.imp ?_
    intro a c hac
    unfold rangesDisjoint at hac ⊢
    rw [hcnt_g a, hcnt_g c, hidx_g a, hidx_g c]
    exact hac

/-- Concrete document for the C1 and C3 witnesses: two machines declared in
reverse name order, the first a clone of the second, with one rom and one
biosset child. -/
def c1wEvents : List XmlEvent :=
  [ .mameBegin (some (asciiOf ['0', '.', '2'])),
    .machineBegin (some (asciiOf ['b', 'b', 'b', 'b'])) none
      (some (asciiOf ['a', 'a', 'a', 'a'])) none none none none none,
    .romBegin (some (asciiOf ['r', '1', 'x', 'y'])) none
      (some (asciiOf ['1', '2'])) (some (asciiOf ['a', 'b'])) none none none
      none none none,
    .machineBegin (some (asciiOf ['a', 'a', 'a', 'a'])) none none none none
      none none none,
    .biossetBegin (some (asciiOf ['b', 'i', 'o', 's', '1'])) none none ]

/-- The database `processXml` builds from `c1wEvents`. -/
def c1wDb : Database :=
  { header := { m_build_strindex := 4281347634,
                m_machines_count := 2,
                m_biossets_count := 1,
                m_roms_count := 1,
                m_disks_count := 0,
                m_devices_count := 0,
                m_slots_count := 0,
                m_slot_options_count := 0,
                m_features_count := 0,
                m_chips_count := 0,
                m_displays_count := 0,
                m_samples_count := 0,
                m_configurations_count := 0,
                m_configuration_settings_count := 0,
                m_configuration_conditions_count := 0,
                m_software_lists_count := 0,
                m_ram_options_count := 0 },
    machines := [{ m_runnable := 1,
                   m_name_strindex := 9,
                   m_sourcefile_strindex := 4278190080,
                   m_clone_of_machindex := 4294967295,
                   m_rom_of_machindex := 4294967295,
                   m_is_bios := 255,
                   m_is_device := 255,
                   m_is_mechanical := 255,
                   m_biossets_index := 0,
                   m_biossets_count := 1,
                   m_roms_index := 1,
                   m_roms_count := 0,
                   m_disks_index := 0,
                   m_disks_count := 0,
                   m_features_index := 0,
                   m_features_count := 0,
                   m_chips_index := 0,
                   m_chips_count := 0,
                   m_displays_index := 0,
                   m_displays_count := 0,
                   m_samples_index := 0,
                   m_samples_count := 0,
                   m_configurations_index := 0,
                   m_configurations_count := 0,
                   m_software_lists_index := 0,
                   m_software_lists_count := 0,
                   m_ram_options_index := 0,
                   m_ram_options_count := 0,
                   m_devices_index := 0,
                   m_devices_count := 0,
                   m_slots_index := 0,
                   m_slots_count := 0,
                   m_description_strindex := 0,
                   m_year_strindex := 0,
                   m_manufacturer_strindex := 0,
                   m_quality_status := 0,
                   m_quality_emulation := 0,
                   m_quality_cocktail := 0,
                   m_save_state_supported := 255,
                   m_unofficial := 255,
                   m_incomplete := 255,
                   m_sound_channels := 255 },
                 { m_runnable := 1,
                   m_name_strindex := 4,
                   m_sourcefile_strindex := 4278190080,
                   m_clone_of_machindex := 0,
                   m_rom_of_machindex := 4294967295,
                   m_is_bios := 255,
                   m_is_device := 255,
                   m_is_mechanical := 255,
                   m_biossets_index := 0,
                   m_biossets_count := 0,
                   m_roms_index := 0,
                   m_roms_count := 1,
                   m_disks_index := 0,
                   m_disks_count := 0,
                   m_features_index := 0,
                   m_features_count := 0,
                   m_chips_index := 0,
                   m_chips_count := 0,
                   m_displays_index := 0,
                   m_displays_count := 0,
                   m_samples_index := 0,
                   m_samples_count := 0,
                   m_configurations_index := 0,
                   m_configurations_count := 0,
                   m_software_lists_index := 0,
                   m_software_lists_count := 0,
                   m_ram_options_index := 0,
                   m_ram_options_count := 0,
                   m_devices_index := 0,
                   m_devices_count := 0,
                   m_slots_index := 0,
                   m_slots_count := 0,
                   m_description_strindex := 0,
                   m_year_strindex := 0,
                   m_manufacturer_strindex := 0,
                   m_quality_status := 0,
                   m_quality_emulation := 0,
                   m_quality_cocktail := 0,
                   m_save_state_supported := 255,
                   m_unofficial := 255,
                   m_incomplete := 255,
                   m_sound_channels := 255 }],
    biossets := [{ m_name_strindex := 19, m_description_strindex := 4278190080, m_default := 0 }],
    roms := [{ m_name_strindex := 14,
               m_bios_strindex := 4278190080,
               m_size := 12,
               m_crc := [171, 0, 0, 0],
               m_sha1 := [0, 0, 0, 0, 0, 0, 0, 0, 0, 0, 0, 0, 0, 0, 0, 0, 0, 0, 0, 0],
               m_merge_strindex := 4278190080,
               m_region_strindex := 4278190080,
               m_offset := 0,
               m_status := 0,
               m_optional := 0 }],
    disks := [],
    devices := [],
    slots := [],
    slot_options := [],
    features := [],
    chips := [],
    displays := [],
    samples := [],
    configurations := [],
    configuration_settings := [],
    configuration_conditions := [],
    software_lists := [],
    ram_options := [],
    strings := { data := [157, 155, 28, 245, 98, 98, 98, 98, 0, 97, 97, 97, 97, 0, 114, 49, 120, 121, 0, 98, 105, 111,
                          115, 49, 0, 109, 66, 248, 106],
                 map := [([98, 98, 98, 98], 4),
                         ([97, 97, 97, 97], 9),
                         ([114, 49, 120, 121], 14),
                         ([98, 105, 111, 115, 49], 19)] } }

theorem claim_C1_witness :
    (c1wDb.machines.map (cntF ChildKind.roms)).sum =
        dbTblLen ChildKind.roms c1wDb ∧
    (∀ m ∈ c1wDb.machines,
      idxF ChildKind.roms m + cntF ChildKind.roms m ≤
        dbTblLen ChildKind.roms c1wDb) ∧
    c1wDb.machines.Pairwise (rangesDisjoint ChildKind.roms) :=
  (claim_C1_contiguous_child_ranges c1wEvents c1wDb (by decide)).2 ChildKind.roms

/-! ## Claim C3: sort and binary-search lookup -/

theorem bytesLt_irrefl : ∀ a : ByteStr, bytesLt a a = false
  | [] => rfl
  | x :: xs => by
    unfold bytesLt
    simp [bytesLt_irrefl xs]

theorem bytesLt_asymm : ∀ a b : ByteStr, bytesLt a b = true → bytesLt b a = false
  | [], [] => by simp [bytesLt]
  | [], _ :: _ => fun _ => rfl
  | _ :: _, [] => by simp [bytesLt]
  | x :: xs, y :: ys => by
    intro h
    unfold bytesLt at h ⊢
    rcases lt_trichotomy x y with h1 | h1 | h1
    · rw [if_neg (by omega), if_pos h1]
    · subst h1
      rw [if_neg (by omega), if_neg (by omega)] at h ⊢
      exact bytesLt_asymm xs ys h
    · rw [if_neg (by omega), if_pos h1] at h
      exact absurd h (by simp)

theorem bytesLt_antisymm : ∀ a b : ByteStr,
    bytesLt a b = false → bytesLt b a = false → a = b
  | [], [] => fun _ _ => rfl
  | [], y :: ys => by
    intro h1 _h2
    simp [bytesLt] at h1
  | x :: xs, [] => by
    intro _h1 h2
    simp [bytesLt] at h2
  | x :: xs, y :: ys => by
    intro h1 h2
    unfold bytesLt at h1 h2
    rcases lt_trichotomy x y with hc | hc | hc
    · rw [if_pos hc] at h1
      exact absurd h1 (by simp)
    · subst hc
      rw [if_neg (by omega), if_neg (by omega)] at h1 h2
      rw [bytesLt_antisymm xs ys h1 h2]
    · rw [if_pos hc] at h2
      exact absurd h2 (by simp)

theorem bytesLt_nlt_trans : ∀ a b c : ByteStr,
    bytesLt a b = false → bytesLt b c = false → bytesLt a c = false
  | [], [], c => fun _ h2 => h2
  | [], y :: ys, c => by
    intro h1 _h2
    simp [bytesLt] at h1
  | x :: xs, b, [] => fun _ _ => by simp [bytesLt]
  | x :: xs, [], z :: zs => by
    intro _h1 h2
    simp [bytesLt] at h2
  | x :: xs, y :: ys, z :: zs => by
    intro h1 h2
    unfold bytesLt at h1 h2 ⊢
    rcases lt_trichotomy x y with hxy | hxy | hxy
    · rw [if_pos hxy] at h1
      exact absurd h1 (by simp)
    · subst hxy
      rcases lt_trichotomy x z with hxz | hxz | hxz
      · rw [if_pos hxz] at h2
        exact absurd h2 (by simp)
      · subst hxz
        rw [if_neg (by omega), if_neg (by omega)] at h1 h2 ⊢
        exact bytesLt_nlt_trans xs ys zs h1 h2
      · rw [if_neg (by omega), if_pos hxz]
    · rcases lt_trichotomy y z with hyz | hyz | hyz
      · rw [if_pos hyz] at h2
        exact absurd h2 (by simp)
      · subst hyz
        rw [if_neg (by omega), if_pos hxy]
      · rw [if_neg (by omega), if_pos (by omega)]

theorem bytesLt_lt_of_nlt_of_lt {a b c : ByteStr}
    (h1 : bytesLt a b = false) (h2 : bytesLt a c = true) :
    bytesLt b c = true := by
  by_contra hbc
  have hbc' : bytesLt b c = false := by
    cases hb : bytesLt b c
    · rfl
    · exact absurd hb hbc
  have := bytesLt_nlt_trans a b c h1 hbc'
  rw [h2] at this
  exact absurd this (by simp)

theorem bytesLt_lt_of_lt_of_nlt {a b c : ByteStr}
    (h1 : bytesLt a b = true) (h2 : bytesLt c b = false) :
    bytesLt a c = true := by
  by_contra hac
  have hac' : bytesLt a c = false := by
    cases hx : bytesLt a c
    · rfl
    · exact absurd hx hac
  have := bytesLt_nlt_trans a c b hac' h2
  rw [h1] at this
  exact absurd this (by simp)

theorem insertSorted_pairwise {α : Type _} (key : α → ByteStr) (x : α) :
    ∀ l : List α,
    l.Pairwise (fun a c => bytesLt (key c) (key a) = false) →
    (insertSorted (fun a c => bytesLt (key a) (key c)) x l).Pairwise
      (fun a c => bytesLt (key c) (key a) = false)
  | [], _ => by simp [insertSorted]
  | y :: ys, hl => by
    rw [List.pairwise_cons] at hl
    obtain ⟨hy, hys⟩ := hl
    unfold insertSorted
    by_cases hc : bytesLt (key y) (key x) = true
    · rw [if_pos hc]
      rw [List.pairwise_cons]
      constructor
      · intro z hz
        rcases List.mem_cons.mp ((insertSorted_perm _ x ys).mem_iff.mp hz) with he | hm
        · subst he
          exact bytesLt_asymm _ _ hc
        · exact hy z hm
      · exact insertSorted_pairwise key x ys hys
    · rw [if_neg hc]
      rw [List.pairwise_cons]
      constructor
      · intro z hz
        rcases List.mem_cons.mp hz with he | hm
        · subst he
          simpa using hc
        · exact bytesLt_nlt_trans _ _ _ (hy z hm) (by simpa using hc)
      · rw [List.pairwise_cons]
        exact ⟨hy, hys⟩

theorem sortByLt_pairwise {α : Type _} (key : α → ByteStr) :
    ∀ l : List α,
    (sortByLt (fun a c => bytesLt (key a) (key c)) l).Pairwise
      (fun a c => bytesLt (key c) (key a) = false)
  | [] => by simp [sortByLt]
  | x :: xs => by
    unfold sortByLt
    exact insertSorted_pairwise key x _ (sortByLt_pairwise key xs)

def binSearchGo (names : List ByteStr) (target : ByteStr) (lo hi : Nat) :
    Option Nat :=
  if h : lo < hi then
    let mid := (lo + hi) / 2
    let name := names.getD mid []
    if bytesLt name target then binSearchGo names target (mid + 1) hi
    else if bytesLt target name then binSearchGo names target lo mid
    else some mid
  else none
termination_by hi - lo
decreasing_by
  · omega
  · omega

theorem binSearchGo_correct (names : List ByteStr) (target : ByteStr)
    (hsort : names.Pairwise (fun a c => bytesLt c a = false)) :
    ∀ n lo hi, hi - lo = n → hi ≤ names.length →
    (∀ j, j < names.length → names.getD j [] = target → lo ≤ j ∧ j < hi) →
    (match binSearchGo names target lo hi with
     | some i => i < names.length ∧ names.getD i [] = target
     | none => ∀ j, j < names.length → names.getD j [] ≠ target) := by
  intro n
  induction n using Nat.strong_induction_on with
  | _ n ih =>
    intro lo hi hn hhi hcand
    rw [binSearchGo]
    by_cases hlt : lo < hi
    · rw [dif_pos hlt]
      simp only
      set mid := (lo + hi) / 2 with hmid
      have hmlo : lo ≤ mid := by omega
      have hmhi : mid < hi := by omega
      have hmlen : mid < names.length := by omega
      by_cases h1 : bytesLt (names.getD mid []) target = true
      · rw [if_pos h1]
        have hcand' : ∀ j, j < names.length → names.getD j [] = target →
            mid + 1 ≤ j ∧ j < hi := by
          intro j hj hjt
          have hold := hcand j hj hjt
          rcases Nat.lt_trichotomy j mid with hc | hc | hc
          · exfalso
            have hR : bytesLt (names.getD mid []) (names.getD j []) = false := by
              rw [List.getD_eq_getElem names [] hmlen, List.getD_eq_getElem names [] hj]
              exact List.pairwise_iff_getElem.mp hsort j mid hj hmlen hc
            have := bytesLt_lt_of_nlt_of_lt hR h1
            rw [hjt] at this
            rw [bytesLt_irrefl] at this
            exact absurd this (by simp)
          · exfalso
            rw [hc] at hjt
            rw [hjt] at h1
            rw [bytesLt_irrefl] at h1
            exact absurd h1 (by simp)
          · exact ⟨by omega, hold.2⟩
        exact ih (hi - (mid + 1)) (by omega) (mid + 1) hi rfl hhi hcand'
      · rw [if_neg h1]
        by_cases h2 : bytesLt target (names.getD mid []) = true
        · rw [if_pos h2]
          have hcand' : ∀ j, j < names.length → names.getD j [] = target →
              lo ≤ j ∧ j < mid := by
            intro j hj hjt
            have hold := hcand j hj hjt
            rcases Nat.lt_trichotomy j mid with hc | hc | hc
            · exact ⟨hold.1, hc⟩
            · exfalso
              rw [hc] at hjt
              rw [hjt] at h2
              rw [bytesLt_irrefl] at h2
              exact absurd h2 (by simp)
            · exfalso
              have hR : bytesLt (names.getD j []) (names.getD mid []) = false := by
                rw [List.getD_eq_getElem names [] hmlen, List.getD_eq_getElem names [] hj]
                exact List.pairwise_iff_getElem.mp hsort mid j hmlen hj hc
              have := bytesLt_lt_of_lt_of_nlt h2 hR
              rw [hjt] at this
              rw [bytesLt_irrefl] at this
              exact absurd this (by simp)
          exact ih (mid - lo) (by omega) lo mid rfl (by omega) hcand'
        · rw [if_neg h2]
          refine ⟨hmlen, ?_⟩
          exact bytesLt_antisymm _ _ (by simpa using h1) (by simpa using h2)
    · rw [dif_neg hlt]
      intro j hj hjt
      have := hcand j hj hjt
      omega

/-- The looked-up machine names of the finished database, in table order. -/
def dbMachineNames (db : Database) : List ByteStr :=
  db.machines.map (fun m => db.strings.lookupRef m.m_name_strindex)

/-- Modelled from the spec: the loader's binary-search lookup by machine name
(`info.h`/`info.cpp`, not among the sources; §4.3 exposes "the top-level
table additionally as a name-keyed view using binary search, relying on the
build-time sort"). -/
def findMachineIndex (db : Database) (target : ByteStr) : Option Nat :=
  binSearchGo (dbMachineNames db) target 0 (dbMachineNames db).length

theorem get_empty (st : StringTable) : st.get [] = .ok (ssoTag, st) := by
  unfold StringTable.get
  have h : tryEncodeAsSmallString [] = some ssoTag := by decide
  rw [h]


/-- C3: after finalization the machine table is sorted in non-decreasing
byte-wise (`strcmp`) order of the looked-up machine names, a binary-search
lookup that returns an index always returns one whose name matches the query
exactly, and a lookup that returns "not found" means no machine in the table
has the queried name (never a neighbouring record). -/
theorem claim_C3_sorted_and_lookup (events : List XmlEvent) (db : Database)
    (h : processXml events = .ok db) :
    (dbMachineNames db).Pairwise (fun a c => bytesLt c a = false) ∧
    (∀ target i, findMachineIndex db target = some i →
      i < db.machines.length ∧ (dbMachineNames db).getD i [] = target) ∧
    (∀ target, findMachineIndex db target = none →
      ∀ j, j < db.machines.length → (dbMachineNames db).getD j [] ≠ target) := by
  simp only [processXml, exceptBind_ok] at h
  rcases h with ⟨bc, hbc, hfin⟩
  obtain ⟨p, hget, hmach, hstr, _e1, _e2, _e3, _e4, _e5, _e6, _e7, _e8, _e9,
    _e10, _e11, _e12, _e13, _e14, _e15⟩ := finalizeBuilder_shape hfin
  have hp : p = (ssoTag, bc.strings.embedValue magicStringtableEnd) := by
    have h2 := get_empty (bc.strings.embedValue magicStringtableEnd)
    rw [h2] at hget
    exact ((Except.ok.injEq _ _).mp hget).symm
  have hdbstr : db.strings = bc.strings.embedValue magicStringtableEnd := by
    rw [hstr, hp]
  -- abbreviations
  set st := bc.strings.embedValue magicStringtableEnd with hst
  set key : BinMachine → ByteStr := fun m => st.lookupRef m.m_name_strindex with hkey
  have hsorted : (sortByLt (machineNameLt st) bc.machines).Pairwise
      (fun a c => bytesLt (key c) (key a) = false) :=
    sortByLt_pairwise key bc.machines
  have hnames : dbMachineNames db =
      (sortByLt (machineNameLt st) bc.machines).map key := by
    rw [dbMachineNames, hmach, hdbstr, List.map_map]
    exact List.map_congr_left (fun m _ => rfl)
  have hpw : (dbMachineNames db).Pairwise (fun a c => bytesLt c a = false) := by
    rw [hnames, List.pairwise_map]
    exact hsorted
  refine ⟨hpw, ?_, ?_⟩
  · intro target i hfound
    have hc := binSearchGo_correct (dbMachineNames db) target hpw
      ((dbMachineNames db).length - 0) 0 (dbMachineNames db).length rfl
      (le_refl _) (fun j hj hjt => ⟨Nat.zero_le j, hj⟩)
    rw [findMachineIndex] at hfound
    rw [hfound] at hc
    have hlen : (dbMachineNames db).length = db.machines.length := by
      simp [dbMachineNames]
    exact ⟨hlen ▸ hc.1, hc.2⟩
  · intro target hnone j hj
    have hc := binSearchGo_correct (dbMachineNames db) target hpw
      ((dbMachineNames db).length - 0) 0 (dbMachineNames db).length rfl
      (le_refl _) (fun j hj hjt => ⟨Nat.zero_le j, hj⟩)
    rw [findMachineIndex] at hnone
    rw [hnone] at hc
    have hlen : (dbMachineNames db).length = db.machines.length := by
      simp [dbMachineNames]
    exact hc j (hlen ▸ hj)

theorem claim_C3_witness :
    (dbMachineNames c1wDb).Pairwise (fun a c => bytesLt c a = false) ∧
    (∀ target i, findMachineIndex c1wDb target = some i →
      i < c1wDb.machines.length ∧ (dbMachineNames c1wDb).getD i [] = target) ∧
    (∀ target, findMachineIndex c1wDb target = none →
      ∀ j, j < c1wDb.machines.length →
        (dbMachineNames c1wDb).getD j [] ≠ target) :=
  claim_C3_sorted_and_lookup c1wEvents c1wDb (by decide)

/-! ## Claim C8: -listxml task status (listxmltask.cpp lines 53-119) -/

/-- `ListXmlResultEvent::Status`. -/
inductive ListXmlStatus where
  | success | aborted | error
deriving Repr, DecidableEq

/-- `ListXmlTask::list_xml_exception`: the thrown status plus whether a
descriptive message was attached (`ABORTED` is thrown without one). -/
structure ListXmlException where
  status : ListXmlStatus
  hasMessage : Bool
deriving Repr, DecidableEq

/-- Embedding of `ListXmlTask::internalProcess` (listxmltask.cpp lines
89-119), abstracted over the outcomes of its collaborators: whether an abort
was requested (`hasAborted()`), whether `process_xml` succeeded, and whether
the output file could be opened.  The abort check deliberately precedes the
parse-error check. -/
def internalProcessModel (hasAborted parseSuccess fileOpenOk : Bool) :
    Except ListXmlException Unit :=
  if hasAborted then .error ⟨.aborted, false⟩
  else if parseSuccess = false then .error ⟨.error, true⟩
  else if fileOpenOk = false then .error ⟨.error, true⟩
  else .ok ()

/-- Embedding of `ListXmlTask::process` (listxmltask.cpp lines 53-82): the
status and message carried by the posted `ListXmlResultEvent`. -/
def listXmlProcessModel (hasAborted parseSuccess fileOpenOk : Bool) :
    ListXmlStatus × Bool :=
  match internalProcessModel hasAborted parseSuccess fileOpenOk with
  | .ok _ => (.success, false)
  | .error e => (e.status, e.hasMessage)

/-- C8: when the caller has requested an abort, the result event carries the
`ABORTED` status regardless of the parse outcome (the abort condition is
checked before the parse-error condition); only a parse failure without a
pending abort produces the `ERROR` status, and it comes with a descriptive
message. -/
theorem claim_C8_abort_before_error (hasAborted parseSuccess fileOpenOk : Bool) :
    ((listXmlProcessModel hasAborted parseSuccess fileOpenOk).1 =
        ListXmlStatus.aborted ↔ hasAborted = true) ∧
    (hasAborted = false → parseSuccess = false →
      listXmlProcessModel hasAborted parseSuccess fileOpenOk =
        (ListXmlStatus.error, true)) ∧
    (hasAborted = true →
      (listXmlProcessModel hasAborted parseSuccess fileOpenOk).1 ≠
        ListXmlStatus.error) := by
  cases hasAborted <;> cases parseSuccess <;> cases fileOpenOk <;>
    simp [listXmlProcessModel, internalProcessModel]

theorem claim_C8_witness :
    ((listXmlProcessModel true false true).1 = ListXmlStatus.aborted ↔
      true = true) ∧
    (true = false → false = false →
      listXmlProcessModel true false true = (ListXmlStatus.error, true)) ∧
    (true = true →
      (listXmlProcessModel true false true).1 ≠ ListXmlStatus.error) :=
  claim_C8_abort_before_error true false true

/-! ## Claim C10: RunMachineTask::process (runmachinetask.cpp lines 240-312) -/

/-- `MameWorkerController::Response::Type` (the worker controller itself is
not among the sources; only the distinction used at runmachinetask.cpp line
257 matters here). -/
inductive MameResponseType where
  | ok | endOfFile | error
deriving Repr, DecidableEq

/-- The inaugural response received from the child process. -/
structure MameResponse where
  rtype : MameResponseType
  text : ByteStr
deriving Repr, DecidableEq

/-- `RunMachineTask::Message`: what the worker thread receives from its
queue. -/
inductive RunMachineMessage where
  | command (cmd : ByteStr)
  | terminated (status : Nat)
deriving Repr, DecidableEq

/-- Which error message the completion event carries (runmachinetask.cpp
lines 262-267 and 300-308). -/
inductive RunErrorMessage where
  | none
  | fromResponseText (t : ByteStr)
  | scraped
  | fromStderr (t : ByteStr)
  | generic (status : Nat)
deriving Repr, DecidableEq

/-- The `RunMachineCompletedEvent` payload.  `success` is an `Option Bool`:
`none` models the C++ `bool success;` being read without ever having been
assigned on the taken control path. -/
structure RunMachineCompleted where
  success : Option Bool
  errorMessage : RunErrorMessage
deriving Repr, DecidableEq

/-- The worker loop of `RunMachineTask::process` (runmachinetask.cpp lines
270-298): consume queue messages; a command is forwarded and its response
received (neither touches the success flag); a `TERMINATED` message ends the
loop with its status.  `none` means the loop is still blocked on the queue
when the message list runs out. -/
def runMachineLoop : List RunMachineMessage → Option Nat
  | [] => none
  | .command _ :: rest => runMachineLoop rest
  | .terminated s :: _ => some s

/-- Embedding of `RunMachineTask::process` (runmachinetask.cpp lines
240-312).  `bool success;` starts out unassigned (`none`).  On a non-OK
inaugural response it is set to `false` and the best error message is
chosen; on the OK path the worker loop runs to termination and **no
assignment to `success` exists in the source**, so the posted completion
event carries the unassigned flag. -/
def runMachineProcessModel (inaugural : MameResponse)
    (messages : List RunMachineMessage) (stderrBytes : ByteStr) :
    Option RunMachineCompleted :=
  if inaugural.rtype ≠ MameResponseType.ok then
    some { success := some false,
           errorMessage :=
             if inaugural.text ≠ [] then .fromResponseText inaugural.text
             else .scraped }
  else
    match runMachineLoop messages with
    | Option.none => Option.none
    | some status =>
      some { success := none,
             errorMessage :=
               if status ≠ 0 then
                 (if stderrBytes.length > 0 then .fromStderr stderrBytes
                  else .generic status)
               else .none }

/-- C10: refuted as stated — on every session whose inaugural response is an
OK response, the completion event posted when the worker loop exits carries
the *unassigned* success flag (`none`), not `success = true`: the source
assigns `success` only on the non-OK branch and reads it uninitialized on
the OK path. -/
theorem claim_C10_success_unassigned (inaugural : MameResponse)
    (messages : List RunMachineMessage) (stderrBytes : ByteStr)
    (ev : RunMachineCompleted)
    (hok : inaugural.rtype = MameResponseType.ok)
    (hev : runMachineProcessModel inaugural messages stderrBytes = some ev) :
    ev.success = none := by
  unfold runMachineProcessModel at hev
  rw [if_neg (by simp [hok])] at hev
  cases hloop : runMachineLoop messages with
  | none =>
    rw [hloop] at hev
    exact absurd hev (by simp)
  | some status =>
    rw [hloop] at hev
    simp only [Option.some.injEq] at hev
    rw [← hev]

theorem claim_C10_witness :
    (MameResponse.mk MameResponseType.ok []).rtype = MameResponseType.ok ∧
    (runMachineProcessModel ⟨MameResponseType.ok, []⟩
        [RunMachineMessage.terminated 0] [] =
      some { success := none, errorMessage := RunErrorMessage.none }) ∧
    ({ success := none, errorMessage := RunErrorMessage.none } :
        RunMachineCompleted).success = none :=
  ⟨rfl, by decide,
    claim_C10_success_unassigned ⟨MameResponseType.ok, []⟩
      [RunMachineMessage.terminated 0] []
      { success := none, errorMessage := RunErrorMessage.none }
      rfl (by decide)⟩

/-! ## Claim C2: cross-reference fix-up -/

theorem forall₂_mem {α β : Type _} {R : α → β → Prop} {l1 : List α}
    {l2 : List β} (h : List.Forall₂ R l1 l2) {x : α} (hx : x ∈ l1) :
    ∃ y ∈ l2, R x y := by
  induction h with
  | nil => simp at hx
  | cons hr _ ih =>
    rcases List.mem_cons.mp hx with he | hm
    · subst he
      exact ⟨_, by simp, hr⟩
    · obtain ⟨y, hy, hxy⟩ := ih hm
      exact ⟨y, by simp [hy], hxy⟩

/-- Index of the first element satisfying a predicate. -/
def findIdxSrch {α : Type _} (p : α → Bool) : List α → Option Nat
  | [] => none
  | x :: xs => if p x then some 0 else (findIdxSrch p xs).map (· + 1)

theorem findIdxSrch_map {α β : Type _} (p : β → Bool) (f : α → β) :
    ∀ l : List α, findIdxSrch p (l.map f) = findIdxSrch (fun x => p (f x)) l
  | [] => rfl
  | x :: xs => by
    simp only [List.map_cons, findIdxSrch, findIdxSrch_map p f xs]

theorem findIdxSrch_congr {α : Type _} {p q : α → Bool} :
    ∀ l : List α, (∀ x ∈ l, p x = q x) → findIdxSrch p l = findIdxSrch q l
  | [], _ => rfl
  | x :: xs, h => by
    simp only [findIdxSrch, h x (by simp)]
    rw [findIdxSrch_congr xs (fun y hy => h y (by simp [hy]))]

/-- String-table map extension: every recorded entry stays recorded. -/
def StExt (st st' : StringTable) : Prop := ∀ p ∈ st.map, p ∈ st'.map

theorem StExt.refl (st : StringTable) : StExt st st := fun _ hp => hp

theorem StExt.trans {s1 s2 s3 : StringTable} (h1 : StExt s1 s2) (h2 : StExt s2 s3) :
    StExt s1 s3 := fun p hp => h2 p (h1 p hp)

theorem StExt.ofGet {st st' : StringTable} {s : ByteStr} {v : Nat}
    (h : st.get s = .ok (v, st')) : StExt st st' := get_ok_mapSub h

theorem StExt.embed (st : StringTable) (bytes : List Nat) :
    StExt st (st.embedValue bytes) := fun _ hp => hp

theorem refFor_ext {st st' : StringTable} (hext : StExt st st') {v : Nat}
    {s : ByteStr} (h : st.refFor v s) : st'.refFor v s := by
  rcases h with hd | hm
  · exact Or.inl hd
  · exact Or.inr (hext _ hm)

/-- The (name, cloneof, romof) raw attribute triple of one machine element. -/
abbrev MachineSpec := Option ByteStr × Option ByteStr × Option ByteStr

/-- The (name, cloneof, romof) attribute triples of the machine elements of
a document, in document order. -/
def machineSpecs (events : List XmlEvent) : List MachineSpec :=
  events.filterMap (fun e =>
    match e with
    | .machineBegin name _ cloneof romof _ _ _ _ => some (name, cloneof, romof)
    | _ => none)

/-- A machine record's three name-reference fields stand for the raw
attribute values of its originating `machine` element (absent attributes
interned as the empty string). -/
def MachAlign (st : StringTable) (m : BinMachine) (spec : MachineSpec) : Prop :=
  st.refFor m.m_name_strindex (spec.1.getD []) ∧
  st.refFor m.m_clone_of_machindex (spec.2.1.getD []) ∧
  st.refFor m.m_rom_of_machindex (spec.2.2.getD [])

theorem machAlign_ext {st st' : StringTable} (hext : StExt st st')
    {m : BinMachine} {spec : MachineSpec} (h : MachAlign st m spec) :
    MachAlign st' m spec :=
  ⟨refFor_ext hext h.1, refFor_ext hext h.2.1, refFor_ext hext h.2.2⟩

/-- Valid attribute content: an attribute, when present, holds valid
C-string bytes. -/
def optOk : Option ByteStr → Prop
  | none => True
  | some s => strOk s

instance (v : Option ByteStr) : Decidable (optOk v) := by
  unfold optOk
  cases v <;> infer_instance

theorem optOk_getD {v : Option ByteStr} (h : optOk v) : strOk (v.getD []) := by
  cases v with
  | none => intro b hb; simp at hb
  | some s => exact h

/-- All strings carried by one event are valid C-string content. -/
def eventOk : XmlEvent → Prop
  | .mameBegin build => optOk build
  | .machineBegin name sourcefile cloneof romof _ _ _ _ =>
    optOk name ∧ optOk sourcefile ∧ optOk cloneof ∧ optOk romof
  | .descriptionEnd content => strOk content
  | .yearEnd content => strOk content
  | .manufacturerEnd content => strOk content
  | .biossetBegin name description _ => optOk name ∧ optOk description
  | .romBegin name bios _ _ _ merge region _ _ _ =>
    optOk name ∧ optOk bios ∧ optOk merge ∧ optOk region
  | .diskBegin name _ merge region _ _ _ _ =>
    optOk name ∧ optOk merge ∧ optOk region
  | .featureBegin _ _ _ => True
  | .chipBegin _ name tag _ => optOk name ∧ optOk tag
  | .displayBegin tag _ _ _ _ _ _ _ _ _ _ _ _ _ => optOk tag
  | .sampleBegin name => optOk name
  | .configurationBegin name tag _ => optOk name ∧ optOk tag
  | .confsettingBegin name _ => optOk name
  | .conditionBegin tag _ _ _ => optOk tag
  | .deviceBegin dtype tag iface _ => optOk dtype ∧ optOk tag ∧ optOk iface
  | .deviceInstanceBegin name => optOk name
  | .deviceExtensionBegin name => optOk name
  | .deviceEnd => True
  | .driverBegin _ _ _ _ _ _ => True
  | .slotBegin name => optOk name
  | .slotoptionBegin name devname _ => optOk name ∧ optOk devname
  | .softwarelistBegin name filter _ => optOk name ∧ optOk filter
  | .ramoptionBegin name _ => optOk name
  | .ramoptionEnd _ => True
  | .soundBegin _ => True

instance (e : XmlEvent) : Decidable (eventOk e) := by
  unfold eventOk
  cases e <;> infer_instance

/-- The alignment invariant carried through event processing: a well-formed
string table, machines aligned one-to-one with the machine elements consumed
so far, and valid accumulated device-extension bytes. -/
def Inv2 (b : Builder) (specs : List MachineSpec) : Prop :=
  b.strings.WF ∧ List.Forall₂ (MachAlign b.strings) b.machines specs ∧
  strOk b.currentDeviceExtensions

theorem updateLast_forall₂ {α β : Type _} {R : α → β → Prop} {f : α → α}
    {ms ms' : List α} {specs : List β}
    (hupd : updateLast f ms = .ok ms') (hall : List.Forall₂ R ms specs)
    (hf : ∀ a s, R a s → R (f a) s) : List.Forall₂ R ms' specs := by
  induction ms generalizing ms' specs with
  | nil => simp [updateLast] at hupd
  | cons m rest ih =>
    cases hall with
    | cons hr hrest =>
      cases rest with
      | nil =>
        simp only [updateLast, Except.ok.injEq] at hupd
        cases hrest
        rw [← hupd]
        exact List.Forall₂.cons (hf _ _ hr) List.Forall₂.nil
      | cons r rest' =>
        simp only [updateLast] at hupd
        cases hrec : updateLast f (r :: rest') with
        | error e =>
          rw [hrec] at hupd
          simp [Except.map] at hupd
        | ok tail' =>
          rw [hrec] at hupd
          simp only [Except.map, Except.ok.injEq] at hupd
          rw [← hupd]
          exact List.Forall₂.cons hr (ih hrec hrest)

/-- The machine-spec contribution of a single event. -/
def eventSpec : XmlEvent → List MachineSpec
  | .machineBegin name _ cloneof romof _ _ _ _ => [(name, cloneof, romof)]
  | _ => []

theorem machineSpecs_cons (e : XmlEvent) (evs : List XmlEvent) :
    machineSpecs (e :: evs) = eventSpec e ++ machineSpecs evs := by
  cases e <;> rfl

theorem processEvent_inv2 {b b' : Builder} {e : XmlEvent}
    {specs : List MachineSpec}
    (h : processEvent b e = .ok b') (hok : eventOk e) (hinv : Inv2 b specs) :
    Inv2 b' (specs ++ eventSpec e) := by
  obtain ⟨hwf, hall, hcde⟩ := hinv
  cases e with
  | mameBegin build =>
    simp only [processEvent, exceptBind_ok, Except.ok.injEq] at h
    rcases h with ⟨⟨v1, s1⟩, hg1, hb⟩
    subst hb
    have hwf1 := get_preserves_WF hwf (optOk_getD hok) hg1
    simp only [eventSpec, List.append_nil]
    exact ⟨hwf1, List.Forall₂.imp
      (fun a s hr => machAlign_ext (StExt.ofGet hg1) hr) hall, hcde⟩
  | machineBegin name sourcefile cloneof romof runnable isbios isdevice ismechanical =>
    simp only [processEvent, exceptBind_ok, Except.ok.injEq] at h
    rcases h with ⟨⟨n1, s1⟩, hg1, ⟨n2, s2⟩, hg2, ⟨n3, s3⟩, hg3, ⟨n4, s4⟩, hg4,
      r1, hr1, r2, hr2, r3, hr3, r4, hr4, r5, hr5, r6, hr6, r7, hr7, r8, hr8,
      r9, hr9, r10, hr10, r11, hr11, r12, hr12, hb⟩
    subst hb
    obtain ⟨he1, he2, he3, he4⟩ := hok
    have hwf1 := get_preserves_WF hwf (optOk_getD he1) hg1
    have hwf2 := get_preserves_WF hwf1 (optOk_getD he2) hg2
    have hwf3 := get_preserves_WF hwf2 (optOk_getD he3) hg3
    have hwf4 := get_preserves_WF hwf3 (optOk_getD he4) hg4
    have hx1 := StExt.ofGet hg1
    have hx2 := StExt.ofGet hg2
    have hx3 := StExt.ofGet hg3
    have hx4 := StExt.ofGet hg4
    have hxT := hx1.trans (hx2.trans (hx3.trans hx4))
    simp only [eventSpec]
    refine ⟨hwf4, ?_, hcde⟩
    refine List.rel_append
      (List.Forall₂.imp (fun a s hr => machAlign_ext hxT hr) hall) ?_
    refine List.Forall₂.cons ?_ List.Forall₂.nil
    refine ⟨?_, ?_, ?_⟩
    · exact refFor_ext (hx2.trans (hx3.trans hx4)) (get_ok_refFor hg1)
    · exact refFor_ext hx4 (get_ok_refFor hg3)
    · exact get_ok_refFor hg4
  | descriptionEnd content =>
    simp only [processEvent, exceptBind_ok, Except.ok.injEq] at h
    rcases h with ⟨⟨v1, s1⟩, hg1, ms, hupd, hb⟩
    subst hb
    have hwf1 := get_preserves_WF hwf hok hg1
    simp only [eventSpec, List.append_nil]
    refine ⟨hwf1, ?_, hcde⟩
    exact updateLast_forall₂ hupd
      (List.Forall₂.imp (fun a s hr => machAlign_ext (StExt.ofGet hg1) hr) hall)
      (fun a s hr => hr)
  | yearEnd content =>
    simp only [processEvent, exceptBind_ok, Except.ok.injEq] at h
    rcases h with ⟨⟨v1, s1⟩, hg1, ms, hupd, hb⟩
    subst hb
    have hwf1 := get_preserves_WF hwf hok hg1
    simp only [eventSpec, List.append_nil]
    refine ⟨hwf1, ?_, hcde⟩
    exact updateLast_forall₂ hupd
      (List.Forall₂.imp (fun a s hr => machAlign_ext (StExt.ofGet hg1) hr) hall)
      (fun a s hr => hr)
  | manufacturerEnd content =>
    simp only [processEvent, exceptBind_ok, Except.ok.injEq] at h
    rcases h with ⟨⟨v1, s1⟩, hg1, ms, hupd, hb⟩
    subst hb
    have hwf1 := get_preserves_WF hwf hok hg1
    simp only [eventSpec, List.append_nil]
    refine ⟨hwf1, ?_, hcde⟩
    exact updateLast_forall₂ hupd
      (List.Forall₂.imp (fun a s hr => machAlign_ext (StExt.ofGet hg1) hr) hall)
      (fun a s hr => hr)
  | biossetBegin name description dflt =>
    simp only [processEvent, exceptBind_ok, Except.ok.injEq] at h
    rcases h with ⟨⟨n1, s1⟩, hg1, ⟨n2, s2⟩, hg2, ms, hupd, hb⟩
    subst hb
    obtain ⟨he1, he2⟩ := hok
    have hwf1 := get_preserves_WF hwf (optOk_getD he1) hg1
    have hwf2 := get_preserves_WF hwf1 (optOk_getD he2) hg2
    have hx1 := StExt.ofGet hg1
    have hx2 := StExt.ofGet hg2
    have hxT := hx1.trans (hx2)
    simp only [eventSpec, List.append_nil]
    refine ⟨hwf2, ?_, hcde⟩
    exact updateLast_forall₂ hupd
      (List.Forall₂.imp (fun a s hr => machAlign_ext hxT hr) hall)
      (fun a s hr => hr)
  | romBegin name bios size crc sha1 merge region offset status optionalAttr =>
    simp only [processEvent, exceptBind_ok, Except.ok.injEq] at h
    rcases h with ⟨⟨n1, s1⟩, hg1, ⟨n2, s2⟩, hg2, ⟨n3, s3⟩, hg3, ⟨n4, s4⟩, hg4, ms, hupd, hb⟩
    subst hb
    obtain ⟨he1, he2, he3, he4⟩ := hok
    have hwf1 := get_preserves_WF hwf (optOk_getD he1) hg1
    have hwf2 := get_preserves_WF hwf1 (optOk_getD he2) hg2
    have hwf3 := get_preserves_WF hwf2 (optOk_getD he3) hg3
    have hwf4 := get_preserves_WF hwf3 (optOk_getD he4) hg4
    have hx1 := StExt.ofGet hg1
    have hx2 := StExt.ofGet hg2
    have hx3 := StExt.ofGet hg3
    have hx4 := StExt.ofGet hg4
    have hxT := hx1.trans (hx2.trans (hx3.trans (hx4)))
    simp only [eventSpec, List.append_nil]
    refine ⟨hwf4, ?_, hcde⟩
    exact updateLast_forall₂ hupd
      (List.Forall₂.imp (fun a s hr => machAlign_ext hxT hr) hall)
      (fun a s hr => hr)
  | diskBegin name sha1 merge region indexAttr writable status optionalAttr =>
    simp only [processEvent, exceptBind_ok, Except.ok.injEq] at h
    rcases h with ⟨⟨n1, s1⟩, hg1, ⟨n2, s2⟩, hg2, ⟨n3, s3⟩, hg3, ms, hupd, hb⟩
    subst hb
    obtain ⟨he1, he2, he3⟩ := hok
    have hwf1 := get_preserves_WF hwf (optOk_getD he1) hg1
    have hwf2 := get_preserves_WF hwf1 (optOk_getD he2) hg2
    have hwf3 := get_preserves_WF hwf2 (optOk_getD he3) hg3
    have hx1 := StExt.ofGet hg1
    have hx2 := StExt.ofGet hg2
    have hx3 := StExt.ofGet hg3
    have hxT := hx1.trans (hx2.trans (hx3))
    simp only [eventSpec, List.append_nil]
    refine ⟨hwf3, ?_, hcde⟩
    exact updateLast_forall₂ hupd
      (List.Forall₂.imp (fun a s hr => machAlign_ext hxT hr) hall)
      (fun a s hr => hr)
  | featureBegin ftype status overall =>
    simp only [processEvent, exceptBind_ok, Except.ok.injEq] at h
    rcases h with ⟨ms, hupd, hb⟩
    subst hb
    simp only [eventSpec, List.append_nil]
    refine ⟨hwf, ?_, hcde⟩
    exact updateLast_forall₂ hupd hall (fun a s hr => hr)
  | chipBegin ctype name tag clock =>
    simp only [processEvent, exceptBind_ok, Except.ok.injEq] at h
    rcases h with ⟨⟨n1, s1⟩, hg1, ⟨n2, s2⟩, hg2, ms, hupd, hb⟩
    subst hb
    obtain ⟨he1, he2⟩ := hok
    have hwf1 := get_preserves_WF hwf (optOk_getD he1) hg1
    have hwf2 := get_preserves_WF hwf1 (optOk_getD he2) hg2
    have hx1 := StExt.ofGet hg1
    have hx2 := StExt.ofGet hg2
    have hxT := hx1.trans (hx2)
    simp only [eventSpec, List.append_nil]
    refine ⟨hwf2, ?_, hcde⟩
    exact updateLast_forall₂ hupd
      (List.Forall₂.imp (fun a s hr => machAlign_ext hxT hr) hall)
      (fun a s hr => hr)
  | displayBegin tag width height refresh pixclock htotal hbend hbstart vtotal vbend vbstart dtype rotate flipx =>
    simp only [processEvent, exceptBind_ok, Except.ok.injEq] at h
    rcases h with ⟨⟨n1, s1⟩, hg1, ms, hupd, hb⟩
    subst hb
    have hwf1 := get_preserves_WF hwf (optOk_getD hok) hg1
    have hx1 := StExt.ofGet hg1
    have hxT := hx1
    simp only [eventSpec, List.append_nil]
    refine ⟨hwf1, ?_, hcde⟩
    exact updateLast_forall₂ hupd
      (List.Forall₂.imp (fun a s hr => machAlign_ext hxT hr) hall)
      (fun a s hr => hr)
  | sampleBegin name =>
    simp only [processEvent, exceptBind_ok, Except.ok.injEq] at h
    rcases h with ⟨⟨n1, s1⟩, hg1, ms, hupd, hb⟩
    subst hb
    have hwf1 := get_preserves_WF hwf (optOk_getD hok) hg1
    have hx1 := StExt.ofGet hg1
    have hxT := hx1
    simp only [eventSpec, List.append_nil]
    refine ⟨hwf1, ?_, hcde⟩
    exact updateLast_forall₂ hupd
      (List.Forall₂.imp (fun a s hr => machAlign_ext hxT hr) hall)
      (fun a s hr => hr)
  | configurationBegin name tag mask =>
    simp only [processEvent, exceptBind_ok, Except.ok.injEq] at h
    rcases h with ⟨⟨n1, s1⟩, hg1, ⟨n2, s2⟩, hg2, r1, hr1, ms, hupd, hb⟩
    subst hb
    obtain ⟨he1, he2⟩ := hok
    have hwf1 := get_preserves_WF hwf (optOk_getD he1) hg1
    have hwf2 := get_preserves_WF hwf1 (optOk_getD he2) hg2
    have hx1 := StExt.ofGet hg1
    have hx2 := StExt.ofGet hg2
    have hxT := hx1.trans (hx2)
    simp only [eventSpec, List.append_nil]
    refine ⟨hwf2, ?_, hcde⟩
    exact updateLast_forall₂ hupd
      (List.Forall₂.imp (fun a s hr => machAlign_ext hxT hr) hall)
      (fun a s hr => hr)
  | confsettingBegin name value =>
    simp only [processEvent, exceptBind_ok, Except.ok.injEq] at h
    rcases h with ⟨⟨n1, s1⟩, hg1, r1, hr1, cs, hupd, hb⟩
    subst hb
    have hwf1 := get_preserves_WF hwf (optOk_getD hok) hg1
    simp only [eventSpec, List.append_nil]
    exact ⟨hwf1, List.Forall₂.imp
      (fun a s hr => machAlign_ext (StExt.ofGet hg1) hr) hall, hcde⟩
  | conditionBegin tag relation mask value =>
    simp only [processEvent, exceptBind_ok, Except.ok.injEq] at h
    rcases h with ⟨⟨n1, s1⟩, hg1, hb⟩
    subst hb
    have hwf1 := get_preserves_WF hwf (optOk_getD hok) hg1
    simp only [eventSpec, List.append_nil]
    exact ⟨hwf1, List.Forall₂.imp
      (fun a s hr => machAlign_ext (StExt.ofGet hg1) hr) hall, hcde⟩
  | deviceBegin dtype tag iface mandatory =>
    simp only [processEvent, exceptBind_ok, Except.ok.injEq] at h
    rcases h with ⟨⟨n1, s1⟩, hg1, ⟨n2, s2⟩, hg2, ⟨n3, s3⟩, hg3, ms, hupd, hb⟩
    subst hb
    obtain ⟨he1, he2, he3⟩ := hok
    have hwf1 := get_preserves_WF hwf (optOk_getD he1) hg1
    have hwf2 := get_preserves_WF hwf1 (optOk_getD he2) hg2
    have hwf3 := get_preserves_WF hwf2 (optOk_getD he3) hg3
    have hxT := (StExt.ofGet hg1).trans ((StExt.ofGet hg2).trans (StExt.ofGet hg3))
    simp only [eventSpec, List.append_nil]
    refine ⟨hwf3, ?_, ?_⟩
    · exact updateLast_forall₂ hupd
        (List.Forall₂.imp (fun a s hr => machAlign_ext hxT hr) hall)
        (fun a s hr => hr)
    · intro x hx
      simp at hx
  | deviceInstanceBegin name =>
    simp only [processEvent, exceptBind_ok, Except.ok.injEq] at h
    rcases h with ⟨⟨n1, s1⟩, hg1, ds, hupd, hb⟩
    subst hb
    have hwf1 := get_preserves_WF hwf (optOk_getD hok) hg1
    simp only [eventSpec, List.append_nil]
    exact ⟨hwf1, List.Forall₂.imp
      (fun a s hr => machAlign_ext (StExt.ofGet hg1) hr) hall, hcde⟩
  | deviceExtensionBegin name =>
    cases name with
    | some n =>
      simp only [processEvent, Except.ok.injEq] at h
      subst h
      simp only [eventSpec, List.append_nil]
      refine ⟨hwf, hall, ?_⟩
      intro x hx
      rcases List.mem_append.mp hx with hx2 | hx2
      · rcases List.mem_append.mp hx2 with hx3 | hx3
        · exact hcde x hx3
        · exact hok x hx3
      · have : x = 44 := by simpa using hx2
        subst this
        exact ⟨by omega, by omega⟩
    | none =>
      simp only [processEvent, Except.ok.injEq] at h
      subst h
      simp only [eventSpec, List.append_nil]
      exact ⟨hwf, hall, hcde⟩
  | deviceEnd =>
    by_cases hce : b.currentDeviceExtensions = []
    · simp only [processEvent, if_pos hce, Except.ok.injEq] at h
      subst h
      simp only [eventSpec, List.append_nil]
      exact ⟨hwf, hall, hcde⟩
    · simp only [processEvent, if_neg hce, exceptBind_ok, Except.ok.injEq] at h
      rcases h with ⟨⟨n1, s1⟩, hg1, ds, hupd, hb⟩
      subst hb
      have hwf1 := get_preserves_WF hwf hcde hg1
      simp only [eventSpec, List.append_nil]
      exact ⟨hwf1, List.Forall₂.imp
        (fun a s hr => machAlign_ext (StExt.ofGet hg1) hr) hall, hcde⟩
  | driverBegin status emulation cocktail savestate unofficial incomplete =>
    simp only [processEvent, exceptBind_ok, Except.ok.injEq] at h
    rcases h with ⟨ms, hupd, hb⟩
    subst hb
    simp only [eventSpec, List.append_nil]
    exact ⟨hwf, updateLast_forall₂ hupd hall (fun a s hr => hr), hcde⟩
  | soundBegin channels =>
    simp only [processEvent, exceptBind_ok, Except.ok.injEq] at h
    rcases h with ⟨ms, hupd, hb⟩
    subst hb
    simp only [eventSpec, List.append_nil]
    exact ⟨hwf, updateLast_forall₂ hupd hall (fun a s hr => hr), hcde⟩
  | slotBegin name =>
    simp only [processEvent, exceptBind_ok, Except.ok.injEq] at h
    rcases h with ⟨⟨n1, s1⟩, hg1, r1, hr1, ms, hupd, hb⟩
    subst hb
    have hwf1 := get_preserves_WF hwf (optOk_getD hok) hg1
    have hx1 := StExt.ofGet hg1
    have hxT := hx1
    simp only [eventSpec, List.append_nil]
    refine ⟨hwf1, ?_, hcde⟩
    exact updateLast_forall₂ hupd
      (List.Forall₂.imp (fun a s hr => machAlign_ext hxT hr) hall)
      (fun a s hr => hr)
  | slotoptionBegin name devname dflt =>
    simp only [processEvent, exceptBind_ok, Except.ok.injEq] at h
    rcases h with ⟨⟨n1, s1⟩, hg1, ⟨n2, s2⟩, hg2, ss, hupd, hb⟩
    subst hb
    obtain ⟨he1, he2⟩ := hok
    have hwf1 := get_preserves_WF hwf (optOk_getD he1) hg1
    have hwf2 := get_preserves_WF hwf1 (optOk_getD he2) hg2
    have hxT := (StExt.ofGet hg1).trans (StExt.ofGet hg2)
    simp only [eventSpec, List.append_nil]
    exact ⟨hwf2, List.Forall₂.imp
      (fun a s hr => machAlign_ext hxT hr) hall, hcde⟩
  | softwarelistBegin name filter status =>
    simp only [processEvent, exceptBind_ok, Except.ok.injEq] at h
    rcases h with ⟨⟨n1, s1⟩, hg1, ⟨n2, s2⟩, hg2, ms, hupd, hb⟩
    subst hb
    obtain ⟨he1, he2⟩ := hok
    have hwf1 := get_preserves_WF hwf (optOk_getD he1) hg1
    have hwf2 := get_preserves_WF hwf1 (optOk_getD he2) hg2
    have hx1 := StExt.ofGet hg1
    have hx2 := StExt.ofGet hg2
    have hxT := hx1.trans (hx2)
    simp only [eventSpec, List.append_nil]
    refine ⟨hwf2, ?_, hcde⟩
    exact updateLast_forall₂ hupd
      (List.Forall₂.imp (fun a s hr => machAlign_ext hxT hr) hall)
      (fun a s hr => hr)
  | ramoptionBegin name dflt =>
    simp only [processEvent, exceptBind_ok, Except.ok.injEq] at h
    rcases h with ⟨⟨n1, s1⟩, hg1, ms, hupd, hb⟩
    subst hb
    have hwf1 := get_preserves_WF hwf (optOk_getD hok) hg1
    have hx1 := StExt.ofGet hg1
    have hxT := hx1
    simp only [eventSpec, List.append_nil]
    refine ⟨hwf1, ?_, hcde⟩
    exact updateLast_forall₂ hupd
      (List.Forall₂.imp (fun a s hr => machAlign_ext hxT hr) hall)
      (fun a s hr => hr)
  | ramoptionEnd content =>
    simp only [processEvent, exceptBind_ok, Except.ok.injEq] at h
    rcases h with ⟨rs, hupd, hb⟩
    subst hb
    simp only [eventSpec, List.append_nil]
    exact ⟨hwf, hall, hcde⟩

theorem inv2_init : Inv2 Builder.init [] := by
  refine ⟨init_WF, List.Forall₂.nil, ?_⟩
  intro x hx
  simp [Builder.init] at hx

theorem processEvents_inv2 {b bc : Builder} {evs : List XmlEvent}
    {specs : List MachineSpec}
    (h : processEvents b evs = .ok bc) (hok : ∀ e ∈ evs, eventOk e)
    (hinv : Inv2 b specs) : Inv2 bc (specs ++ machineSpecs evs) := by
  induction evs generalizing b specs with
  | nil =>
    simp only [processEvents, Except.ok.injEq] at h
    subst h
    simpa [machineSpecs] using hinv
  | cons e rest ih =>
    simp only [processEvents, exceptBind_ok] at h
    rcases h with ⟨bmid, hstep, hrest⟩
    have h1 := processEvent_inv2 hstep (hok e (by simp)) hinv
    have h2 := ih hrest (fun x hx => hok x (by simp [hx])) h1
    rw [machineSpecs_cons, ← List.append_assoc]
    exact h2

theorem findIdxSrch_eq_none {α : Type _} {p : α → Bool} :
    ∀ {l : List α}, (∀ x ∈ l, p x = false) → findIdxSrch p l = none
  | [], _ => rfl
  | x :: xs, h => by
    simp only [findIdxSrch, h x (by simp), Bool.false_eq_true, if_false]
    rw [findIdxSrch_eq_none (fun y hy => h y (by simp [hy]))]
    rfl

theorem forall₂_map_eq {α β γ : Type _} {R : α → β → Prop} {f : α → γ}
    {g : β → γ} (hfg : ∀ a b, R a b → f a = g b) {l1 : List α} {l2 : List β}
    (h : List.Forall₂ R l1 l2) : l1.map f = l2.map g := by
  induction h with
  | nil => rfl
  | cons hr _ ih => simp only [List.map_cons, hfg _ _ hr, ih]

theorem buildMachineIndexMapGo_find (k : Nat) :
    ∀ (l : List BinMachine) (m : List (Nat × Nat)) (i : Nat),
    (buildMachineIndexMapGo m i l).find? (fun p => p.1 == k) =
      (m.find? (fun p => p.1 == k)).or
        ((findIdxSrch (fun mach => mach.m_name_strindex == k) l).map
          (fun j => (k, i + j)))
  | [], m, i => by simp [buildMachineIndexMapGo, findIdxSrch]
  | mach :: rest, m, i => by
    unfold buildMachineIndexMapGo
    rw [buildMachineIndexMapGo_find k rest _ (i + 1)]
    by_cases hname : mach.m_name_strindex = k
    · subst hname
      simp only [findIdxSrch, beq_self_eq_true, if_true]
      unfold emplaceNew
      by_cases hm : (m.find? (fun p => p.1 == mach.m_name_strindex)).isSome
      · obtain ⟨q, hq⟩ := Option.isSome_iff_exists.mp hm
        rw [if_pos hm, hq]
        rfl
      · have hmn : m.find? (fun p => p.1 == mach.m_name_strindex) = none :=
          Option.not_isSome_iff_eq_none.mp hm
        rw [if_neg hm, List.find?_append, hmn]
        simp
    · have hb : (mach.m_name_strindex == k) = false := by
        simpa using hname
      simp only [findIdxSrch, hb, Bool.false_eq_true, if_false]
      have hemp : (emplaceNew m mach.m_name_strindex i).find?
          (fun p => p.1 == k) = m.find? (fun p => p.1 == k) := by
        unfold emplaceNew
        split
        · rfl
        · rw [List.find?_append]
          have : List.find? (fun p => p.1 == k) [(mach.m_name_strindex, i)]
              = none := by
            simp [List.find?, hb]
          rw [this]
          simp
      rw [hemp]
      cases hfi : findIdxSrch (fun mach => mach.m_name_strindex == k) rest with
      | none => simp [hfi]
      | some j =>
        cases List.find? (fun p => p.1 == k) m with
        | some q => rfl
        | none =>
          show some ((k : Nat), i + 1 + j) = some ((k : Nat), i + (j + 1))
          have he : i + 1 + j = i + (j + 1) := by omega
          rw [he]

theorem machineIndexMap_spec {st : StringTable} (hwf : st.WF)
    (hbound : st.data.length ≤ ssoTag) (sorted : List BinMachine)
    (hmn : ∀ mach ∈ sorted,
      ∃ nm, st.refFor mach.m_name_strindex nm ∧ nm ≠ [])
    {v : Nat} {s : ByteStr} (href : st.refFor v s) :
    machineIndexFromStringIndex (buildMachineIndexMap ssoTag sorted) v =
      (match findIdxSrch
          (fun mach => st.lookupRef mach.m_name_strindex == s) sorted with
       | some j => j
       | none => UINT32_MAX) := by
  have hnonempty : ∀ mach ∈ sorted, st.lookupRef mach.m_name_strindex ≠ [] := by
    intro mach hm
    obtain ⟨nm, hrefm, hne⟩ := hmn mach hm
    rw [lookupRef_refFor hwf hbound hrefm]
    exact hne
  unfold machineIndexFromStringIndex buildMachineIndexMap
  rw [buildMachineIndexMapGo_find]
  by_cases hvt : v = ssoTag
  · subst hvt
    have hdec : tryDecodeAsSmallString ssoTag = some [] := by
      unfold tryDecodeAsSmallString
      rw [if_pos ⟨le_refl _, by omega⟩, Nat.sub_self]
      simp [unpackBytes]
    have hrefnil : st.refFor ssoTag [] := Or.inl hdec
    have hs : s = [] := refFor_str_unique hwf hbound href hrefnil
    subst hs
    have hfirst : List.find? (fun p => p.1 == ssoTag)
        (emplaceNew [] ssoTag UINT32_MAX) = some (ssoTag, UINT32_MAX) := by
      simp [emplaceNew, List.find?]
    rw [hfirst]
    have hnone : findIdxSrch
        (fun mach => st.lookupRef mach.m_name_strindex == ([] : ByteStr))
        sorted = none :=
      findIdxSrch_eq_none (fun mach hm =>
        beq_eq_false_iff_ne.mpr (hnonempty mach hm))
    rw [hnone]
    rfl
  · have hfirst : List.find? (fun p => p.1 == v)
        (emplaceNew [] ssoTag UINT32_MAX) = none := by
      have hb : (ssoTag == v) = false :=
        beq_eq_false_iff_ne.mpr (fun he => hvt he.symm)
      simp [emplaceNew, List.find?, hb]
    have hcongr : findIdxSrch (fun mach => mach.m_name_strindex == v) sorted
        = findIdxSrch
            (fun mach => st.lookupRef mach.m_name_strindex == s) sorted := by
      apply findIdxSrch_congr
      intro mach hm
      obtain ⟨nm, hrefm, hne⟩ := hmn mach hm
      have hlm := lookupRef_refFor hwf hbound hrefm
      by_cases hveq : mach.m_name_strindex = v
      · have hnm : nm = s := refFor_str_unique hwf hbound (hveq ▸ hrefm) href
        rw [hlm, hnm, hveq]
        simp
      · have h1 : (mach.m_name_strindex == v) = false :=
          beq_eq_false_iff_ne.mpr hveq
        have hnes : nm ≠ s := fun he =>
          hveq (refFor_val_unique hwf (he ▸ hrefm) href)
        have h2 : (st.lookupRef mach.m_name_strindex == s) = false := by
          rw [hlm]
          exact beq_eq_false_iff_ne.mpr hnes
        rw [h1, h2]
    rw [hfirst, Option.none_or, ← hcongr]
    cases hfi : findIdxSrch (fun mach => mach.m_name_strindex == v) sorted with
    | none => rfl
    | some j => simp

/-- The claim-side resolution function, following the claim's words: the
final index (into the sorted machine table) of the machine whose looked-up
name equals the raw attribute value; the all-bits-set sentinel when the
attribute is absent or no machine of that name exists. -/
def specResolvedIndex (db : Database) (attr : Option ByteStr) : Nat :=
  match attr with
  | none => UINT32_MAX
  | some s =>
    match findIdxSrch
        (fun m => db.strings.lookupRef m.m_name_strindex == s) db.machines with
    | some j => j
    | none => UINT32_MAX

/-- C2: after a successful `process_xml`, the machine names of the final
table are exactly the machine elements' name attributes (as a permutation),
and every machine's `clone_of`/`rom_of` field holds the final index, in the
sorted machine table, of the machine whose name equals the machine's original
`cloneof`/`romof` attribute value — regardless of declaration order — with
the all-bits-set sentinel when the attribute is absent or no machine of that
name exists.  Hypotheses: the document's strings are valid C-string content,
machine names are present, nonempty and pairwise distinct, and the string
buffer stays below the small-string tag. -/
theorem claim_C2_reference_resolution (events : List XmlEvent) (db : Database)
    (h : processXml events = .ok db)
    (hok : ∀ e ∈ events, eventOk e)
    (hbound : db.strings.data.length ≤ ssoTag)
    (hnm : ∀ sp ∈ machineSpecs events, sp.1.getD [] ≠ [])
    (hnd : ((machineSpecs events).map (fun sp => sp.1.getD [])).Nodup) :
    (db.machines.map (fun m => db.strings.lookupRef m.m_name_strindex)).Perm
      ((machineSpecs events).map (fun sp => sp.1.getD [])) ∧
    ∀ m ∈ db.machines, ∀ sp ∈ machineSpecs events,
      db.strings.lookupRef m.m_name_strindex = sp.1.getD [] →
      m.m_clone_of_machindex = specResolvedIndex db sp.2.1 ∧
      m.m_rom_of_machindex = specResolvedIndex db sp.2.2 := by
  simp only [processXml, exceptBind_ok] at h
  rcases h with ⟨bc, hbc, hfin⟩
  obtain ⟨p, hget, hmach, hstr, _e1, _e2, _e3, _e4, _e5, _e6, _e7, _e8, _e9,
    _e10, _e11, _e12, _e13, _e14, _e15⟩ := finalizeBuilder_shape hfin
  have hinv := processEvents_inv2 hbc hok inv2_init
  simp only [List.nil_append] at hinv
  obtain ⟨hwfb, hall, _⟩ := hinv
  set st := bc.strings.embedValue magicStringtableEnd with hst
  have hp : p = (ssoTag, st) := by
    have h2 := get_empty st
    rw [h2] at hget
    exact ((Except.ok.injEq _ _).mp hget).symm
  have hdbstr : db.strings = st := by rw [hstr, hp]
  have hwf : st.WF := embedValue_preserves_WF hwfb _
  have hbound2 : st.data.length ≤ ssoTag := by rw [← hdbstr]; exact hbound
  have hall2 : List.Forall₂ (MachAlign st) bc.machines (machineSpecs events) :=
    List.Forall₂.imp (fun a s hr => machAlign_ext (StExt.embed _ _) hr) hall
  set sorted := sortByLt (machineNameLt st) bc.machines with hsorteddef
  have hperm : sorted.Perm bc.machines := sortByLt_perm _ _
  have hmem : ∀ mach ∈ sorted,
      ∃ sp ∈ machineSpecs events, MachAlign st mach sp := by
    intro mach hm
    exact forall₂_mem hall2 (hperm.subset hm)
  have hmn : ∀ mach ∈ sorted,
      ∃ nm, st.refFor mach.m_name_strindex nm ∧ nm ≠ [] := by
    intro mach hm
    obtain ⟨sp, hsp, hal⟩ := hmem mach hm
    exact ⟨sp.1.getD [], hal.1, hnm sp hsp⟩
  have hmach2 : db.machines = sorted.map
      (fixupMachine (buildMachineIndexMap ssoTag sorted)) := by
    rw [hmach, hp]
  have hres : ∀ (attr : Option ByteStr) (w : Nat),
      st.refFor w (attr.getD []) →
      machineIndexFromStringIndex (buildMachineIndexMap ssoTag sorted) w
        = specResolvedIndex db attr := by
    intro attr w hrefw
    rw [machineIndexMap_spec hwf hbound2 sorted hmn hrefw]
    cases attr with
    | none =>
      have hnone : findIdxSrch
          (fun mach => st.lookupRef mach.m_name_strindex ==
            ((none : Option ByteStr).getD [])) sorted = none :=
        findIdxSrch_eq_none (fun mach hm => by
          obtain ⟨nm, hrefm, hne⟩ := hmn mach hm
          rw [lookupRef_refFor hwf hbound2 hrefm]
          exact beq_eq_false_iff_ne.mpr hne)
      rw [hnone]
      rfl
    | some s =>
      simp only [specResolvedIndex]
      rw [hmach2, hdbstr, findIdxSrch_map]
      rfl
  constructor
  · have hmapeq : db.machines.map
        (fun m => db.strings.lookupRef m.m_name_strindex)
        = sorted.map (fun m => st.lookupRef m.m_name_strindex) := by
      rw [hmach2, hdbstr, List.map_map]
      exact List.map_congr_left (fun m _ => rfl)
    have hnameeq : bc.machines.map (fun m => st.lookupRef m.m_name_strindex)
        = (machineSpecs events).map (fun sp => sp.1.getD []) :=
      forall₂_map_eq (fun a sp hr => lookupRef_refFor hwf hbound2 hr.1) hall2
    rw [hmapeq, ← hnameeq]
    exact hperm.map _
  · intro m hm sp hsp hname
    rw [hmach2] at hm
    obtain ⟨mach, hmachmem, hfix⟩ := List.mem_map.mp hm
    subst hfix
    obtain ⟨spm, hspm, hal⟩ := hmem mach hmachmem
    have hlm : st.lookupRef mach.m_name_strindex = spm.1.getD [] :=
      lookupRef_refFor hwf hbound2 hal.1
    rw [hdbstr] at hname
    have hname2 : st.lookupRef mach.m_name_strindex = sp.1.getD [] := hname
    have hspsp : spm = sp :=
      List.inj_on_of_nodup_map hnd hspm hsp (by rw [← hlm, hname2])
    rw [hspsp] at hal
    exact ⟨hres sp.2.1 mach.m_clone_of_machindex hal.2.1,
           hres sp.2.2 mach.m_rom_of_machindex hal.2.2⟩

theorem claim_C2_witness :
    (∀ e ∈ c1wEvents, eventOk e) ∧
    c1wDb.strings.data.length ≤ ssoTag ∧
    (∀ sp ∈ machineSpecs c1wEvents, sp.1.getD [] ≠ []) ∧
    ((machineSpecs c1wEvents).map (fun sp => sp.1.getD [])).Nodup ∧
    ((c1wDb.machines.map
        (fun m => c1wDb.strings.lookupRef m.m_name_strindex)).Perm
      ((machineSpecs c1wEvents).map (fun sp => sp.1.getD [])) ∧
     ∀ m ∈ c1wDb.machines, ∀ sp ∈ machineSpecs c1wEvents,
       c1wDb.strings.lookupRef m.m_name_strindex = sp.1.getD [] →
       m.m_clone_of_machindex = specResolvedIndex c1wDb sp.2.1 ∧
       m.m_rom_of_machindex = specResolvedIndex c1wDb sp.2.2) :=
  ⟨by decide, by decide, by decide, by decide,
    claim_C2_reference_resolution c1wEvents c1wDb (by decide) (by decide)
      (by decide) (by decide) (by decide)⟩

/-! ## Claim C4: size narrowing -/

/-- A document whose single rom carries a `size` attribute exactly at the
32-bit capacity (`4294967295`). -/
def c4okEvents : List XmlEvent :=
  [ .mameBegin none,
    .machineBegin (some (asciiOf ['m', 'a', 'c', 'h'])) none none none none
      none none none,
    .romBegin (some (asciiOf ['r', 'o', 'm', '1'])) none
      (some (asciiOf ['4', '2', '9', '4', '9', '6', '7', '2', '9', '5']))
      none none none none none none none ]

/-- The same document with the `size` attribute one unit larger
(`4294967296`), the first value that no longer fits 32 bits. -/
def c4overEvents : List XmlEvent :=
  [ .mameBegin none,
    .machineBegin (some (asciiOf ['m', 'a', 'c', 'h'])) none none none none
      none none none,
    .romBegin (some (asciiOf ['r', 'o', 'm', '1'])) none
      (some (asciiOf ['4', '2', '9', '4', '9', '6', '7', '2', '9', '6']))
      none none none none none none none ]

/-- C4 counterexample: a rom `size` attribute one unit larger than the
32-bit capacity does **not** abort the build — `process_xml` succeeds and
the stored size silently defaults to 0, refuting the claim that every
non-round-tripping size value aborts with no database emitted (the abort
path guards only container sizes, not the `size` attribute). -/
theorem claim_C4_counterexample :
    (processXml c4overEvents).map
      (fun db => db.roms.map (fun r => r.m_size)) = Except.ok [0] := by
  decide

/-- C4 (amended): container sizes narrowed to the 32-bit index/count
fields go through `to_uint32`, which round-trips any value within 32-bit
capacity exactly and aborts the whole build with the distinguishable
array-size error otherwise (shown for the machine count of the
finalization stage); the rom `size` **attribute**, however, is parsed in
the XML layer: a decimal value within capacity is stored exactly (shown
for `4294967295`), while an out-of-range one parses as absent and the
field silently defaults to 0 instead of aborting. -/
theorem claim_C4_container_abort_size_default (n : Nat) (s : ByteStr)
    (bc : Builder) :
    (n < 2 ^ 32 → to_uint32 n = .ok n) ∧
    (2 ^ 32 ≤ n → to_uint32 n = .error .arraySizeOverflow) ∧
    (2 ^ 32 ≤ bc.machines.length →
      finalizeBuilder bc = .error .arraySizeOverflow) ∧
    (parseDecDigits s = some n → 2 ^ 32 ≤ n →
      (attrU32 (some s)).getD 0 = 0) ∧
    (parseDecDigits s = some n → n < 2 ^ 32 →
      (attrU32 (some s)).getD 0 = n) ∧
    (processXml c4okEvents).map
      (fun db => db.roms.map (fun r => r.m_size)) = Except.ok [2 ^ 32 - 1] := by
  refine ⟨?_, ?_, ?_, ?_, ?_, by decide⟩
  · intro h
    unfold to_uint32
    rw [if_pos (Nat.mod_eq_of_lt h), Nat.mod_eq_of_lt h]
  · intro h
    unfold to_uint32
    have hlt := Nat.mod_lt n (show 0 < 2 ^ 32 by norm_num)
    rw [if_neg (by omega)]
  · intro h
    have hto : to_uint32 bc.machines.length = .error .arraySizeOverflow := by
      unfold to_uint32
      have hlt := Nat.mod_lt bc.machines.length (show 0 < 2 ^ 32 by norm_num)
      rw [if_neg (by omega)]
    simp only [finalizeBuilder, hto]
    rfl
  · intro hparse hover
    show (parseUintAttr (2 ^ 32) s).getD 0 = 0
    unfold parseUintAttr
    rw [hparse]
    show (if n < 2 ^ 32 then some n else none).getD 0 = 0
    rw [if_neg (by omega)]
    rfl
  · intro hparse hlt
    show (parseUintAttr (2 ^ 32) s).getD 0 = n
    unfold parseUintAttr
    rw [hparse]
    show (if n < 2 ^ 32 then some n else none).getD 0 = n
    rw [if_pos hlt]
    rfl

theorem claim_C4_witness :
    to_uint32 (2 ^ 32) = .error .arraySizeOverflow ∧
    to_uint32 (2 ^ 32 - 1) = .ok (2 ^ 32 - 1) ∧
    (attrU32 (some (asciiOf
      ['4', '2', '9', '4', '9', '6', '7', '2', '9', '6']))).getD 0 = 0 :=
  ⟨(claim_C4_container_abort_size_default (2 ^ 32) [] Builder.init).2.1
      (le_refl _),
   (claim_C4_container_abort_size_default (2 ^ 32 - 1) [] Builder.init).1
      (by norm_num),
   (claim_C4_container_abort_size_default 4294967296
      (asciiOf ['4', '2', '9', '4', '9', '6', '7', '2', '9', '6'])
      Builder.init).2.2.2.1 (by decide) (by norm_num)⟩
